import Mathlib

/-!
# FTL-SSD simulator (7.17+.c): shallow embedding and verification

The simulator replays a trace of host requests against a model of a NAND
flash device.  This file embeds the flash array, the free-slot queue, the
write path, garbage collection and the per-line driver of `main` as pure
functions on an explicit state, and proves properties of them.

Conventions of the embedding
* C arrays (`ssd`, `valid_bitmap`, `oob`, `mapping_table`) are total maps from
  an index to a value; which indices the program may touch is a separate
  matter and is stated where it is needed.
* `int` variables are `Int`, `unsigned long` addresses and byte counts are
  `Nat`, reduced modulo `2 ^ 64` where the program can wrap them
  (`remaining_size`, `current_lba`).  Statistics counters only ever grow by
  one or by 4096 per step and are kept as unbounded numbers.
* The three sizing `#define`s are the fields of `Config`; `ssd_config` holds
  the values of the source, `tiny_config` and `small_config` the same program
  at a smaller scale.
-/

namespace FTL

/-! ## Sizing constants -/

/-- Sizing constants: the three primary definitions `PAGE_SIZE`, `BLOCK_SIZE`
and `SSD_SIZE` of the source. -/
structure Config where
  PAGE_SIZE : Nat
  BLOCK_SIZE : Nat
  SSD_SIZE : Nat

/-- Derived constant `PAGES_PER_BLOCK = BLOCK_SIZE / PAGE_SIZE`. -/
def PAGES_PER_BLOCK (cfg : Config) : Nat := cfg.BLOCK_SIZE / cfg.PAGE_SIZE

/-- Derived constant `BLOCKS_PER_SSD = SSD_SIZE / BLOCK_SIZE`. -/
def BLOCKS_PER_SSD (cfg : Config) : Nat := cfg.SSD_SIZE / cfg.BLOCK_SIZE

/-- Length of `mapping_table`: `SSD_SIZE / PAGE_SIZE` logical pages. -/
def LOGICAL_PAGES (cfg : Config) : Nat := cfg.SSD_SIZE / cfg.PAGE_SIZE

/-- The constants of the source: 4 KiB pages, 4 MiB blocks, 8 GiB device. -/
def ssd_config : Config :=
  { PAGE_SIZE := 4096, BLOCK_SIZE := 4 * 1024 * 1024, SSD_SIZE := 8 * 1024 * 1024 * 1024 }

/-- The tiny test device: 4 blocks of 4 pages of 4096 bytes. -/
def tiny_config : Config :=
  { PAGE_SIZE := 4096, BLOCK_SIZE := 4 * 4096, SSD_SIZE := 4 * 4 * 4096 }

/-- A small test device whose blocks fill exactly one bitmap byte:
4 blocks of 8 pages of 4096 bytes. -/
def small_config : Config :=
  { PAGE_SIZE := 4096, BLOCK_SIZE := 8 * 4096, SSD_SIZE := 4 * 8 * 4096 }

/-- The value `0xFFFFFFFFFFFFFFFF` that marks an empty OOB field and an
unmapped `mapping_table` entry. -/
def SENTINEL : Nat := 0xFFFFFFFFFFFFFFFF

/-- Conversion of an `int` expression to `unsigned long`. -/
def to_ulong (x : Int) : Nat := (x % (2 ^ 64 : Int)).toNat

/-! ## Flash array and page validity -/

/-- One flash block (`struct Block`): the free flag, the validity bitmap as
byte-indexed memory, and the OOB array indexed by page. -/
structure Block where
  is_free : Bool
  valid_bitmap : Nat → Nat
  oob : Nat → Nat

/-- Source function `set_page_valid`: `valid_bitmap[byte_index] |= (1 << bit_index)`,
stored back into a `uint8_t`. -/
def set_page_valid (block : Block) (page_index : Nat) : Block :=
  let byte_index := page_index / 8
  let bit_index := page_index % 8
  { block with
    valid_bitmap := Function.update block.valid_bitmap byte_index
      ((block.valid_bitmap byte_index ||| (1 <<< bit_index)) % 256) }

/-- Source function `set_page_invalid`: `valid_bitmap[byte_index] &= ~(1 << bit_index)`;
the complement is taken within the eight bits of the stored byte. -/
def set_page_invalid (block : Block) (page_index : Nat) : Block :=
  let byte_index := page_index / 8
  let bit_index := page_index % 8
  { block with
    valid_bitmap := Function.update block.valid_bitmap byte_index
      (block.valid_bitmap byte_index &&& (0xFF ^^^ (1 <<< bit_index))) }

/-- Source function `is_page_valid`: `(valid_bitmap[byte_index] & (1 << bit_index)) != 0`. -/
def is_page_valid (block : Block) (page_index : Nat) : Bool :=
  let byte_index := page_index / 8
  let bit_index := page_index % 8
  (block.valid_bitmap byte_index &&& (1 <<< bit_index)) != 0

/-- The block as `main` initialises it: free, every bitmap byte 0, every OOB
field the sentinel. -/
def init_block : Block :=
  { is_free := true, valid_bitmap := fun _ => 0, oob := fun _ => SENTINEL }

/-- The inner loop of GC victim selection: the number of valid pages among
pages `0 .. n-1` of a block. -/
def count_valid_upto (block : Block) : Nat → Nat
  | 0 => 0
  | n + 1 => count_valid_upto block n + (if is_page_valid block n then 1 else 0)

/-- Valid-page count of a block: the scan over all `PAGES_PER_BLOCK` pages. -/
def count_valid (cfg : Config) (block : Block) : Nat :=
  count_valid_upto block (PAGES_PER_BLOCK cfg)

/-! ## The free-slot queue as a linked list in memory -/

/-- The null pointer. -/
def NULL : Nat := 0

/-- One node of the linked list (`struct QueueNode`); `next` is a pointer. -/
structure QueueNode where
  block_index : Int
  page_index : Int
  next : Nat

/-- The queue header (`struct Queue`): two pointers and the element count. -/
structure Queue where
  front : Nat
  rear : Nat
  size : Int

/-- The heap of queue nodes: the node stored at each allocated address. -/
abbrev NodeStore := Nat → Option QueueNode

/-- Source function `initQueue`: both pointers NULL, size 0. -/
def initQueue : Queue := { front := NULL, rear := NULL, size := 0 }

/-- Source function `enqueue`; `temp` is the address `malloc` returned.  The
node is filled in, linked behind the rear node (or made the only node) and
the size incremented. -/
def enqueue (mem : NodeStore) (q : Queue) (temp : Nat) (block_index page_index : Int) :
    NodeStore × Queue :=
  let mem1 := Function.update mem temp
    (some { block_index := block_index, page_index := page_index, next := NULL })
  if q.rear = NULL then
    (mem1, { front := temp, rear := temp, size := q.size + 1 })
  else
    let mem2 := match mem1 q.rear with
      | some r => Function.update mem1 q.rear (some { r with next := temp })
      | none => mem1
    (mem2, { front := q.front, rear := temp, size := q.size + 1 })

/-- Source function `dequeue`: returns the pointer to the removed front node
(NULL when the queue is empty) and the updated header. -/
def dequeue (mem : NodeStore) (q : Queue) : Nat × Queue :=
  if q.front = NULL then (NULL, q)
  else
    let temp := q.front
    let front := match mem q.front with
      | some n => n.next
      | none => NULL
    let rear := if front = NULL then NULL else q.rear
    (temp, { front := front, rear := rear, size := q.size - 1 })

/-! ## The free-slot queue as a list (the FIFO the specification describes) -/

/-- A page slot `(block_index, page_index)` held by the queue. -/
structure Slot where
  block_index : Int
  page_index : Int
deriving DecidableEq

/-- The FIFO view of the queue: its slots from front to rear, and the `size`
field kept beside them. -/
structure FreeQueue where
  slots : List Slot
  size : Int

/-- FIFO view of `initQueue`. -/
def fifo_init : FreeQueue := { slots := [], size := 0 }

/-- FIFO view of `enqueue`: append at the rear, increment `size`. -/
def fifo_enqueue (q : FreeQueue) (block_index page_index : Int) : FreeQueue :=
  { slots := q.slots ++ [{ block_index := block_index, page_index := page_index }],
    size := q.size + 1 }

/-- FIFO view of `dequeue`: `none` stands for the NULL result on an empty
queue, which is left unchanged. -/
def fifo_dequeue (q : FreeQueue) : Option Slot × FreeQueue :=
  match q.slots with
  | [] => (none, q)
  | x :: rest => (some x, { slots := rest, size := q.size - 1 })

/-- The linked list starting at pointer `p` visits exactly the addresses
`addrs`, holding the slots `xs` in that order, and ends in NULL. -/
def Chain (mem : NodeStore) : Nat → List Nat → List Slot → Prop
  | p, [], [] => p = NULL
  | p, a :: addrs, x :: xs =>
      p = a ∧ a ≠ NULL ∧
      ∃ n, mem a = some n ∧ n.block_index = x.block_index ∧ n.page_index = x.page_index ∧
        Chain mem n.next addrs xs
  | _, _, _ => False

/-- The header `q` and heap `mem` represent the FIFO `fq`: the list from
`front` holds the slots of `fq`, `rear` points at its last node, no node
occurs twice, and the two `size` fields agree. -/
def Represents (mem : NodeStore) (q : Queue) (fq : FreeQueue) : Prop :=
  ∃ addrs, Chain mem q.front addrs fq.slots ∧ addrs.Nodup ∧
    q.rear = addrs.getLastD NULL ∧ q.size = fq.size

/-- Enqueue a list of slots one after the other, taking the node addresses
from `addrs`. -/
def enqueue_all : NodeStore → Queue → List Nat → List Slot → NodeStore × Queue
  | mem, q, a :: addrs, x :: xs =>
      let r := enqueue mem q a x.block_index x.page_index
      enqueue_all r.1 r.2 addrs xs
  | mem, q, _, _ => (mem, q)

/-- Dequeue up to `n` times, reading each removed node and freeing it; the
result lists the slots in the order they came out. -/
def drain : Nat → NodeStore → Queue → List Slot
  | 0, _, _ => []
  | n + 1, mem, q =>
      let r := dequeue mem q
      if r.1 = NULL then []
      else
        match mem r.1 with
        | some node =>
            { block_index := node.block_index, page_index := node.page_index } ::
              drain n (Function.update mem r.1 none) r.2
        | none => []

/-! ## Simulator state -/

/-- One parsed trace line (`struct IORequest`) without its timestamp, which
the simulator never reads. -/
structure IORequest where
  io_type : Int
  lba : Nat
  size : Nat
  stream_number : Nat

/-- The integer quantities one printed progress report is computed from. -/
structure Report where
  progress_gib : Nat
  internal_writes : Nat
  total_writes : Nat
  internal_writes_since_50gb : Nat
  writes_since_50gb : Nat
  used_pages : Nat
  total_pages : Nat
  used_blocks : Int
  total_valid_data_ratio : ℚ
  gc_count : Int
  checkpoint_erases : Nat

/-- The variables of `main` that live across trace lines. -/
structure State where
  ssd : Nat → Block
  free_block_queue : FreeQueue
  mapping_table : Nat → Nat
  active_block_index : Int
  active_page_index : Int
  total_writes : Nat
  internal_writes : Nat
  total_erases : Nat
  used_pages : Nat
  last_gb_checkpoint : Nat
  checkpoint_writes : Nat
  checkpoint_erases : Nat
  writes_since_50gb : Nat
  internal_writes_since_50gb : Nat
  total_valid_data_ratio : ℚ
  gc_count : Int
  used_blocks : Int
  total_read_bytes : Nat
  reports : List Report

/-- The loop `for (i = 0; i < n; i++) enqueue(q, block_index, i)`. -/
def enqueue_pages (q : FreeQueue) (block_index : Nat) : Nat → FreeQueue
  | 0 => q
  | n + 1 => fifo_enqueue (enqueue_pages q block_index n) block_index n

/-- The start-up loop nest that enqueues every page of blocks `0 .. n-1`. -/
def enqueue_blocks (cfg : Config) (q : FreeQueue) : Nat → FreeQueue
  | 0 => q
  | n + 1 => enqueue_pages (enqueue_blocks cfg q n) n (PAGES_PER_BLOCK cfg)

/-- The state `main` builds before it reads the first trace line. -/
def init_state (cfg : Config) : State :=
  { ssd := fun _ => init_block
    free_block_queue := enqueue_blocks cfg fifo_init (BLOCKS_PER_SSD cfg)
    mapping_table := fun _ => SENTINEL
    active_block_index := -1
    active_page_index := 0
    total_writes := 0
    internal_writes := 0
    total_erases := 0
    used_pages := 0
    last_gb_checkpoint := 0
    checkpoint_writes := 0
    checkpoint_erases := 0
    writes_since_50gb := 0
    internal_writes_since_50gb := 0
    total_valid_data_ratio := 0
    gc_count := 0
    used_blocks := 0
    total_read_bytes := 0
    reports := [] }

/-! ## Write path -/

/-- The two statements that retire a page: `set_page_invalid` and the store
of the sentinel into its OOB field. -/
def clear_page (block : Block) (j : Nat) : Block :=
  let b1 := set_page_invalid block j
  { b1 with oob := Function.update b1.oob j SENTINEL }

/-- The inner scan loop with its `break`: the first page among `0 .. n-1`
whose OOB equals `lba`. -/
def find_lba (block : Block) (lba : Nat) : Nat → Option Nat
  | 0 => none
  | n + 1 =>
      match find_lba block lba n with
      | some j => some j
      | none => if block.oob n = lba then some n else none

/-- The inner scan loop applied to one block: the first page bearing `lba`,
if there is one, is retired. -/
def invalidate_in_block (cfg : Config) (block : Block) (lba : Nat) : Block :=
  match find_lba block lba (PAGES_PER_BLOCK cfg) with
  | some j => clear_page block j
  | none => block

/-- The outer scan loop over blocks `0 .. n-1`. -/
def invalidate_lba_upto (cfg : Config) (ssd : Nat → Block) (lba : Nat) : Nat → (Nat → Block)
  | 0 => ssd
  | n + 1 =>
      let ssd1 := invalidate_lba_upto cfg ssd lba n
      Function.update ssd1 n (invalidate_in_block cfg (ssd1 n) lba)

/-- The whole stale-page scan that precedes every page write. -/
def invalidate_lba (cfg : Config) (ssd : Nat → Block) (lba : Nat) : Nat → Block :=
  invalidate_lba_upto cfg ssd lba (BLOCKS_PER_SSD cfg)

/-- The refill condition `active_block_index == -1 || active_page_index >= PAGES_PER_BLOCK`. -/
def needs_refill (cfg : Config) (s : State) : Bool :=
  s.active_block_index == -1 || decide ((PAGES_PER_BLOCK cfg : Int) ≤ s.active_page_index)

/-- The cursor refill shared by the write path and GC: when a refill is
needed one node is dequeued, its block becomes the active block and the
active page index is set to 0; `none` is the `break` on an empty queue. -/
def cursor_refill (cfg : Config) (s : State) : Option State :=
  if needs_refill cfg s then
    match fifo_dequeue s.free_block_queue with
    | (none, _) => none
    | (some node, q) =>
        some { s with free_block_queue := q, active_block_index := node.block_index,
                      active_page_index := 0 }
  else some s

/-- Physical address `block_index * PAGES_PER_BLOCK + page_index` as stored in
`mapping_table`. -/
def physical_address (cfg : Config) (block_index page_index : Int) : Nat :=
  to_ulong (block_index * (PAGES_PER_BLOCK cfg : Int) + page_index)

/-- Lines 323-334: mark the cursor page valid, record `lba` in its OOB field
and in `mapping_table`. -/
def program_page (cfg : Config) (s : State) (lba : Nat) : State :=
  let block_index := s.active_block_index
  let page_index := s.active_page_index
  let b1 := set_page_valid (s.ssd block_index.toNat) page_index.toNat
  let b2 := { b1 with oob := Function.update b1.oob page_index.toNat lba }
  { s with ssd := Function.update s.ssd block_index.toNat b2,
           mapping_table := Function.update s.mapping_table lba
             (physical_address cfg block_index page_index) }

/-- One iteration of the write loop for logical address `current_lba`.  The
flag is false when the iteration ended in the `break` of an empty queue; the
stale-page scan has been done in either case. -/
def write_step (cfg : Config) (s : State) (current_lba : Nat) : State × Bool :=
  let s1 := { s with ssd := invalidate_lba cfg s.ssd current_lba }
  match cursor_refill cfg s1 with
  | none => (s1, false)
  | some s2 =>
      let s3 := if needs_refill cfg s1 then { s2 with used_blocks := s2.used_blocks + 1 } else s2
      let s4 := program_page cfg s3 current_lba
      ({ s4 with total_writes := s4.total_writes + 1,
                 internal_writes := s4.internal_writes + 1,
                 checkpoint_writes := s4.checkpoint_writes + 1,
                 writes_since_50gb := s4.writes_since_50gb + 1,
                 internal_writes_since_50gb := s4.internal_writes_since_50gb + 1,
                 used_pages := s4.used_pages + 1,
                 active_page_index := s4.active_page_index + 1 }, true)

/-- The loop `while (remaining_size > 0)`; `none` only when `fuel` iterations
did not suffice. -/
def write_loop (cfg : Config) : Nat → State → Nat → Nat → Option State
  | 0, _, _, _ => none
  | fuel + 1, s, remaining_size, current_lba =>
      if remaining_size = 0 then some s
      else
        let r := write_step cfg s current_lba
        if r.2 then
          write_loop cfg fuel r.1 (to_ulong ((remaining_size : Int) - (cfg.PAGE_SIZE : Int)))
            ((current_lba + 1) % 2 ^ 64)
        else some r.1

/-- The logical addresses the write loop visits, in order. -/
def write_lbas (cfg : Config) : Nat → State → Nat → Nat → List Nat
  | 0, _, _, _ => []
  | fuel + 1, s, remaining_size, current_lba =>
      if remaining_size = 0 then []
      else
        let r := write_step cfg s current_lba
        if r.2 then
          current_lba :: write_lbas cfg fuel r.1
            (to_ulong ((remaining_size : Int) - (cfg.PAGE_SIZE : Int)))
            ((current_lba + 1) % 2 ^ 64)
        else [current_lba]

/-! ## Garbage collection -/

/-- Victim selection over blocks `0 .. n-1`: the pair
`(victim_block_index, min_valid_pages)` after the scan. -/
def select_victim_upto (cfg : Config) (ssd : Nat → Block) : Nat → Int × Nat
  | 0 => (-1, PAGES_PER_BLOCK cfg)
  | n + 1 =>
      let acc := select_victim_upto cfg ssd n
      if !(ssd n).is_free then
        let valid_pages := count_valid cfg (ssd n)
        if valid_pages < acc.2 then ((n : Int), valid_pages) else acc
      else acc

/-- Victim selection over the whole device. -/
def select_victim (cfg : Config) (ssd : Nat → Block) : Int × Nat :=
  select_victim_upto cfg ssd (BLOCKS_PER_SSD cfg)

/-- Lines 140-162: copy page `i` of the victim to the cursor page, redirect
its logical address, retire the source page, advance the cursor. -/
def relocate_page (cfg : Config) (victim : Nat) (i : Nat) (s : State) : State :=
  let block_index := s.active_block_index
  let page_index := s.active_page_index
  let ssd1 := Function.update s.ssd block_index.toNat
    (set_page_valid (s.ssd block_index.toNat) page_index.toNat)
  let ssd2 := Function.update ssd1 block_index.toNat
    { ssd1 block_index.toNat with
      oob := Function.update (ssd1 block_index.toNat).oob page_index.toNat ((ssd1 victim).oob i) }
  let lba := (ssd2 victim).oob i
  let ssd3 := Function.update ssd2 victim (clear_page (ssd2 victim) i)
  { s with ssd := ssd3,
           mapping_table := Function.update s.mapping_table lba
             (physical_address cfg block_index page_index),
           internal_writes := s.internal_writes + 1,
           active_page_index := page_index + 1 }

/-- The compaction loop over pages `i, i+1, ..` of the victim, `n` of them
left; it stops early at the `break` of an empty queue. -/
def compact_loop (cfg : Config) (victim : Nat) : Nat → Nat → State → State
  | 0, _, s => s
  | n + 1, i, s =>
      if is_page_valid (s.ssd victim) i then
        match cursor_refill cfg s with
        | none => s
        | some s1 => compact_loop cfg victim n (i + 1) (relocate_page cfg victim i s1)
      else compact_loop cfg victim n (i + 1) s

/-- Source function `garbage_collection`. -/
def garbage_collection (cfg : Config) (s : State) : State :=
  let sel := select_victim cfg s.ssd
  if sel.1 = -1 then s
  else
    let victim := sel.1.toNat
    let s1 := compact_loop cfg victim (PAGES_PER_BLOCK cfg) 0 s
    let q := enqueue_pages s1.free_block_queue victim (PAGES_PER_BLOCK cfg)
    { s1 with ssd := Function.update s1.ssd victim { s1.ssd victim with is_free := true },
              free_block_queue := q,
              used_blocks := (BLOCKS_PER_SSD cfg : Int) - Int.tdiv q.size (PAGES_PER_BLOCK cfg : Int),
              total_erases := s1.total_erases + 1,
              checkpoint_erases := s1.checkpoint_erases + 1,
              total_valid_data_ratio :=
                s1.total_valid_data_ratio + (sel.2 : ℚ) / (PAGES_PER_BLOCK cfg : ℚ),
              gc_count := s1.gc_count + 1 }

/-! ## The per-line driver -/

/-- The loop `while (free_block_queue.size <= 3) garbage_collection(..)`;
`none` when it has not ended after `fuel` tests of its condition. -/
def watermark_loop (cfg : Config) : Nat → State → Option State
  | 0, _ => none
  | fuel + 1, s =>
      if s.free_block_queue.size ≤ 3 then watermark_loop cfg fuel (garbage_collection cfg s)
      else some s

/-- One gibibyte, the progress-report interval. -/
def GIB : Nat := 1024 * 1024 * 1024

/-- Lines 357-375: the progress report and the reset of the 50 GiB window. -/
def report_step (cfg : Config) (s : State) : State :=
  if s.last_gb_checkpoint + GIB ≤ s.total_read_bytes then
    let s1 := { s with
      last_gb_checkpoint := s.last_gb_checkpoint + GIB,
      reports := s.reports ++ [{
        progress_gib := (s.last_gb_checkpoint + GIB) / GIB,
        internal_writes := s.internal_writes,
        total_writes := s.total_writes,
        internal_writes_since_50gb := s.internal_writes_since_50gb,
        writes_since_50gb := s.writes_since_50gb,
        used_pages := s.used_pages,
        total_pages := BLOCKS_PER_SSD cfg * PAGES_PER_BLOCK cfg,
        used_blocks := s.used_blocks,
        total_valid_data_ratio := s.total_valid_data_ratio,
        gc_count := s.gc_count,
        checkpoint_erases := s.checkpoint_erases }] }
    if 50 * GIB ≤ s1.writes_since_50gb * cfg.PAGE_SIZE then
      { s1 with writes_since_50gb := 0, internal_writes_since_50gb := 0,
                checkpoint_erases := 0, total_valid_data_ratio := 0, gc_count := 0 }
    else s1
  else s

/-- The body of the trace loop for one successfully parsed line. -/
def process_request (cfg : Config) (fuel : Nat) (s : State) (request : IORequest) :
    Option State :=
  let s0 := { s with total_read_bytes := s.total_read_bytes + 4096 }
  let written :=
    if request.io_type = 1 then write_loop cfg fuel s0 request.size request.lba else some s0
  match written with
  | none => none
  | some s1 =>
      match watermark_loop cfg fuel s1 with
      | none => none
      | some s2 => some (report_step cfg s2)

/-- Whether every logical address a request visits is an index of
`mapping_table`. -/
def request_in_range (cfg : Config) (fuel : Nat) (s : State) (request : IORequest) : Prop :=
  request.io_type = 1 →
    ∀ l ∈ write_lbas cfg fuel { s with total_read_bytes := s.total_read_bytes + 4096 }
      request.size request.lba, l < LOGICAL_PAGES cfg

/-- States between trace lines: the initial state, and any state in which
the processing of a line whose addresses are in range has ended. -/
inductive Reachable (cfg : Config) : State → Prop
  | init : Reachable cfg (init_state cfg)
  | step (fuel : Nat) (s t : State) (request : IORequest) :
      Reachable cfg s → request_in_range cfg fuel s request →
      process_request cfg fuel s request = some t → Reachable cfg t

/-- Process a list of requests one after the other. -/
def run (cfg : Config) (fuel : Nat) : State → List IORequest → Option State
  | s, [] => some s
  | s, r :: rest =>
      match process_request cfg fuel s r with
      | none => none
      | some t => run cfg fuel t rest

/-- A single-page WRITE request for logical address `lba`. -/
def write_request (cfg : Config) (lba : Nat) : IORequest :=
  { io_type := 1, lba := lba, size := cfg.PAGE_SIZE, stream_number := 0 }

/-! ## Specification predicates -/

/-- Block `v` is the greedy victim of a flash array: it is a non-free block,
no non-free block has fewer valid pages, and every non-free block before it
has a different (hence larger) valid-page count. -/
def IsGreedyVictim (cfg : Config) (ssd : Nat → Block) (v : Nat) : Prop :=
  v < BLOCKS_PER_SSD cfg ∧ (ssd v).is_free = false ∧
  (∀ i, i < BLOCKS_PER_SSD cfg → (ssd i).is_free = false →
    count_valid cfg (ssd v) ≤ count_valid cfg (ssd i)) ∧
  (∀ i, i < v → (ssd i).is_free = false →
    count_valid cfg (ssd i) ≠ count_valid cfg (ssd v))

/-- A block in use whose pages are all valid: every bitmap byte is `0xFF`. -/
def full_block : Block :=
  { is_free := false, valid_bitmap := fun _ => 0xFF, oob := fun j => j }

/-- A flash array whose only non-free block, block 0, is entirely valid. -/
def full_block_ssd : Nat → Block :=
  fun b => if b = 0 then full_block else init_block

/-- A block in use with exactly the pages below `k` valid (`k ≤ 8`). -/
def partial_block (k : Nat) : Block :=
  { is_free := false, valid_bitmap := fun i => if i = 0 then 2 ^ k - 1 else 0, oob := fun j => j }

/-- A flash array for the tie-break: block 0 free, blocks 1 and 2 in use with
one valid page each, block 3 in use with two valid pages. -/
def tie_ssd : Nat → Block :=
  fun b => if b = 1 then partial_block 1 else if b = 2 then partial_block 1
    else if b = 3 then partial_block 2 else init_block

/-- The initial simulator state with its flash array replaced by `ssd`. -/
def state_with_ssd (cfg : Config) (ssd : Nat → Block) : State :=
  { init_state cfg with ssd := ssd }

/-- The sizes fit the C types of the program: at least two pages per block,
at least one block, physical page numbers within `int`, and every logical
page address below the sentinel. -/
def well_sized (cfg : Config) : Prop :=
  2 ≤ PAGES_PER_BLOCK cfg ∧ 0 < BLOCKS_PER_SSD cfg ∧
  BLOCKS_PER_SSD cfg * PAGES_PER_BLOCK cfg < 2 ^ 31 ∧ LOGICAL_PAGES cfg ≤ SENTINEL

/-- Mapping consistency (invariant 1): every mapped logical address names a
valid physical page whose OOB field is that address. -/
def mapping_consistent (cfg : Config) (s : State) : Prop :=
  ∀ L, L < LOGICAL_PAGES cfg → s.mapping_table L ≠ SENTINEL →
    is_page_valid (s.ssd (s.mapping_table L / PAGES_PER_BLOCK cfg))
      (s.mapping_table L % PAGES_PER_BLOCK cfg) = true ∧
    (s.ssd (s.mapping_table L / PAGES_PER_BLOCK cfg)).oob
      (s.mapping_table L % PAGES_PER_BLOCK cfg) = L

/-- Number of valid pages in blocks `0 .. n-1`. -/
def total_valid_upto (cfg : Config) (ssd : Nat → Block) : Nat → Nat
  | 0 => 0
  | n + 1 => total_valid_upto cfg ssd n + count_valid cfg (ssd n)

/-- Number of valid pages of the whole device. -/
def total_valid (cfg : Config) (ssd : Nat → Block) : Nat :=
  total_valid_upto cfg ssd (BLOCKS_PER_SSD cfg)

/-- Conservation: valid pages plus queued free slots make up the device. -/
def conservation (cfg : Config) (s : State) : Prop :=
  total_valid cfg s.ssd + s.free_block_queue.slots.length =
    BLOCKS_PER_SSD cfg * PAGES_PER_BLOCK cfg

/-- Uniqueness (invariant 2): no two distinct valid physical pages carry the
same OOB value. -/
def oob_unique (cfg : Config) (s : State) : Prop :=
  ∀ b1 p1 b2 p2, b1 < BLOCKS_PER_SSD cfg → p1 < PAGES_PER_BLOCK cfg →
    b2 < BLOCKS_PER_SSD cfg → p2 < PAGES_PER_BLOCK cfg →
    is_page_valid (s.ssd b1) p1 = true → is_page_valid (s.ssd b2) p2 = true →
    (s.ssd b1).oob p1 = (s.ssd b2).oob p2 → b1 = b2 ∧ p1 = p2

/-- Facts that hold in every state between trace lines; they carry the
proofs about reachable states. -/
structure Inv (cfg : Config) (s : State) : Prop where
  all_free : ∀ b, (s.ssd b).is_free = true
  oob_once : ∀ b1 p1 b2 p2, b1 < BLOCKS_PER_SSD cfg → p1 < PAGES_PER_BLOCK cfg →
    b2 < BLOCKS_PER_SSD cfg → p2 < PAGES_PER_BLOCK cfg →
    (s.ssd b1).oob p1 = (s.ssd b2).oob p2 → (s.ssd b1).oob p1 ≠ SENTINEL →
    b1 = b2 ∧ p1 = p2
  valid_has_lba : ∀ b p, b < BLOCKS_PER_SSD cfg → p < PAGES_PER_BLOCK cfg →
    is_page_valid (s.ssd b) p = true → (s.ssd b).oob p ≠ SENTINEL
  queue_blocks : ∀ x ∈ s.free_block_queue.slots,
    0 ≤ x.block_index ∧ x.block_index < (BLOCKS_PER_SSD cfg : Int)
  cursor_block : s.active_block_index = -1 ∨
    (0 ≤ s.active_block_index ∧ s.active_block_index < (BLOCKS_PER_SSD cfg : Int))
  cursor_page : 0 ≤ s.active_page_index
  queue_size : s.free_block_queue.size = (s.free_block_queue.slots.length : Int)

/-- The trace of `n` single-page WRITE requests to the distinct logical
addresses `0, 1, .., n-1`. -/
def distinct_writes (cfg : Config) (n : Nat) : List IORequest :=
  (List.range n).map (fun k => write_request cfg k)

/-- The state after one single-page WRITE of address `L` from the initial
state (the initial state itself should the request not end). -/
def written_once (cfg : Config) (L : Nat) : State :=
  (process_request cfg 2 (init_state cfg) (write_request cfg L)).getD (init_state cfg)

/-- The state after a second single-page WRITE of the same address. -/
def written_twice (cfg : Config) (L : Nat) : State :=
  (process_request cfg 2 (written_once cfg L) (write_request cfg L)).getD (init_state cfg)

/-- Source function `calculate_waf`, with the quotient of the two counters
taken exactly. -/
def calculate_waf (internal_writes host_writes : Nat) : ℚ :=
  (internal_writes : ℚ) / (host_writes : ℚ)

/-- Source function `calculate_utilization`, with the quotient taken exactly. -/
def calculate_utilization (used_pages total_pages : Nat) : ℚ :=
  (used_pages : ℚ) / (total_pages : ℚ)

/-- The value printed after `WAF:` in a report. -/
def Report.waf (r : Report) : ℚ := calculate_waf r.internal_writes r.total_writes

/-- The value printed after `TMP_WAF:` in a report. -/
def Report.tmp_waf (r : Report) : ℚ :=
  if 0 < r.writes_since_50gb then calculate_waf r.internal_writes_since_50gb r.writes_since_50gb
  else 0

/-- The value printed after `Utilization:` in a report. -/
def Report.utilization (r : Report) : ℚ := calculate_utilization r.used_pages r.total_pages

/-- A request that is not a WRITE. -/
def read_request : IORequest := { io_type := 0, lba := 0, size := 4096, stream_number := 0 }

/-- A trace for the 4-block, 8-page device: 32 pages written at addresses
`0 .. 31`, address 0 written once more, then reads up to line 262144. -/
def overfill_trace : List IORequest :=
  [{ io_type := 1, lba := 0, size := 32 * 4096, stream_number := 0 },
   { io_type := 1, lba := 0, size := 4096, stream_number := 0 }] ++
  (List.replicate 262141 read_request ++ [read_request])

/-- The state of the 4-block, 8-page device after `n` single-page WRITE
requests to the addresses `0 .. n-1` (the initial state should a request
not end). -/
def after_writes (n : Nat) : State :=
  (run small_config 2 (init_state small_config) (distinct_writes small_config n)).getD
    (init_state small_config)

/-- A state of the 4-block, 8-page device with an unset cursor, the flash
array `tie_ssd` and two queued slots, the front one being `(2, 3)`. -/
def refill_state : State :=
  { state_with_ssd small_config tie_ssd with
    free_block_queue := { slots := [⟨2, 3⟩, ⟨2, 4⟩], size := 2 } }

/-- The trace of `n` single-page WRITE requests to the addresses
`0, 1, 2, ..` taken modulo the number of logical pages, so that every
address is an index of the mapping table and the first `LOGICAL_PAGES` of
them are distinct. -/
def cyclic_writes (cfg : Config) (n : Nat) : List IORequest :=
  (List.range n).map (fun k => write_request cfg (k % LOGICAL_PAGES cfg))

/-- The state of the tiny device (4 blocks of 4 pages) after the first `n`
requests of `cyclic_writes` (the initial state should one of them not end). -/
def tiny_after (n : Nat) : State :=
  (run tiny_config 2 (init_state tiny_config) (cyclic_writes tiny_config n)).getD
    (init_state tiny_config)

/-- The value of `remaining_size` after `k` executions of
`remaining_size -= PAGE_SIZE`, starting from the request size. -/
def remaining_after (cfg : Config) (size : Nat) : Nat → Nat
  | 0 => size
  | k + 1 => to_ulong ((remaining_after cfg size k : Int) - (cfg.PAGE_SIZE : Int))

/-- The indexed accesses of one iteration of the write loop are in bounds:
`mapping_table[current_lba]`, and, when a page is programmed,
`ssd[block_index]` with its `valid_bitmap` and `oob[page_index]`.  (The scan
indexes with its own loop counters.) -/
def write_step_in_bounds (cfg : Config) (s : State) (current_lba : Nat) : Prop :=
  current_lba < LOGICAL_PAGES cfg ∧
  match cursor_refill cfg { s with ssd := invalidate_lba cfg s.ssd current_lba } with
  | none => True
  | some s2 =>
      0 ≤ s2.active_block_index ∧ s2.active_block_index < (BLOCKS_PER_SSD cfg : Int) ∧
      0 ≤ s2.active_page_index ∧ s2.active_page_index < (PAGES_PER_BLOCK cfg : Int)

/-- Every iteration the write loop performs within `fuel` has its accesses
in bounds. -/
def write_loop_in_bounds (cfg : Config) : Nat → State → Nat → Nat → Prop
  | 0, _, _, _ => True
  | fuel + 1, s, remaining_size, current_lba =>
      if remaining_size = 0 then True
      else
        write_step_in_bounds cfg s current_lba ∧
        (if (write_step cfg s current_lba).2 then
          write_loop_in_bounds cfg fuel (write_step cfg s current_lba).1
            (to_ulong ((remaining_size : Int) - (cfg.PAGE_SIZE : Int)))
            ((current_lba + 1) % 2 ^ 64)
        else True)

/-- The indexed accesses of the compaction loop are in bounds: the cursor
block and page of every relocation, and the OOB value of the victim page
used as index of `mapping_table`. -/
def compact_in_bounds (cfg : Config) (victim : Nat) : Nat → Nat → State → Prop
  | 0, _, _ => True
  | n + 1, i, s =>
      if is_page_valid (s.ssd victim) i then
        match cursor_refill cfg s with
        | none => True
        | some s1 =>
            (0 ≤ s1.active_block_index ∧ s1.active_block_index < (BLOCKS_PER_SSD cfg : Int) ∧
              0 ≤ s1.active_page_index ∧ s1.active_page_index < (PAGES_PER_BLOCK cfg : Int) ∧
              (s1.ssd victim).oob i < LOGICAL_PAGES cfg) ∧
            compact_in_bounds cfg victim n (i + 1) (relocate_page cfg victim i s1)
      else compact_in_bounds cfg victim n (i + 1) s

/-- The indexed accesses of one call of `garbage_collection` are in bounds:
either no victim is selected (the selection scan indexes with its own loop
counters), or the victim is a block index and compaction stays in bounds. -/
def gc_in_bounds (cfg : Config) (s : State) : Prop :=
  (select_victim cfg s.ssd).1 = -1 ∨
  (0 ≤ (select_victim cfg s.ssd).1 ∧
    (select_victim cfg s.ssd).1 < (BLOCKS_PER_SSD cfg : Int) ∧
    compact_in_bounds cfg (select_victim cfg s.ssd).1.toNat (PAGES_PER_BLOCK cfg) 0 s)

/-- Every call of `garbage_collection` the watermark loop makes within
`fuel` is in bounds. -/
def watermark_in_bounds (cfg : Config) : Nat → State → Prop
  | 0, _ => True
  | fuel + 1, s =>
      if s.free_block_queue.size ≤ 3 then
        gc_in_bounds cfg s ∧ watermark_in_bounds cfg fuel (garbage_collection cfg s)
      else True

/-- Every indexed access made while one trace line is processed is in
bounds. -/
def request_in_bounds (cfg : Config) (fuel : Nat) (s : State) (request : IORequest) : Prop :=
  (request.io_type = 1 →
    write_loop_in_bounds cfg fuel { s with total_read_bytes := s.total_read_bytes + 4096 }
      request.size request.lba) ∧
  (∀ s1, (if request.io_type = 1 then
        write_loop cfg fuel { s with total_read_bytes := s.total_read_bytes + 4096 }
          request.size request.lba
      else some { s with total_read_bytes := s.total_read_bytes + 4096 }) = some s1 →
    watermark_in_bounds cfg fuel s1)

/-- Exactly the first `k` pages of block 0 are valid, page `q` of them
carrying the logical address `q`, and every other page carries the sentinel. -/
def first_pages_valid (k : Nat) (ssd : Nat → Block) : Prop :=
  ∀ b q, is_page_valid (ssd b) q = decide (b = 0 ∧ q < k) ∧
    (ssd b).oob q = if b = 0 ∧ q < k then q else SENTINEL

/-- The data-model invariants of the specification (section 3, invariants
1 to 5): mapping consistency, uniqueness of the OOB value among valid pages,
no queued page is valid, valid pages and queued slots together do not exceed
the pages of the device, and a block carries the free flag exactly when all
its pages are invalid, each page of a free block being queued exactly once. -/
structure DataModelInv (cfg : Config) (s : State) : Prop where
  mapping : mapping_consistent cfg s
  unique : ∀ b1, b1 < BLOCKS_PER_SSD cfg → ∀ p1, p1 < PAGES_PER_BLOCK cfg →
    ∀ b2, b2 < BLOCKS_PER_SSD cfg → ∀ p2, p2 < PAGES_PER_BLOCK cfg →
    is_page_valid (s.ssd b1) p1 = true → is_page_valid (s.ssd b2) p2 = true →
    (s.ssd b1).oob p1 = (s.ssd b2).oob p2 → b1 = b2 ∧ p1 = p2
  queued_invalid : ∀ x ∈ s.free_block_queue.slots,
    is_page_valid (s.ssd x.block_index.toNat) x.page_index.toNat = false
  conserved : total_valid cfg s.ssd + s.free_block_queue.slots.length
    ≤ BLOCKS_PER_SSD cfg * PAGES_PER_BLOCK cfg
  free_iff : ∀ b, b < BLOCKS_PER_SSD cfg →
    ((s.ssd b).is_free = true ↔ ∀ p, p < PAGES_PER_BLOCK cfg → is_page_valid (s.ssd b) p = false)
  queued_once : ∀ b, b < BLOCKS_PER_SSD cfg → ∀ p, p < PAGES_PER_BLOCK cfg →
    (s.ssd b).is_free = true →
    s.free_block_queue.slots.count { block_index := (b : Int), page_index := (p : Int) } = 1

/-- The number of valid pages among pages `i, i+1, .., i+n-1` of a block. -/
def count_valid_from (block : Block) : Nat → Nat → Nat
  | _, 0 => 0
  | i, n + 1 => (if is_page_valid block i then 1 else 0) + count_valid_from block (i + 1) n

/-- The queue is not empty and its front slot, the one the next refill takes,
names a block of the device other than `v`. -/
def front_outside (cfg : Config) (v : Nat) (q : FreeQueue) : Prop :=
  ∃ x, q.slots.head? = some x ∧
    0 ≤ x.block_index ∧ x.block_index < (BLOCKS_PER_SSD cfg : Int) ∧ x.block_index ≠ (v : Int)

/-- The cursor and the queue can serve the `n` iterations of the compaction
of victim `v` that start at page `i` without writing into the victim and
without meeting an empty queue: the cursor is unset, or stands in a block of
the device and, while it has room, outside the victim; and either the front
slot of the queue is outside the victim, or the cursor block has room for
every valid page still to be visited. -/
structure CompactOK (cfg : Config) (v n i : Nat) (u : State) : Prop where
  cursor : u.active_block_index = -1 ∨
    (0 ≤ u.active_block_index ∧ u.active_block_index < (BLOCKS_PER_SSD cfg : Int) ∧
      0 ≤ u.active_page_index ∧
      (u.active_block_index ≠ (v : Int) ∨ (PAGES_PER_BLOCK cfg : Int) ≤ u.active_page_index))
  bound : n ≤ PAGES_PER_BLOCK cfg
  supply : front_outside cfg v u.free_block_queue ∨
    (u.active_block_index ≠ -1 ∧
      u.active_page_index + (count_valid_from (u.ssd v) i n : Int) ≤ (PAGES_PER_BLOCK cfg : Int))

/-- A block in use whose page 0 alone is valid and bears logical address 5. -/
def one_page_block : Block :=
  { is_free := false, valid_bitmap := fun i => if i = 0 then 1 else 0,
    oob := fun j => if j = 0 then 5 else SENTINEL }

/-- A state of the 4-block, 8-page device that satisfies the data-model
invariants: block 0 is in use with page 0 valid for address 5, blocks 1 to 3
are free with all their slots queued, and the cursor stands at `(0, 0)`. -/
def gc_cursor_state : State :=
  { init_state small_config with
    ssd := fun b => if b = 0 then one_page_block else init_block
    free_block_queue :=
      enqueue_pages (enqueue_pages (enqueue_pages fifo_init 1 8) 2 8) 3 8
    mapping_table := fun l => if l = 5 then 0 else SENTINEL
    active_block_index := 0
    active_page_index := 0 }

/-- The same state with the cursor at `(0, 1)`: the cursor stands in block 0,
and the one valid page of that block lies before it. -/
def gc_behind_state : State :=
  { gc_cursor_state with active_page_index := 1 }

/-- The same state with the cursor unset and the slot `(0, 5)`, an invalid
page of block 0, queued in front of the slots of the free blocks. -/
def gc_front_state : State :=
  { gc_cursor_state with
    free_block_queue :=
      ( { slots := { block_index := 0, page_index := 5 } :: gc_cursor_state.free_block_queue.slots,
          size := 25 } : FreeQueue)
    active_block_index := -1 }

/-! # Theorems

## Page validity bits -/

theorem is_page_valid_eq_testBit (block : Block) (p : Nat) :
    is_page_valid block p = (block.valid_bitmap (p / 8)).testBit (p % 8) := by
  unfold is_page_valid
  simp only [Nat.one_shiftLeft, Nat.and_two_pow]
  cases h : (block.valid_bitmap (p / 8)).testBit (p % 8) <;> simp [h]

theorem is_page_valid_set_page_valid (block : Block) (p q : Nat) :
    is_page_valid (set_page_valid block p) q = (decide (q = p) || is_page_valid block q) := by
  simp only [is_page_valid_eq_testBit, set_page_valid]
  by_cases h : q / 8 = p / 8
  · rw [h, Function.update_same]
    have h256 : (256 : Nat) = 2 ^ 8 := by norm_num
    rw [h256, Nat.testBit_mod_two_pow, Nat.testBit_lor, Nat.one_shiftLeft, Nat.testBit_two_pow]
    have hq : q % 8 < 8 := Nat.mod_lt _ (by norm_num)
    by_cases hqp : q = p
    · subst hqp; simp [hq]
    · have : ¬ (p % 8 = q % 8) := by omega
      simp [hq, hqp, this]
  · rw [Function.update_noteq h]
    have : q ≠ p := by rintro rfl; exact h rfl
    simp [this]

theorem is_page_valid_set_page_invalid (block : Block) (p q : Nat) :
    is_page_valid (set_page_invalid block p) q = (!decide (q = p) && is_page_valid block q) := by
  simp only [is_page_valid_eq_testBit, set_page_invalid]
  by_cases h : q / 8 = p / 8
  · rw [h, Function.update_same]
    rw [Nat.testBit_and, Nat.testBit_xor, Nat.one_shiftLeft, Nat.testBit_two_pow]
    have hq : q % 8 < 8 := Nat.mod_lt _ (by norm_num)
    have hff : Nat.testBit 0xFF (q % 8) = true := by
      have : ∀ k, k < 8 → Nat.testBit 0xFF k = true := by decide
      exact this _ hq
    by_cases hqp : q = p
    · subst hqp; simp [hff]
    · have : ¬ (p % 8 = q % 8) := by omega
      simp [hff, hqp, this]
  · rw [Function.update_noteq h]
    have : q ≠ p := by rintro rfl; exact h rfl
    simp [this]

/-! ## Victim selection -/

theorem select_victim_upto_spec (cfg : Config) (ssd : Nat → Block) (n : Nat) :
    (select_victim_upto cfg ssd n).2 ≤ PAGES_PER_BLOCK cfg ∧
    ((select_victim_upto cfg ssd n).1 = -1 →
      (select_victim_upto cfg ssd n).2 = PAGES_PER_BLOCK cfg ∧
      ∀ i, i < n → (ssd i).is_free = false → PAGES_PER_BLOCK cfg ≤ count_valid cfg (ssd i)) ∧
    ((select_victim_upto cfg ssd n).1 ≠ -1 →
      ∃ v : Nat, v < n ∧ (select_victim_upto cfg ssd n).1 = (v : Int) ∧
        (ssd v).is_free = false ∧
        count_valid cfg (ssd v) = (select_victim_upto cfg ssd n).2 ∧
        (select_victim_upto cfg ssd n).2 < PAGES_PER_BLOCK cfg ∧
        (∀ i, i < n → (ssd i).is_free = false →
          (select_victim_upto cfg ssd n).2 ≤ count_valid cfg (ssd i)) ∧
        (∀ i, i < v → (ssd i).is_free = false →
          (select_victim_upto cfg ssd n).2 < count_valid cfg (ssd i))) := by
  induction n with
  | zero =>
    refine ⟨le_refl _, fun _ => ⟨rfl, fun i hi => absurd hi (Nat.not_lt_zero _)⟩, fun h => ?_⟩
    exact absurd rfl h
  | succ n ih =>
    obtain ⟨ih1, ih2, ih3⟩ := ih
    simp only [select_victim_upto]
    cases hfree : (ssd n).is_free with
    | true =>
      simp only [Bool.not_true, Bool.false_eq_true, if_false]
      refine ⟨ih1, fun h => ⟨(ih2 h).1, fun i hi hif => ?_⟩, fun h => ?_⟩
      · rcases Nat.lt_succ_iff_lt_or_eq.mp hi with hlt | heq
        · exact (ih2 h).2 i hlt hif
        · subst heq; rw [hfree] at hif; cases hif
      · obtain ⟨v, hv, hv1, hv2, hv3, hv4, hv5, hv6⟩ := ih3 h
        refine ⟨v, Nat.lt_succ_of_lt hv, hv1, hv2, hv3, hv4, fun i hi hif => ?_, hv6⟩
        rcases Nat.lt_succ_iff_lt_or_eq.mp hi with hlt | heq
        · exact hv5 i hlt hif
        · subst heq; rw [hfree] at hif; cases hif
    | false =>
      simp only [Bool.not_false, if_true]
      by_cases hlt : count_valid cfg (ssd n) < (select_victim_upto cfg ssd n).2
      · simp only [hlt, if_true]
        refine ⟨le_trans (le_of_lt hlt) ih1, fun h => ?_, fun _ => ?_⟩
        · exfalso
          have : (0 : Int) ≤ (n : Int) := Int.ofNat_nonneg n
          omega
        · refine ⟨n, Nat.lt_succ_self n, rfl, hfree, rfl, lt_of_lt_of_le hlt ih1,
            fun i hi hif => ?_, fun i hi hif => ?_⟩
          · rcases Nat.lt_succ_iff_lt_or_eq.mp hi with hlt2 | heq
            · by_cases hneg : (select_victim_upto cfg ssd n).1 = -1
              · have := (ih2 hneg).2 i hlt2 hif
                exact le_trans (le_trans (le_of_lt hlt) ih1) this
              · obtain ⟨v, _, _, _, _, _, hv5, _⟩ := ih3 hneg
                exact le_trans (le_of_lt hlt) (hv5 i hlt2 hif)
            · subst heq; exact le_refl _
          · by_cases hneg : (select_victim_upto cfg ssd n).1 = -1
            · have := (ih2 hneg).2 i hi hif
              exact lt_of_lt_of_le (lt_of_lt_of_le hlt ih1) this
            · obtain ⟨v, _, _, _, _, _, hv5, _⟩ := ih3 hneg
              exact lt_of_lt_of_le hlt (hv5 i hi hif)
      · simp only [hlt, if_false]
        have hge : (select_victim_upto cfg ssd n).2 ≤ count_valid cfg (ssd n) := Nat.le_of_not_lt hlt
        refine ⟨ih1, fun h => ⟨(ih2 h).1, fun i hi hif => ?_⟩, fun h => ?_⟩
        · rcases Nat.lt_succ_iff_lt_or_eq.mp hi with hlt2 | heq
          · exact (ih2 h).2 i hlt2 hif
          · subst heq; rw [← (ih2 h).1]; exact hge
        · obtain ⟨v, hv, hv1, hv2, hv3, hv4, hv5, hv6⟩ := ih3 h
          refine ⟨v, Nat.lt_succ_of_lt hv, hv1, hv2, hv3, hv4, fun i hi hif => ?_, hv6⟩
          rcases Nat.lt_succ_iff_lt_or_eq.mp hi with hlt2 | heq
          · exact hv5 i hlt2 hif
          · subst heq; exact hge

theorem select_victim_spec (cfg : Config) (ssd : Nat → Block)
    (h : ∃ b, b < BLOCKS_PER_SSD cfg ∧ (ssd b).is_free = false ∧
      count_valid cfg (ssd b) < PAGES_PER_BLOCK cfg) :
    ∃ v : Nat, (select_victim cfg ssd).1 = (v : Int) ∧ IsGreedyVictim cfg ssd v ∧
      (select_victim cfg ssd).2 = count_valid cfg (ssd v) := by
  obtain ⟨b, hb, hbf, hbc⟩ := h
  obtain ⟨_, h2, h3⟩ := select_victim_upto_spec cfg ssd (BLOCKS_PER_SSD cfg)
  by_cases hneg : (select_victim_upto cfg ssd (BLOCKS_PER_SSD cfg)).1 = -1
  · have := (h2 hneg).2 b hb hbf
    omega
  · obtain ⟨v, hv, hv1, hv2, hv3, _, hv5, hv6⟩ := h3 hneg
    refine ⟨v, hv1, ⟨hv, hv2, fun i hi hif => ?_, fun i hi hif => ?_⟩, hv3.symm⟩
    · rw [hv3]; exact hv5 i hi hif
    · rw [hv3]; exact Nat.ne_of_gt (hv6 i hi hif)

theorem select_victim_none (cfg : Config) (ssd : Nat → Block)
    (h : ∀ i, i < BLOCKS_PER_SSD cfg → (ssd i).is_free = false →
      PAGES_PER_BLOCK cfg ≤ count_valid cfg (ssd i)) :
    (select_victim cfg ssd).1 = -1 := by
  obtain ⟨_, _, h3⟩ := select_victim_upto_spec cfg ssd (BLOCKS_PER_SSD cfg)
  by_contra hneg
  obtain ⟨v, hv, _, hv2, hv3, hv4, _, _⟩ := h3 hneg
  have := h v hv hv2
  omega

theorem garbage_collection_no_victim (cfg : Config) (s : State)
    (h : (select_victim cfg s.ssd).1 = -1) : garbage_collection cfg s = s := by
  unfold garbage_collection
  simp [h]

theorem garbage_collection_victim_free (cfg : Config) (s : State) (v : Nat)
    (h : (select_victim cfg s.ssd).1 = (v : Int)) :
    ((garbage_collection cfg s).ssd v).is_free = true := by
  unfold garbage_collection
  have hv : ¬ ((v : Int) = -1) := by
    have : (0 : Int) ≤ (v : Int) := Int.ofNat_nonneg v
    omega
  simp [h, hv]

theorem count_valid_upto_full (n : Nat) : count_valid_upto full_block n = n := by
  induction n with
  | zero => rfl
  | succ n ih =>
    have hv : is_page_valid full_block n = true := by
      rw [is_page_valid_eq_testBit]
      have : ∀ k, k < 8 → Nat.testBit 0xFF k = true := by decide
      exact this _ (Nat.mod_lt _ (by norm_num))
    simp [count_valid_upto, ih, hv]

theorem full_block_ssd_free (b : Nat) (h : (full_block_ssd b).is_free = false) : b = 0 := by
  by_contra hb
  simp [full_block_ssd, hb, init_block] at h

/-- C6: when some non-free block has fewer than `PAGES_PER_BLOCK` valid pages,
the victim `garbage_collection` selects is the lowest-indexed non-free block
whose valid-page count is the minimum over all non-free blocks (ties go to
the smallest block index), `min_valid_pages` is that count, and the block is
marked free on return. -/
theorem victim_is_greedy (cfg : Config) (s : State)
    (h : ∃ b, b < BLOCKS_PER_SSD cfg ∧ (s.ssd b).is_free = false ∧
      count_valid cfg (s.ssd b) < PAGES_PER_BLOCK cfg) :
    ∃ v : Nat, (select_victim cfg s.ssd).1 = (v : Int) ∧ IsGreedyVictim cfg s.ssd v ∧
      (select_victim cfg s.ssd).2 = count_valid cfg (s.ssd v) ∧
      ((garbage_collection cfg s).ssd v).is_free = true := by
  obtain ⟨v, hv, hg, hc⟩ := select_victim_spec cfg s.ssd h
  exact ⟨v, hv, hg, hc, garbage_collection_victim_free cfg s v hv⟩

/-- Witness for C6 on the small device: blocks 1 and 2 tie with one valid
page each and block 1 is selected. -/
theorem victim_is_greedy_witness :
    (select_victim small_config (state_with_ssd small_config tie_ssd).ssd).1 = 1 ∧
    ∃ v : Nat, (select_victim small_config (state_with_ssd small_config tie_ssd).ssd).1 = (v : Int) ∧
      IsGreedyVictim small_config (state_with_ssd small_config tie_ssd).ssd v ∧
      (select_victim small_config (state_with_ssd small_config tie_ssd).ssd).2 =
        count_valid small_config ((state_with_ssd small_config tie_ssd).ssd v) ∧
      ((garbage_collection small_config (state_with_ssd small_config tie_ssd)).ssd v).is_free = true :=
  ⟨by decide, victim_is_greedy small_config (state_with_ssd small_config tie_ssd)
    ⟨1, by decide, by decide, by decide⟩⟩

/-- C6 as stated fails on the device of the source: block 0 is the only
non-free block and is entirely valid, so it is the lowest-indexed non-free
block with the minimum count, yet no victim is selected and
`garbage_collection` returns the state unchanged. -/
theorem full_block_not_selected :
    (∃ b, b < BLOCKS_PER_SSD ssd_config ∧ (full_block_ssd b).is_free = false) ∧
    IsGreedyVictim ssd_config full_block_ssd 0 ∧
    (select_victim ssd_config full_block_ssd).1 = -1 ∧
    garbage_collection ssd_config (state_with_ssd ssd_config full_block_ssd) =
      state_with_ssd ssd_config full_block_ssd := by
  have hsel : (select_victim ssd_config full_block_ssd).1 = -1 := by
    apply select_victim_none
    intro i _ hif
    have hi := full_block_ssd_free i hif
    subst hi
    simp [full_block_ssd, count_valid, count_valid_upto_full]
  refine ⟨⟨0, by decide, rfl⟩, ⟨by decide, rfl, fun i _ hif => ?_, fun i hi _ => ?_⟩, hsel, ?_⟩
  · have hi := full_block_ssd_free i hif
    subst hi
    exact le_refl _
  · exact absurd hi (Nat.not_lt_zero _)
  · exact garbage_collection_no_victim ssd_config _ hsel

/-! ## The stale-page scan -/

theorem find_lba_none (block : Block) (lba : Nat) (n : Nat)
    (h : find_lba block lba n = none) : ∀ i, i < n → block.oob i ≠ lba := by
  induction n with
  | zero => intro i hi; exact absurd hi (Nat.not_lt_zero _)
  | succ n ih =>
    simp only [find_lba] at h
    cases hrec : find_lba block lba n with
    | some k => rw [hrec] at h; simp at h
    | none =>
      rw [hrec] at h
      simp only at h
      by_cases heq : block.oob n = lba
      · simp [heq] at h
      · intro i hi
        rcases Nat.lt_succ_iff_lt_or_eq.mp hi with hlt | he
        · exact ih hrec i hlt
        · subst he; exact heq

theorem find_lba_some (block : Block) (lba : Nat) (n j : Nat)
    (h : find_lba block lba n = some j) :
    j < n ∧ block.oob j = lba ∧ ∀ i, i < j → block.oob i ≠ lba := by
  induction n with
  | zero => simp [find_lba] at h
  | succ n ih =>
    simp only [find_lba] at h
    cases hrec : find_lba block lba n with
    | some k =>
      rw [hrec] at h
      simp only [Option.some.injEq] at h
      subst h
      obtain ⟨h1, h2, h3⟩ := ih hrec
      exact ⟨Nat.lt_succ_of_lt h1, h2, h3⟩
    | none =>
      rw [hrec] at h
      simp only at h
      by_cases heq : block.oob n = lba
      · simp only [heq, if_true, Option.some.injEq] at h
        subst h
        exact ⟨Nat.lt_succ_self _, heq, find_lba_none block lba _ hrec⟩
      · simp [heq] at h

theorem clear_page_is_free (block : Block) (j : Nat) :
    (clear_page block j).is_free = block.is_free := rfl

theorem clear_page_oob (block : Block) (j q : Nat) :
    (clear_page block j).oob q = if q = j then SENTINEL else block.oob q := by
  simp only [clear_page, set_page_invalid, Function.update_apply]

theorem is_page_valid_clear_page (block : Block) (j q : Nat) :
    is_page_valid (clear_page block j) q = (!decide (q = j) && is_page_valid block q) := by
  have h := is_page_valid_set_page_invalid block j q
  have e : is_page_valid (clear_page block j) q = is_page_valid (set_page_invalid block j) q := rfl
  rw [e, h]

theorem invalidate_in_block_is_free (cfg : Config) (block : Block) (lba : Nat) :
    (invalidate_in_block cfg block lba).is_free = block.is_free := by
  unfold invalidate_in_block
  cases find_lba block lba (PAGES_PER_BLOCK cfg) <;> rfl

/-- The scan only ever stores the sentinel. -/
theorem invalidate_in_block_oob (cfg : Config) (block : Block) (lba : Nat) (q : Nat) :
    (invalidate_in_block cfg block lba).oob q = block.oob q ∨
    (invalidate_in_block cfg block lba).oob q = SENTINEL := by
  unfold invalidate_in_block
  cases find_lba block lba (PAGES_PER_BLOCK cfg) with
  | none => exact Or.inl rfl
  | some j =>
    simp only [clear_page_oob]
    by_cases h : q = j
    · right; simp [h]
    · left; simp [h]

/-- A page that is still valid after the scan was not touched by it. -/
theorem invalidate_in_block_valid (cfg : Config) (block : Block) (lba : Nat) (q : Nat)
    (h : is_page_valid (invalidate_in_block cfg block lba) q = true) :
    is_page_valid block q = true ∧ (invalidate_in_block cfg block lba).oob q = block.oob q := by
  unfold invalidate_in_block at h ⊢
  cases hf : find_lba block lba (PAGES_PER_BLOCK cfg) with
  | none => rw [hf] at h; exact ⟨h, rfl⟩
  | some j =>
    rw [hf] at h
    simp only at h ⊢
    rw [is_page_valid_clear_page] at h
    simp only [Bool.and_eq_true, Bool.not_eq_true', decide_eq_false_iff_not] at h
    refine ⟨h.2, ?_⟩
    simp [clear_page_oob, h.1]

/-- When at most one page of the block bears `lba`, no page of the block
bears it after the scan, provided `lba` is not the sentinel. -/
theorem invalidate_in_block_gone (cfg : Config) (block : Block) (lba : Nat)
    (hl : lba ≠ SENTINEL)
    (huniq : ∀ p1 p2, p1 < PAGES_PER_BLOCK cfg → p2 < PAGES_PER_BLOCK cfg →
      block.oob p1 = lba → block.oob p2 = lba → p1 = p2)
    (q : Nat) (hq : q < PAGES_PER_BLOCK cfg) :
    (invalidate_in_block cfg block lba).oob q ≠ lba := by
  unfold invalidate_in_block
  cases hf : find_lba block lba (PAGES_PER_BLOCK cfg) with
  | none => exact find_lba_none block lba _ hf q hq
  | some j =>
    obtain ⟨hj, hjl, _⟩ := find_lba_some block lba _ j hf
    simp only [clear_page_oob]
    by_cases h : q = j
    · simp only [h, if_true]; exact fun e => hl e.symm
    · simp only [h, if_false]
      intro e
      exact h (huniq q j hq hj e hjl)

/-- Under the same uniqueness, the page that bore `lba` is retired. -/
theorem invalidate_in_block_retired (cfg : Config) (block : Block) (lba : Nat)
    (huniq : ∀ p1 p2, p1 < PAGES_PER_BLOCK cfg → p2 < PAGES_PER_BLOCK cfg →
      block.oob p1 = lba → block.oob p2 = lba → p1 = p2)
    (q : Nat) (hq : q < PAGES_PER_BLOCK cfg) (hql : block.oob q = lba) :
    is_page_valid (invalidate_in_block cfg block lba) q = false ∧
    (invalidate_in_block cfg block lba).oob q = SENTINEL := by
  unfold invalidate_in_block
  cases hf : find_lba block lba (PAGES_PER_BLOCK cfg) with
  | none => exact absurd hql (find_lba_none block lba _ hf q hq)
  | some j =>
    obtain ⟨hj, hjl, _⟩ := find_lba_some block lba _ j hf
    have e : q = j := huniq q j hq hj hql hjl
    subst e
    simp [is_page_valid_clear_page, clear_page_oob]

/-- A page whose OOB differs from `lba` is left alone by the scan. -/
theorem invalidate_in_block_other (cfg : Config) (block : Block) (lba : Nat)
    (q : Nat) (hql : block.oob q ≠ lba) :
    is_page_valid (invalidate_in_block cfg block lba) q = is_page_valid block q ∧
    (invalidate_in_block cfg block lba).oob q = block.oob q := by
  unfold invalidate_in_block
  cases hf : find_lba block lba (PAGES_PER_BLOCK cfg) with
  | none => exact ⟨rfl, rfl⟩
  | some j =>
    obtain ⟨hj, hjl, _⟩ := find_lba_some block lba _ j hf
    have e : q ≠ j := fun e => hql (e ▸ hjl)
    simp [is_page_valid_clear_page, clear_page_oob, e]

theorem invalidate_lba_upto_apply (cfg : Config) (ssd : Nat → Block) (lba : Nat) (n b : Nat) :
    invalidate_lba_upto cfg ssd lba n b =
      if b < n then invalidate_in_block cfg (ssd b) lba else ssd b := by
  induction n with
  | zero => simp [invalidate_lba_upto]
  | succ n ih =>
    simp only [invalidate_lba_upto, Function.update_apply]
    by_cases hb : b = n
    · subst hb
      simp [ih]
    · simp only [hb, if_false, ih]
      by_cases hlt : b < n
      · simp [hlt, Nat.lt_succ_of_lt hlt]
      · have : ¬ b < n + 1 := by omega
        simp [hlt, this]

theorem invalidate_lba_apply (cfg : Config) (ssd : Nat → Block) (lba : Nat) (b : Nat) :
    invalidate_lba cfg ssd lba b =
      if b < BLOCKS_PER_SSD cfg then invalidate_in_block cfg (ssd b) lba else ssd b :=
  invalidate_lba_upto_apply cfg ssd lba _ b

/-! ## The write path on states that satisfy the invariant -/

theorem to_ulong_natCast (n : Nat) (h : n < 2 ^ 64) : to_ulong (n : Int) = n := by
  unfold to_ulong
  have h1 : ((n : Int)) % (2 ^ 64 : Int) = (n : Int) := by
    apply Int.emod_eq_of_lt
    · exact Int.natCast_nonneg n
    · exact_mod_cast h
  rw [h1]
  exact Int.toNat_natCast n

theorem physical_address_natCast (cfg : Config) (b p : Nat)
    (h : b * PAGES_PER_BLOCK cfg + p < 2 ^ 64) :
    physical_address cfg (b : Int) (p : Int) = b * PAGES_PER_BLOCK cfg + p := by
  unfold physical_address
  have e : (b : Int) * (PAGES_PER_BLOCK cfg : Int) + (p : Int)
      = ((b * PAGES_PER_BLOCK cfg + p : Nat) : Int) := by push_cast; rfl
  rw [e]
  exact to_ulong_natCast _ h

theorem page_number_lt (cfg : Config) (hw : well_sized cfg) (b p : Nat)
    (hb : b < BLOCKS_PER_SSD cfg) (hp : p < PAGES_PER_BLOCK cfg) :
    b * PAGES_PER_BLOCK cfg + p < 2 ^ 64 := by
  obtain ⟨_, _, h3, _⟩ := hw
  have h1 : b * PAGES_PER_BLOCK cfg + p < (b + 1) * PAGES_PER_BLOCK cfg := by
    rw [Nat.add_mul, Nat.one_mul]; omega
  have h2 : (b + 1) * PAGES_PER_BLOCK cfg ≤ BLOCKS_PER_SSD cfg * PAGES_PER_BLOCK cfg :=
    Nat.mul_le_mul_right _ hb
  have h4 : (2 : Nat) ^ 31 < 2 ^ 64 := by norm_num
  omega

theorem logical_ne_sentinel (cfg : Config) (hw : well_sized cfg) (lba : Nat)
    (h : lba < LOGICAL_PAGES cfg) : lba ≠ SENTINEL := by
  obtain ⟨_, _, _, h4⟩ := hw
  omega

/-- The scan keeps the invariant. -/
theorem scan_inv (cfg : Config) (s : State) (lba : Nat) (hi : Inv cfg s) :
    Inv cfg { s with ssd := invalidate_lba cfg s.ssd lba } := by
  constructor
  · intro b
    simp only [invalidate_lba_apply]
    split
    · rw [invalidate_in_block_is_free]; exact hi.all_free b
    · exact hi.all_free b
  · intro b1 p1 b2 p2 hb1 hp1 hb2 hp2 he hne
    simp only [invalidate_lba_apply, hb1, hb2, if_true] at he hne
    have e1 : (invalidate_in_block cfg (s.ssd b1) lba).oob p1 = (s.ssd b1).oob p1 := by
      rcases invalidate_in_block_oob cfg (s.ssd b1) lba p1 with h | h
      · exact h
      · exact absurd h hne
    have e2 : (invalidate_in_block cfg (s.ssd b2) lba).oob p2 = (s.ssd b2).oob p2 := by
      rcases invalidate_in_block_oob cfg (s.ssd b2) lba p2 with h | h
      · exact h
      · exact absurd (he.trans h) hne
    rw [e1] at hne
    rw [e1, e2] at he
    exact hi.oob_once b1 p1 b2 p2 hb1 hp1 hb2 hp2 he hne
  · intro b p hb hp hv
    simp only [invalidate_lba_apply, hb, if_true] at hv ⊢
    obtain ⟨h1, h2⟩ := invalidate_in_block_valid cfg (s.ssd b) lba p hv
    rw [h2]
    exact hi.valid_has_lba b p hb hp h1
  · exact hi.queue_blocks
  · exact hi.cursor_block
  · exact hi.cursor_page
  · exact hi.queue_size

/-- After the scan no in-range page bears the scanned address. -/
theorem scan_gone (cfg : Config) (s : State) (lba : Nat) (hi : Inv cfg s)
    (hl : lba ≠ SENTINEL) (b p : Nat) (hb : b < BLOCKS_PER_SSD cfg)
    (hp : p < PAGES_PER_BLOCK cfg) :
    (invalidate_lba cfg s.ssd lba b).oob p ≠ lba := by
  simp only [invalidate_lba_apply, hb, if_true]
  apply invalidate_in_block_gone cfg (s.ssd b) lba hl _ p hp
  intro p1 p2 hp1 hp2 h1 h2
  exact (hi.oob_once b p1 b p2 hb hp1 hb hp2 (h1.trans h2.symm) (h1 ▸ hl)).2

/-- The page that bore the scanned address is invalid and carries the
sentinel after the scan. -/
theorem scan_retired (cfg : Config) (s : State) (lba : Nat) (hi : Inv cfg s)
    (hl : lba ≠ SENTINEL) (b p : Nat) (hb : b < BLOCKS_PER_SSD cfg)
    (hp : p < PAGES_PER_BLOCK cfg) (h : (s.ssd b).oob p = lba) :
    is_page_valid (invalidate_lba cfg s.ssd lba b) p = false ∧
    (invalidate_lba cfg s.ssd lba b).oob p = SENTINEL := by
  simp only [invalidate_lba_apply, hb, if_true]
  apply invalidate_in_block_retired cfg (s.ssd b) lba _ p hp h
  intro p1 p2 hp1 hp2 h1 h2
  exact (hi.oob_once b p1 b p2 hb hp1 hb hp2 (h1.trans h2.symm) (h1 ▸ hl)).2

/-- What a refill that does not hit the empty queue leaves behind. -/
theorem cursor_refill_some (cfg : Config) (s s2 : State) (hpos : 0 < PAGES_PER_BLOCK cfg)
    (hi : Inv cfg s) (h : cursor_refill cfg s = some s2) :
    ∃ b p : Nat, b < BLOCKS_PER_SSD cfg ∧ p < PAGES_PER_BLOCK cfg ∧
      s2 = { s with free_block_queue := s2.free_block_queue,
                    active_block_index := (b : Int), active_page_index := (p : Int) } ∧
      (∀ x ∈ s2.free_block_queue.slots, x ∈ s.free_block_queue.slots) ∧
      s2.free_block_queue.size = (s2.free_block_queue.slots.length : Int) ∧
      (needs_refill cfg s = false →
        (b : Int) = s.active_block_index ∧ (p : Int) = s.active_page_index) ∧
      (needs_refill cfg s = true → p = 0) := by
  unfold cursor_refill at h
  by_cases hn : needs_refill cfg s = true
  · rw [if_pos hn] at h
    unfold fifo_dequeue at h
    cases hs : s.free_block_queue.slots with
    | nil => rw [hs] at h; simp at h
    | cons x rest =>
      rw [hs] at h
      simp only [Option.some.injEq] at h
      have hx := hi.queue_blocks x (by rw [hs]; exact List.mem_cons_self _ _)
      obtain ⟨b, hb⟩ := Int.eq_ofNat_of_zero_le hx.1
      refine ⟨b, 0, ?_, hpos, ?_, ?_, ?_, ?_, ?_⟩
      · have := hx.2; rw [hb] at this; exact_mod_cast this
      · rw [← h, ← hb]; rfl
      · intro y hy
        rw [← h] at hy
        exact List.mem_cons_of_mem _ hy
      · have hq := hi.queue_size
        rw [hs] at hq
        rw [← h]
        simp only [hq, List.length_cons]
        push_cast
        omega
      · intro hf; rw [hf] at hn; exact absurd hn (by decide)
      · intro _; rfl
  · rw [if_neg hn] at h
    simp only [Option.some.injEq] at h
    subst h
    have hn2 := hn
    unfold needs_refill at hn2
    simp only [Bool.or_eq_true, beq_iff_eq, decide_eq_true_eq, not_or, not_le] at hn2
    obtain ⟨hne, hlt⟩ := hn2
    rcases hi.cursor_block with hc | hc
    · exact absurd hc hne
    · obtain ⟨b, hb⟩ := Int.eq_ofNat_of_zero_le hc.1
      obtain ⟨p, hp⟩ := Int.eq_ofNat_of_zero_le hi.cursor_page
      refine ⟨b, p, ?_, ?_, ?_, ?_, ?_, ?_, ?_⟩
      · have := hc.2; rw [hb] at this; exact_mod_cast this
      · rw [hp] at hlt; exact_mod_cast hlt
      · rw [← hb, ← hp]
      · intro y hy; exact hy
      · exact hi.queue_size
      · intro _; exact ⟨hb.symm, hp.symm⟩
      · intro hf; exact absurd hf hn

/-- The state after one iteration of the write loop that programmed a
page, described page by page. -/
theorem write_step_ok (cfg : Config) (s t : State) (lba : Nat) (hw : well_sized cfg)
    (hi : Inv cfg s) (h : write_step cfg s lba = (t, true)) :
    ∃ b p : Nat, b < BLOCKS_PER_SSD cfg ∧ p < PAGES_PER_BLOCK cfg ∧
      t.active_block_index = (b : Int) ∧ t.active_page_index = (p : Int) + 1 ∧
      t.mapping_table = Function.update s.mapping_table lba (b * PAGES_PER_BLOCK cfg + p) ∧
      (∀ b1 p1, (t.ssd b1).oob p1 =
        if b1 = b ∧ p1 = p then lba else (invalidate_lba cfg s.ssd lba b1).oob p1) ∧
      (∀ b1 p1, is_page_valid (t.ssd b1) p1 =
        if b1 = b ∧ p1 = p then true else is_page_valid (invalidate_lba cfg s.ssd lba b1) p1) ∧
      (∀ b1, (t.ssd b1).is_free = (invalidate_lba cfg s.ssd lba b1).is_free) ∧
      (∀ x ∈ t.free_block_queue.slots, x ∈ s.free_block_queue.slots) ∧
      t.free_block_queue.size = (t.free_block_queue.slots.length : Int) ∧
      (needs_refill cfg s = false →
        (b : Int) = s.active_block_index ∧ (p : Int) = s.active_page_index) ∧
      (needs_refill cfg s = true → p = 0) := by
  have hpos : 0 < PAGES_PER_BLOCK cfg := by have := hw.1; omega
  have hi1 := scan_inv cfg s lba hi
  unfold write_step at h
  simp only at h
  cases hcr : cursor_refill cfg { s with ssd := invalidate_lba cfg s.ssd lba } with
  | none => rw [hcr] at h; simp at h
  | some s2 =>
    rw [hcr] at h
    simp only [Prod.mk.injEq, and_true] at h
    obtain ⟨b, p, hb, hp, hs2, hq, hqs, hnf, hnt⟩ := cursor_refill_some cfg _ s2 hpos hi1 hcr
    have hab : s2.active_block_index = (b : Int) := by rw [hs2]
    have hap : s2.active_page_index = (p : Int) := by rw [hs2]
    have hssd : s2.ssd = invalidate_lba cfg s.ssd lba := by rw [hs2]
    have hmap : s2.mapping_table = s.mapping_table := by rw [hs2]
    refine ⟨b, p, hb, hp, ?_, ?_, ?_, ?_, ?_, ?_, ?_, ?_, hnf, hnt⟩
    · rw [← h]; split <;> simp [program_page, hab]
    · rw [← h]; split <;> simp [program_page, hap]
    · rw [← h]
      have e := physical_address_natCast cfg b p (page_number_lt cfg hw b p hb hp)
      split <;> simp [program_page, hab, hap, hmap, e]
    · intro b1 p1
      rw [← h]
      split <;>
      · simp only [program_page, hab, hap, hssd, Int.toNat_natCast, Function.update_apply]
        by_cases e1 : b1 = b
        · subst e1
          by_cases e2 : p1 = p
          · simp [e2]
          · simp [e2, set_page_valid]
        · simp [e1]
    · intro b1 p1
      rw [← h]
      split <;>
      · simp only [program_page, hab, hap, hssd, Int.toNat_natCast, Function.update_apply]
        by_cases e1 : b1 = b
        · subst e1
          simp only [if_true, true_and]
          have hv := is_page_valid_set_page_valid (invalidate_lba cfg s.ssd lba b1) p p1
          have e : ∀ (blk : Block) (f : Nat → Nat),
              is_page_valid { blk with oob := f } p1 = is_page_valid blk p1 := fun _ _ => rfl
          rw [e, hv]
          by_cases e2 : p1 = p
          · simp [e2]
          · simp [e2]
        · simp [e1]
    · intro b1
      rw [← h]
      split <;>
      · simp only [program_page, hab, hap, hssd, Int.toNat_natCast, Function.update_apply]
        by_cases e1 : b1 = b
        · subst e1; simp [set_page_valid]
        · simp [e1]
    · intro x hx
      rw [← h] at hx
      apply hq
      revert hx
      split <;> simp [program_page]
    · rw [← h]
      revert hqs
      split <;> simp [program_page]

/-- One iteration of the write loop keeps the invariant, whether it programs
a page or ends in the break of the empty queue. -/
theorem write_step_inv (cfg : Config) (s : State) (lba : Nat) (hw : well_sized cfg)
    (hl : lba < LOGICAL_PAGES cfg) (hi : Inv cfg s) : Inv cfg (write_step cfg s lba).1 := by
  have hi1 := scan_inv cfg s lba hi
  have hne := logical_ne_sentinel cfg hw lba hl
  cases hr : write_step cfg s lba with
  | mk t flag =>
    cases flag with
    | false =>
      have e : t = { s with ssd := invalidate_lba cfg s.ssd lba } := by
        unfold write_step at hr
        simp only at hr
        cases hcr : cursor_refill cfg { s with ssd := invalidate_lba cfg s.ssd lba } with
        | none => rw [hcr] at hr; simp only [Prod.mk.injEq, and_true] at hr; exact hr.symm
        | some s2 => rw [hcr] at hr; simp at hr
      rw [e]; exact hi1
    | true =>
      obtain ⟨b, p, hb, hp, hab, hap, _, hoob, hval, hfree, hq, hqs, _, _⟩ :=
        write_step_ok cfg s t lba hw hi hr
      have hgone := scan_gone cfg s lba hi hne
      constructor
      · intro b1
        show (t.ssd b1).is_free = true
        rw [hfree]; exact hi1.all_free b1
      · intro b1 p1 b2 p2 hb1 hp1 hb2 hp2 he hnes
        change (t.ssd b1).oob p1 = (t.ssd b2).oob p2 at he
        change (t.ssd b1).oob p1 ≠ SENTINEL at hnes
        rw [hoob] at hnes
        rw [hoob, hoob] at he
        by_cases c1 : b1 = b ∧ p1 = p
        · by_cases c2 : b2 = b ∧ p2 = p
          · exact ⟨c1.1.trans c2.1.symm, c1.2.trans c2.2.symm⟩
          · rw [if_pos c1, if_neg c2] at he
            exact absurd he.symm (hgone b2 p2 hb2 hp2)
        · by_cases c2 : b2 = b ∧ p2 = p
          · rw [if_neg c1, if_pos c2] at he
            exact absurd he (hgone b1 p1 hb1 hp1)
          · rw [if_neg c1, if_neg c2] at he
            rw [if_neg c1] at hnes
            exact hi1.oob_once b1 p1 b2 p2 hb1 hp1 hb2 hp2 he hnes
      · intro b1 p1 hb1 hp1 hv
        change is_page_valid (t.ssd b1) p1 = true at hv
        show (t.ssd b1).oob p1 ≠ SENTINEL
        rw [hval] at hv
        rw [hoob]
        by_cases c1 : b1 = b ∧ p1 = p
        · rw [if_pos c1]; exact hne
        · rw [if_neg c1] at hv ⊢
          exact hi1.valid_has_lba b1 p1 hb1 hp1 hv
      · intro x hx
        exact hi.queue_blocks x (hq x hx)
      · right
        show 0 ≤ t.active_block_index ∧ t.active_block_index < (BLOCKS_PER_SSD cfg : Int)
        rw [hab]
        exact ⟨Int.natCast_nonneg b, by exact_mod_cast hb⟩
      · show 0 ≤ t.active_page_index
        rw [hap]
        have := Int.natCast_nonneg p
        omega
      · exact hqs

/-- The write loop keeps the invariant when every address it visits is an
index of the mapping table. -/
theorem write_loop_inv (cfg : Config) (hw : well_sized cfg) (fuel : Nat) :
    ∀ (s t : State) (remaining_size current_lba : Nat), Inv cfg s →
      (∀ l ∈ write_lbas cfg fuel s remaining_size current_lba, l < LOGICAL_PAGES cfg) →
      write_loop cfg fuel s remaining_size current_lba = some t → Inv cfg t := by
  induction fuel with
  | zero => intro s t r l _ _ h; simp [write_loop] at h
  | succ fuel ih =>
    intro s t r l hi hl h
    simp only [write_loop] at h
    simp only [write_lbas] at hl
    by_cases hr : r = 0
    · simp only [hr, if_true, Option.some.injEq] at h
      rw [← h]; exact hi
    · simp only [hr, if_false] at h hl
      have hlin : l < LOGICAL_PAGES cfg := by
        apply hl
        split <;> simp
      have hstep := write_step_inv cfg s l hw hlin hi
      by_cases hf : (write_step cfg s l).2 = true
      · simp only [hf, if_true] at h hl
        exact ih _ t _ _ hstep (fun x hx => hl x (List.mem_cons_of_mem _ hx)) h
      · simp only [hf] at h
        simp only [Bool.false_eq_true, if_false, Option.some.injEq] at h
        rw [← h]; exact hstep

/-- While every block carries the free flag, garbage collection finds no
victim and changes nothing. -/
theorem garbage_collection_all_free (cfg : Config) (s : State)
    (h : ∀ b, (s.ssd b).is_free = true) : garbage_collection cfg s = s := by
  apply garbage_collection_no_victim
  have key : ∀ n, select_victim_upto cfg s.ssd n = (-1, PAGES_PER_BLOCK cfg) := by
    intro n
    induction n with
    | zero => rfl
    | succ n ih => simp [select_victim_upto, ih, h n]
  unfold select_victim
  rw [key]

/-- In such a state the watermark loop can only end by not running at all. -/
theorem watermark_loop_all_free (cfg : Config) (fuel : Nat) (s t : State)
    (h : ∀ b, (s.ssd b).is_free = true) (hr : watermark_loop cfg fuel s = some t) :
    t = s ∧ ¬ s.free_block_queue.size ≤ 3 := by
  induction fuel with
  | zero => simp [watermark_loop] at hr
  | succ fuel ih =>
    simp only [watermark_loop] at hr
    by_cases hq : s.free_block_queue.size ≤ 3
    · rw [if_pos hq, garbage_collection_all_free cfg s h] at hr
      exact absurd hq (ih hr).2
    · rw [if_neg hq] at hr
      simp only [Option.some.injEq] at hr
      exact ⟨hr.symm, hq⟩

/-- In such a state the watermark loop never ends once it has started. -/
theorem watermark_loop_spins (cfg : Config) (fuel : Nat) (s : State)
    (h : ∀ b, (s.ssd b).is_free = true) (hq : s.free_block_queue.size ≤ 3) :
    watermark_loop cfg fuel s = none := by
  cases hr : watermark_loop cfg fuel s with
  | none => rfl
  | some t => exact absurd hq (watermark_loop_all_free cfg fuel s t h hr).2

theorem report_step_frame (cfg : Config) (s : State) :
    (report_step cfg s).ssd = s.ssd ∧
    (report_step cfg s).free_block_queue = s.free_block_queue ∧
    (report_step cfg s).mapping_table = s.mapping_table ∧
    (report_step cfg s).active_block_index = s.active_block_index ∧
    (report_step cfg s).active_page_index = s.active_page_index ∧
    (report_step cfg s).total_writes = s.total_writes ∧
    (report_step cfg s).internal_writes = s.internal_writes ∧
    (report_step cfg s).total_erases = s.total_erases ∧
    (report_step cfg s).used_pages = s.used_pages ∧
    (report_step cfg s).total_read_bytes = s.total_read_bytes := by
  unfold report_step
  simp only
  split
  · split <;> simp
  · simp

theorem inv_of_frame (cfg : Config) (s t : State) (hi : Inv cfg s)
    (h1 : t.ssd = s.ssd) (h2 : t.free_block_queue = s.free_block_queue)
    (h3 : t.active_block_index = s.active_block_index)
    (h4 : t.active_page_index = s.active_page_index) : Inv cfg t := by
  constructor
  · rw [h1]; exact hi.all_free
  · rw [h1]; exact hi.oob_once
  · rw [h1]; exact hi.valid_has_lba
  · rw [h2]; exact hi.queue_blocks
  · rw [h3]; exact hi.cursor_block
  · rw [h4]; exact hi.cursor_page
  · rw [h2]; exact hi.queue_size

theorem enqueue_pages_slots (q : FreeQueue) (b n : Nat) (x : Slot)
    (hx : x ∈ (enqueue_pages q b n).slots) : x ∈ q.slots ∨ x.block_index = (b : Int) := by
  induction n with
  | zero => exact Or.inl hx
  | succ n ih =>
    simp only [enqueue_pages, fifo_enqueue, List.mem_append, List.mem_singleton] at hx
    rcases hx with hx | hx
    · exact ih hx
    · right; rw [hx]

theorem enqueue_blocks_slots (cfg : Config) (n : Nat) (x : Slot)
    (hx : x ∈ (enqueue_blocks cfg fifo_init n).slots) :
    0 ≤ x.block_index ∧ x.block_index < (n : Int) := by
  induction n with
  | zero => simp [enqueue_blocks, fifo_init] at hx
  | succ n ih =>
    simp only [enqueue_blocks] at hx
    rcases enqueue_pages_slots _ n _ x hx with h | h
    · have := ih h
      exact ⟨this.1, by push_cast; omega⟩
    · rw [h]; exact ⟨Int.natCast_nonneg n, by push_cast; omega⟩

theorem enqueue_pages_size (q : FreeQueue) (b n : Nat) :
    (enqueue_pages q b n).slots.length = q.slots.length + n ∧
    (enqueue_pages q b n).size = q.size + (n : Int) := by
  induction n with
  | zero => simp [enqueue_pages]
  | succ n ih =>
    simp only [enqueue_pages, fifo_enqueue, List.length_append, List.length_singleton, ih.1, ih.2]
    constructor
    · omega
    · push_cast; omega

theorem enqueue_blocks_size (cfg : Config) (n : Nat) :
    (enqueue_blocks cfg fifo_init n).slots.length = n * PAGES_PER_BLOCK cfg ∧
    (enqueue_blocks cfg fifo_init n).size = ((n * PAGES_PER_BLOCK cfg : Nat) : Int) := by
  induction n with
  | zero => simp [enqueue_blocks, fifo_init]
  | succ n ih =>
    simp only [enqueue_blocks]
    obtain ⟨h1, h2⟩ := enqueue_pages_size (enqueue_blocks cfg fifo_init n) n (PAGES_PER_BLOCK cfg)
    rw [h1, h2, ih.1, ih.2]
    constructor
    · rw [Nat.add_mul, Nat.one_mul]
    · push_cast; ring

theorem init_state_inv (cfg : Config) : Inv cfg (init_state cfg) := by
  constructor
  · intro b; rfl
  · intro b1 p1 b2 p2 _ _ _ _ _ hne
    exact absurd rfl hne
  · intro b p _ _ hv
    simp [init_state, is_page_valid, init_block] at hv
  · intro x hx
    exact enqueue_blocks_slots cfg _ x hx
  · left; rfl
  · show (0 : Int) ≤ 0
    exact le_refl _
  · obtain ⟨h1, h2⟩ := enqueue_blocks_size cfg (BLOCKS_PER_SSD cfg)
    show (enqueue_blocks cfg fifo_init (BLOCKS_PER_SSD cfg)).size = _
    rw [h2]
    show _ = (((enqueue_blocks cfg fifo_init (BLOCKS_PER_SSD cfg)).slots.length : Nat) : Int)
    rw [h1]

/-- Processing one trace line whose addresses are in range keeps the
invariant. -/
theorem process_request_inv (cfg : Config) (hw : well_sized cfg) (fuel : Nat)
    (s t : State) (request : IORequest) (hi : Inv cfg s)
    (hin : request_in_range cfg fuel s request)
    (h : process_request cfg fuel s request = some t) : Inv cfg t := by
  unfold process_request at h
  simp only at h
  have hi0 : Inv cfg { s with total_read_bytes := s.total_read_bytes + 4096 } :=
    inv_of_frame cfg s _ hi rfl rfl rfl rfl
  by_cases ht : request.io_type = 1
  · rw [if_pos ht] at h
    cases hwl : write_loop cfg fuel { s with total_read_bytes := s.total_read_bytes + 4096 }
        request.size request.lba with
    | none => rw [hwl] at h; simp at h
    | some s1 =>
      rw [hwl] at h
      simp only at h
      have hi1 : Inv cfg s1 := write_loop_inv cfg hw fuel _ s1 _ _ hi0 (hin ht) hwl
      cases hwm : watermark_loop cfg fuel s1 with
      | none => rw [hwm] at h; simp at h
      | some s2 =>
        rw [hwm] at h
        simp only [Option.some.injEq] at h
        have e := (watermark_loop_all_free cfg fuel s1 s2 hi1.all_free hwm).1
        subst e
        obtain ⟨f1, f2, _, f4, f5, _⟩ := report_step_frame cfg s2
        rw [← h]
        exact inv_of_frame cfg s2 _ hi1 f1 f2 f4 f5
  · rw [if_neg ht] at h
    simp only at h
    cases hwm : watermark_loop cfg fuel { s with total_read_bytes := s.total_read_bytes + 4096 } with
    | none => rw [hwm] at h; simp at h
    | some s2 =>
      rw [hwm] at h
      simp only [Option.some.injEq] at h
      have e := (watermark_loop_all_free cfg fuel _ s2 hi0.all_free hwm).1
      subst e
      obtain ⟨f1, f2, _, f4, f5, _⟩ := report_step_frame cfg
        { s with total_read_bytes := s.total_read_bytes + 4096 }
      rw [← h]
      exact inv_of_frame cfg _ _ hi0 f1 f2 f4 f5

/-- Every reachable state satisfies the invariant. -/
theorem reachable_inv (cfg : Config) (hw : well_sized cfg) (s : State)
    (h : Reachable cfg s) : Inv cfg s := by
  induction h with
  | init => exact init_state_inv cfg
  | step fuel s t request _ hin hp ih => exact process_request_inv cfg hw fuel s t request ih hin hp

/-! ## Single-page WRITE requests -/

theorem to_ulong_sub_self (n : Nat) : to_ulong ((n : Int) - (n : Int)) = 0 := by
  rw [sub_self]; rfl

/-- A single-page request runs the loop body exactly once. -/
theorem write_loop_single (cfg : Config) (hps : 0 < cfg.PAGE_SIZE) (fuel : Nat) (s : State)
    (lba : Nat) :
    write_loop cfg (fuel + 2) s cfg.PAGE_SIZE lba = some (write_step cfg s lba).1 := by
  have hne : cfg.PAGE_SIZE ≠ 0 := by omega
  simp only [write_loop, hne, if_false, to_ulong_sub_self, if_true]
  split <;> rfl

theorem write_loop_single_some (cfg : Config) (hps : 0 < cfg.PAGE_SIZE) (fuel : Nat)
    (s t : State) (lba : Nat) (h : write_loop cfg fuel s cfg.PAGE_SIZE lba = some t) :
    t = (write_step cfg s lba).1 := by
  have hne : cfg.PAGE_SIZE ≠ 0 := by omega
  cases fuel with
  | zero => simp [write_loop] at h
  | succ fuel =>
    cases fuel with
    | zero =>
      simp only [write_loop, hne, if_false] at h
      split at h
      · simp at h
      · simp only [Option.some.injEq] at h; exact h.symm
    | succ fuel =>
      rw [write_loop_single cfg hps fuel s lba] at h
      simp only [Option.some.injEq] at h; exact h.symm

theorem write_lbas_single (cfg : Config) (fuel : Nat) (s : State) (lba : Nat) :
    ∀ l ∈ write_lbas cfg fuel s cfg.PAGE_SIZE lba, l = lba := by
  intro l hl
  cases fuel with
  | zero => simp [write_lbas] at hl
  | succ fuel =>
    simp only [write_lbas] at hl
    split at hl
    · simp at hl
    · split at hl
      · rw [to_ulong_sub_self] at hl
        cases fuel with
        | zero => simpa [write_lbas] using hl
        | succ fuel => simpa [write_lbas] using hl
      · simpa using hl

theorem write_request_in_range (cfg : Config) (fuel : Nat) (s : State) (lba : Nat)
    (h : lba < LOGICAL_PAGES cfg) : request_in_range cfg fuel s (write_request cfg lba) := by
  intro _ l hl
  have := write_lbas_single cfg fuel _ lba l hl
  omega

theorem page_size_pos (cfg : Config) (hw : well_sized cfg) : 0 < cfg.PAGE_SIZE := by
  have h := hw.1
  unfold PAGES_PER_BLOCK at h
  rcases Nat.eq_zero_or_pos cfg.PAGE_SIZE with h0 | h0
  · rw [h0, Nat.div_zero] at h; omega
  · exact h0

/-- A reachable state has a slot in its queue. -/
theorem reachable_queue_nonempty (cfg : Config) (hw : well_sized cfg) (s : State)
    (h : Reachable cfg s) : s.free_block_queue.slots ≠ [] := by
  cases h with
  | init =>
    intro he
    have h1 := (enqueue_blocks_size cfg (BLOCKS_PER_SSD cfg)).1
    have h2 : (init_state cfg).free_block_queue.slots.length = 0 := by rw [he]; rfl
    have h3 : (init_state cfg).free_block_queue.slots.length
        = BLOCKS_PER_SSD cfg * PAGES_PER_BLOCK cfg := h1
    obtain ⟨w1, w2, _, _⟩ := hw
    have : 0 < BLOCKS_PER_SSD cfg * PAGES_PER_BLOCK cfg := Nat.mul_pos w2 (by omega)
    omega
  | step fuel s0 t request hr hin hp =>
    have hi0 := reachable_inv cfg hw s0 hr
    have hit := process_request_inv cfg hw fuel s0 s request hi0 hin hp
    have hi0b : Inv cfg { s0 with total_read_bytes := s0.total_read_bytes + 4096 } :=
      inv_of_frame cfg s0 _ hi0 rfl rfl rfl rfl
    have hsz : ¬ s.free_block_queue.size ≤ 3 := by
      unfold process_request at hp
      simp only at hp
      split at hp
      · simp at hp
      · rename_i s1 hs1
        cases hwm : watermark_loop cfg fuel s1 with
        | none => rw [hwm] at hp; simp at hp
        | some s2 =>
          rw [hwm] at hp
          simp only [Option.some.injEq] at hp
          have hi1 : Inv cfg s1 := by
            by_cases ht : request.io_type = 1
            · rw [if_pos ht] at hs1
              exact write_loop_inv cfg hw fuel _ s1 _ _ hi0b (hin ht) hs1
            · rw [if_neg ht] at hs1
              simp only [Option.some.injEq] at hs1
              rw [← hs1]
              exact hi0b
          obtain ⟨e, hq⟩ := watermark_loop_all_free cfg fuel s1 s2 hi1.all_free hwm
          subst e
          rw [← hp, (report_step_frame cfg s2).2.1]
          exact hq
    intro he
    have := hit.queue_size
    rw [he] at this
    simp only [List.length_nil] at this
    rw [this] at hsz
    exact hsz (by decide)

/-- With a slot in the queue a refill cannot hit the break. -/
theorem cursor_refill_ne_none (cfg : Config) (s : State)
    (h : s.free_block_queue.slots ≠ []) : cursor_refill cfg s ≠ none := by
  unfold cursor_refill fifo_dequeue
  split
  · cases hs : s.free_block_queue.slots with
    | nil => exact absurd hs h
    | cons x rest => simp
  · simp

theorem write_step_programs (cfg : Config) (s : State) (lba : Nat)
    (h : s.free_block_queue.slots ≠ []) : (write_step cfg s lba).2 = true := by
  unfold write_step
  simp only
  cases hcr : cursor_refill cfg { s with ssd := invalidate_lba cfg s.ssd lba } with
  | none => exact absurd hcr (cursor_refill_ne_none cfg _ h)
  | some s2 => rfl

/-- The effect of one processed single-page WRITE request on a state that
satisfies the invariant and has a slot in its queue. -/
theorem process_write_request (cfg : Config) (hw : well_sized cfg) (fuel : Nat)
    (s t : State) (lba : Nat) (hl : lba < LOGICAL_PAGES cfg) (hi : Inv cfg s)
    (hq : s.free_block_queue.slots ≠ [])
    (h : process_request cfg fuel s (write_request cfg lba) = some t) :
    ∃ b p : Nat, b < BLOCKS_PER_SSD cfg ∧ p < PAGES_PER_BLOCK cfg ∧
      t.active_block_index = (b : Int) ∧ t.active_page_index = (p : Int) + 1 ∧
      t.mapping_table lba = b * PAGES_PER_BLOCK cfg + p ∧
      is_page_valid (t.ssd b) p = true ∧ (t.ssd b).oob p = lba ∧
      (∀ b1 p1, b1 < BLOCKS_PER_SSD cfg → p1 < PAGES_PER_BLOCK cfg → ¬ (b1 = b ∧ p1 = p) →
        (t.ssd b1).oob p1 ≠ lba ∧
        ((s.ssd b1).oob p1 = lba →
          is_page_valid (t.ssd b1) p1 = false ∧ (t.ssd b1).oob p1 = SENTINEL)) ∧
      (needs_refill cfg s = false →
        (b : Int) = s.active_block_index ∧ (p : Int) = s.active_page_index) ∧
      (needs_refill cfg s = true → p = 0) := by
  have hne := logical_ne_sentinel cfg hw lba hl
  have hi0 : Inv cfg { s with total_read_bytes := s.total_read_bytes + 4096 } :=
    inv_of_frame cfg s _ hi rfl rfl rfl rfl
  unfold process_request at h
  simp only [write_request, if_true] at h
  cases hwl : write_loop cfg fuel { s with total_read_bytes := s.total_read_bytes + 4096 }
      cfg.PAGE_SIZE lba with
  | none => rw [hwl] at h; simp at h
  | some s1 =>
    rw [hwl] at h
    simp only at h
    have e1 := write_loop_single_some cfg (page_size_pos cfg hw) fuel _ s1 lba hwl
    have hflag := write_step_programs cfg
      { s with total_read_bytes := s.total_read_bytes + 4096 } lba hq
    have hstep : write_step cfg { s with total_read_bytes := s.total_read_bytes + 4096 } lba
        = (s1, true) := by
      rw [e1, ← hflag]
    have hi1 : Inv cfg s1 := by
      rw [e1]; exact write_step_inv cfg _ lba hw hl hi0
    obtain ⟨b, p, hb, hp, hab, hap, hmap, hoob, hval, _, _, _, hnf, hnt⟩ :=
      write_step_ok cfg _ s1 lba hw hi0 hstep
    cases hwm : watermark_loop cfg fuel s1 with
    | none => rw [hwm] at h; simp at h
    | some s2 =>
      rw [hwm] at h
      simp only [Option.some.injEq] at h
      have e := (watermark_loop_all_free cfg fuel s1 s2 hi1.all_free hwm).1
      subst e
      obtain ⟨f1, _, f3, f4, f5, _⟩ := report_step_frame cfg s2
      rw [← h, f1, f3, f4, f5]
      refine ⟨b, p, hb, hp, hab, hap, ?_, ?_, ?_, ?_, hnf, hnt⟩
      · rw [hmap]; simp
      · rw [hval]; simp
      · rw [hoob]; simp
      · intro b1 p1 hb1 hp1 hne1
        rw [hoob, hval, if_neg hne1, if_neg hne1]
        refine ⟨scan_gone cfg _ lba hi0 hne b1 p1 hb1 hp1, ?_⟩
        intro hold
        exact scan_retired cfg _ lba hi0 hne b1 p1 hb1 hp1 hold

theorem option_eq_some_getD {α : Type} (x : Option α) (d : α) (h : x.isSome = true) :
    x = some (x.getD d) := by
  cases x with
  | none => simp at h
  | some a => rfl

/-! ## Uniqueness and single mapping over reachable states -/

/-- C3 (uniqueness): in every state the simulator reaches between two trace
lines, on a device whose sizes fit the C types and with every written
address inside the mapping table, no two distinct valid physical pages
carry the same OOB value. -/
theorem reachable_oob_unique (cfg : Config) (hw : well_sized cfg) (s : State)
    (h : Reachable cfg s) : oob_unique cfg s := by
  have hi := reachable_inv cfg hw s h
  intro b1 p1 b2 p2 hb1 hp1 hb2 hp2 hv1 _ he
  exact hi.oob_once b1 p1 b2 p2 hb1 hp1 hb2 hp2 he (hi.valid_has_lba b1 p1 hb1 hp1 hv1)

/-- Instance of `reachable_oob_unique`: the state after address 5 has been
written twice on the 4-block, 8-page device. -/
theorem reachable_oob_unique_witness :
    well_sized small_config ∧ Reachable small_config (written_twice small_config 5) ∧
    oob_unique small_config (written_twice small_config 5) :=
  have hw : well_sized small_config := by unfold well_sized; decide
  have h5 : 5 < LOGICAL_PAGES small_config := by decide
  have hr1 : Reachable small_config (written_once small_config 5) :=
    Reachable.step 2 _ _ _ Reachable.init (write_request_in_range _ _ _ _ h5)
      (option_eq_some_getD _ (init_state small_config) (by decide))
  have hr2 : Reachable small_config (written_twice small_config 5) :=
    Reachable.step 2 _ _ _ hr1 (write_request_in_range _ _ _ _ h5)
      (option_eq_some_getD _ (init_state small_config) (by decide))
  ⟨hw, hr2, reachable_oob_unique small_config hw _ hr2⟩

theorem set_page_valid_idem (block : Block) (p : Nat) :
    set_page_valid (set_page_valid block p) p = set_page_valid block p := by
  unfold set_page_valid
  simp only [Function.update_same, Function.update_idem]
  have e : ((block.valid_bitmap (p / 8) ||| 1 <<< (p % 8)) % 256 ||| 1 <<< (p % 8)) % 256
      = (block.valid_bitmap (p / 8) ||| 1 <<< (p % 8)) % 256 := by
    apply Nat.eq_of_testBit_eq
    intro i
    have h256 : (256 : Nat) = 2 ^ 8 := by norm_num
    rw [h256]
    simp only [Nat.testBit_mod_two_pow, Nat.testBit_lor]
    cases decide (i < 8) <;> cases (block.valid_bitmap (p / 8)).testBit i <;>
      cases (1 <<< (p % 8)).testBit i <;> rfl
  rw [e]

theorem set_page_invalid_idem (block : Block) (p : Nat) :
    set_page_invalid (set_page_invalid block p) p = set_page_invalid block p := by
  unfold set_page_invalid
  simp only [Function.update_same, Function.update_idem]
  have e : block.valid_bitmap (p / 8) &&& (0xFF ^^^ 1 <<< (p % 8)) &&& (0xFF ^^^ 1 <<< (p % 8))
      = block.valid_bitmap (p / 8) &&& (0xFF ^^^ 1 <<< (p % 8)) := by
    rw [Nat.land_assoc, Nat.and_self]
  rw [e]

/-- C11 (validity bit-set operations): after `set_page_valid` at `p` a page
`q` is valid iff `q = p` or it was valid before; after `set_page_invalid` at
`p` a page `q` is valid iff `q ≠ p` and it was valid before; hence each
operation leaves the validity of every other page alone, and applying either
operation twice gives the same block as applying it once. -/
theorem bitset_operations (block : Block) (p q : Nat) :
    (is_page_valid (set_page_valid block p) q = true ↔ (q = p ∨ is_page_valid block q = true)) ∧
    (is_page_valid (set_page_invalid block p) q = true ↔
      (q ≠ p ∧ is_page_valid block q = true)) ∧
    (q ≠ p → is_page_valid (set_page_valid block p) q = is_page_valid block q) ∧
    (q ≠ p → is_page_valid (set_page_invalid block p) q = is_page_valid block q) ∧
    set_page_valid (set_page_valid block p) p = set_page_valid block p ∧
    set_page_invalid (set_page_invalid block p) p = set_page_invalid block p := by
  refine ⟨?_, ?_, ?_, ?_, set_page_valid_idem block p, set_page_invalid_idem block p⟩
  · rw [is_page_valid_set_page_valid]; simp
  · rw [is_page_valid_set_page_invalid]; simp
  · intro h; rw [is_page_valid_set_page_valid]; simp [h]
  · intro h; rw [is_page_valid_set_page_invalid]; simp [h]

/-! ## Requests that are not WRITEs -/

/-- C9 (non-WRITE requests are no-ops for the flash model): in a state whose
queue size exceeds 3, processing a request whose `io_type` is not 1 ends
(with any positive fuel) and leaves the flash array, the address map, the
queue, the write cursor and the host-write, internal-write, erase and
used-page counters unchanged, while `total_read_bytes` grows by exactly 4096
whatever the request's `size` field is. -/
theorem non_write_request_frame (cfg : Config) (fuel : Nat) (s : State) (request : IORequest)
    (hq : 3 < s.free_block_queue.size) (ht : request.io_type ≠ 1) :
    ∃ t, process_request cfg (fuel + 1) s request = some t ∧
      t.ssd = s.ssd ∧ t.mapping_table = s.mapping_table ∧
      t.free_block_queue = s.free_block_queue ∧
      t.active_block_index = s.active_block_index ∧
      t.active_page_index = s.active_page_index ∧
      t.total_writes = s.total_writes ∧ t.internal_writes = s.internal_writes ∧
      t.total_erases = s.total_erases ∧ t.used_pages = s.used_pages ∧
      t.total_read_bytes = s.total_read_bytes + 4096 := by
  have hn : ¬ s.free_block_queue.size ≤ 3 := by omega
  refine ⟨report_step cfg { s with total_read_bytes := s.total_read_bytes + 4096 }, ?_, ?_⟩
  · unfold process_request
    simp only [if_neg ht, watermark_loop, if_neg hn]
  · obtain ⟨f1, f2, f3, f4, f5, f6, f7, f8, f9, f10⟩ :=
      report_step_frame cfg { s with total_read_bytes := s.total_read_bytes + 4096 }
    exact ⟨f1, f3, f2, f4, f5, f6, f7, f8, f9, f10⟩

/-- Instance of `non_write_request_frame`: a request of type 0 with size 8192
in the initial state of the 4-block, 8-page device. -/
theorem non_write_request_frame_witness :
    3 < (init_state small_config).free_block_queue.size ∧
    ∃ t, process_request small_config 1 (init_state small_config)
        { io_type := 0, lba := 5, size := 8192, stream_number := 0 } = some t ∧
      t.ssd = (init_state small_config).ssd ∧
      t.mapping_table = (init_state small_config).mapping_table ∧
      t.free_block_queue = (init_state small_config).free_block_queue ∧
      t.active_block_index = (init_state small_config).active_block_index ∧
      t.active_page_index = (init_state small_config).active_page_index ∧
      t.total_writes = (init_state small_config).total_writes ∧
      t.internal_writes = (init_state small_config).internal_writes ∧
      t.total_erases = (init_state small_config).total_erases ∧
      t.used_pages = (init_state small_config).used_pages ∧
      t.total_read_bytes = (init_state small_config).total_read_bytes + 4096 :=
  ⟨by decide,
    non_write_request_frame small_config 0 (init_state small_config)
      { io_type := 0, lba := 5, size := 8192, stream_number := 0 } (by decide) (by decide)⟩

/-! ## Frame properties of the write path that hold in every state -/

theorem cursor_refill_shape (cfg : Config) (s s2 : State) (h : cursor_refill cfg s = some s2) :
    s2 = { s with free_block_queue := s2.free_block_queue,
                  active_block_index := s2.active_block_index,
                  active_page_index := s2.active_page_index } := by
  unfold cursor_refill at h
  split at h
  · unfold fifo_dequeue at h
    cases hs : s.free_block_queue.slots with
    | nil => rw [hs] at h; simp at h
    | cons x rest =>
      rw [hs] at h
      simp only [Option.some.injEq] at h
      rw [← h]
  · simp only [Option.some.injEq] at h
    rw [← h]

/-- The two ways an iteration of the write loop can go. -/
theorem write_step_cases (cfg : Config) (s : State) (lba : Nat) :
    (cursor_refill cfg { s with ssd := invalidate_lba cfg s.ssd lba } = none ∧
      write_step cfg s lba = ({ s with ssd := invalidate_lba cfg s.ssd lba }, false)) ∨
    (∃ s2, cursor_refill cfg { s with ssd := invalidate_lba cfg s.ssd lba } = some s2 ∧
      (write_step cfg s lba).2 = true ∧
      (write_step cfg s lba).1.ssd = Function.update s2.ssd s2.active_block_index.toNat
        { set_page_valid (s2.ssd s2.active_block_index.toNat) s2.active_page_index.toNat with
          oob := Function.update (s2.ssd s2.active_block_index.toNat).oob
            s2.active_page_index.toNat lba } ∧
      (write_step cfg s lba).1.mapping_table = Function.update s.mapping_table lba
        (physical_address cfg s2.active_block_index s2.active_page_index) ∧
      (write_step cfg s lba).1.free_block_queue = s2.free_block_queue ∧
      (write_step cfg s lba).1.active_block_index = s2.active_block_index ∧
      (write_step cfg s lba).1.active_page_index = s2.active_page_index + 1 ∧
      (write_step cfg s lba).1.total_writes = s.total_writes + 1 ∧
      (write_step cfg s lba).1.internal_writes = s.internal_writes + 1 ∧
      (write_step cfg s lba).1.checkpoint_writes = s.checkpoint_writes + 1 ∧
      (write_step cfg s lba).1.writes_since_50gb = s.writes_since_50gb + 1 ∧
      (write_step cfg s lba).1.internal_writes_since_50gb = s.internal_writes_since_50gb + 1 ∧
      (write_step cfg s lba).1.used_pages = s.used_pages + 1) := by
  cases hcr : cursor_refill cfg { s with ssd := invalidate_lba cfg s.ssd lba } with
  | none =>
    left
    refine ⟨rfl, ?_⟩
    unfold write_step
    simp only [hcr]
  | some s2 =>
    right
    have hsh := cursor_refill_shape cfg _ s2 hcr
    have e1 : s2.mapping_table = s.mapping_table := by rw [hsh]
    have e2 : s2.total_writes = s.total_writes := by rw [hsh]
    have e3 : s2.internal_writes = s.internal_writes := by rw [hsh]
    have e4 : s2.checkpoint_writes = s.checkpoint_writes := by rw [hsh]
    have e5 : s2.writes_since_50gb = s.writes_since_50gb := by rw [hsh]
    have e6 : s2.internal_writes_since_50gb = s.internal_writes_since_50gb := by rw [hsh]
    have e7 : s2.used_pages = s.used_pages := by rw [hsh]
    refine ⟨s2, rfl, ?_⟩
    unfold write_step
    simp only [hcr]
    split <;> simp [program_page, set_page_valid, e1, e2, e3, e4, e5, e6, e7]

/-- Fields no iteration of the write loop touches. -/
theorem write_step_telemetry (cfg : Config) (s : State) (lba : Nat) :
    (write_step cfg s lba).1.total_read_bytes = s.total_read_bytes ∧
    (write_step cfg s lba).1.last_gb_checkpoint = s.last_gb_checkpoint ∧
    (write_step cfg s lba).1.reports = s.reports ∧
    (write_step cfg s lba).1.total_erases = s.total_erases ∧
    (write_step cfg s lba).1.checkpoint_erases = s.checkpoint_erases ∧
    (write_step cfg s lba).1.gc_count = s.gc_count ∧
    (write_step cfg s lba).1.total_valid_data_ratio = s.total_valid_data_ratio := by
  cases hcr : cursor_refill cfg { s with ssd := invalidate_lba cfg s.ssd lba } with
  | none =>
    unfold write_step
    simp [hcr]
  | some s2 =>
    have hsh := cursor_refill_shape cfg _ s2 hcr
    have e1 : s2.total_read_bytes = s.total_read_bytes := by rw [hsh]
    have e2 : s2.last_gb_checkpoint = s.last_gb_checkpoint := by rw [hsh]
    have e3 : s2.reports = s.reports := by rw [hsh]
    have e4 : s2.total_erases = s.total_erases := by rw [hsh]
    have e5 : s2.checkpoint_erases = s.checkpoint_erases := by rw [hsh]
    have e6 : s2.gc_count = s.gc_count := by rw [hsh]
    have e7 : s2.total_valid_data_ratio = s.total_valid_data_ratio := by rw [hsh]
    unfold write_step
    simp only [hcr]
    split <;> simp [program_page, e1, e2, e3, e4, e5, e6, e7]

/-- No iteration of the write loop changes a free flag. -/
theorem write_step_is_free (cfg : Config) (s : State) (lba : Nat) (b : Nat) :
    ((write_step cfg s lba).1.ssd b).is_free = (s.ssd b).is_free := by
  have hscan : ((invalidate_lba cfg s.ssd lba) b).is_free = (s.ssd b).is_free := by
    rw [invalidate_lba_apply]
    split
    · exact invalidate_in_block_is_free cfg _ lba
    · rfl
  rcases write_step_cases cfg s lba with ⟨_, h⟩ | ⟨s2, hcr, _, hssd, _⟩
  · rw [h]; exact hscan
  · have hsh := cursor_refill_shape cfg _ s2 hcr
    have e : s2.ssd = invalidate_lba cfg s.ssd lba := by rw [hsh]
    rw [hssd, Function.update_apply]
    split
    · rename_i hb
      rw [hb, e]
      have e2 : ∀ (blk : Block) (p : Nat), (set_page_valid blk p).is_free = blk.is_free :=
        fun _ _ => rfl
      show (set_page_valid (invalidate_lba cfg s.ssd lba s2.active_block_index.toNat)
        s2.active_page_index.toNat).is_free = _
      rw [e2, ← hb]
      exact hscan
    · rw [e]; exact hscan

theorem write_loop_is_free (cfg : Config) (fuel : Nat) :
    ∀ (s t : State) (remaining_size current_lba : Nat),
      write_loop cfg fuel s remaining_size current_lba = some t →
      ∀ b, (t.ssd b).is_free = (s.ssd b).is_free := by
  induction fuel with
  | zero => intro s t r l h; simp [write_loop] at h
  | succ fuel ih =>
    intro s t r l h b
    simp only [write_loop] at h
    split at h
    · simp only [Option.some.injEq] at h; rw [← h]
    · split at h
      · rw [ih _ t _ _ h b]; exact write_step_is_free cfg s l b
      · simp only [Option.some.injEq] at h
        rw [← h]; exact write_step_is_free cfg s l b

/-- Processing a trace line in a state whose blocks all carry the free flag
ends in such a state. -/
theorem process_request_all_free (cfg : Config) (fuel : Nat) (s t : State)
    (request : IORequest) (hs : ∀ b, (s.ssd b).is_free = true)
    (h : process_request cfg fuel s request = some t) : ∀ b, (t.ssd b).is_free = true := by
  unfold process_request at h
  simp only at h
  split at h
  · simp at h
  · rename_i s1 hs1
    have h1 : ∀ b, (s1.ssd b).is_free = true := by
      intro b
      by_cases ht : request.io_type = 1
      · rw [if_pos ht] at hs1
        rw [write_loop_is_free cfg fuel _ s1 _ _ hs1 b]
        exact hs b
      · rw [if_neg ht] at hs1
        simp only [Option.some.injEq] at hs1
        rw [← hs1]; exact hs b
    cases hwm : watermark_loop cfg fuel s1 with
    | none => rw [hwm] at h; simp at h
    | some s2 =>
      rw [hwm] at h
      simp only [Option.some.injEq] at h
      have e := (watermark_loop_all_free cfg fuel s1 s2 h1 hwm).1
      subst e
      intro b
      rw [← h, (report_step_frame cfg s2).1]
      exact h1 b

theorem run_all_free (cfg : Config) (fuel : Nat) (requests : List IORequest) :
    ∀ (s t : State), (∀ b, (s.ssd b).is_free = true) → run cfg fuel s requests = some t →
      ∀ b, (t.ssd b).is_free = true := by
  induction requests with
  | nil =>
    intro s t hs h
    simp only [run, Option.some.injEq] at h
    rw [← h]; exact hs
  | cons r rest ih =>
    intro s t hs h
    simp only [run] at h
    cases hp : process_request cfg fuel s r with
    | none => rw [hp] at h; simp at h
    | some u =>
      rw [hp] at h
      exact ih u t (process_request_all_free cfg fuel s u r hs hp) h

/-- C17 (the free flag is never cleared): in every state reached from the
initial state by processing any sequence of requests, every block has
`is_free = true`, and `garbage_collection` invoked in that state returns it
unchanged; the same holds in the state the write loop of any further request
leaves behind, which is where the watermark loop invokes it. -/
theorem free_flag_never_cleared (cfg : Config) (fuel : Nat) (requests : List IORequest)
    (t : State) (h : run cfg fuel (init_state cfg) requests = some t) :
    (∀ b, (t.ssd b).is_free = true) ∧ garbage_collection cfg t = t ∧
    (∀ (fuel2 : Nat) (request : IORequest) (s1 : State),
      write_loop cfg fuel2 { t with total_read_bytes := t.total_read_bytes + 4096 }
        request.size request.lba = some s1 →
      (∀ b, (s1.ssd b).is_free = true) ∧ garbage_collection cfg s1 = s1) := by
  have hfree := run_all_free cfg fuel requests (init_state cfg) t (fun _ => rfl) h
  refine ⟨hfree, garbage_collection_all_free cfg t hfree, ?_⟩
  intro fuel2 request s1 hw
  have h1 : ∀ b, (s1.ssd b).is_free = true := by
    intro b
    rw [write_loop_is_free cfg fuel2 _ s1 _ _ hw b]
    exact hfree b
  exact ⟨h1, garbage_collection_all_free cfg s1 h1⟩

/-- Instance of `free_flag_never_cleared`: three single-page writes on the
4-block, 8-page device. -/
theorem free_flag_never_cleared_witness :
    run small_config 2 (init_state small_config) (distinct_writes small_config 3)
      = some ((run small_config 2 (init_state small_config)
          (distinct_writes small_config 3)).getD (init_state small_config)) ∧
    garbage_collection small_config
      ((run small_config 2 (init_state small_config)
          (distinct_writes small_config 3)).getD (init_state small_config))
      = (run small_config 2 (init_state small_config)
          (distinct_writes small_config 3)).getD (init_state small_config) :=
  have h : run small_config 2 (init_state small_config) (distinct_writes small_config 3)
      = some ((run small_config 2 (init_state small_config)
          (distinct_writes small_config 3)).getD (init_state small_config)) :=
    option_eq_some_getD _ (init_state small_config) (by decide)
  ⟨h, (free_flag_never_cleared small_config 2 (distinct_writes small_config 3) _ h).2.1⟩

/-! ## Free-space exhaustion in the write path -/

/-- C16 (write-path exhaustion): when an iteration of the write loop needs a
refill and the queue is empty, the loop ends there and returns the state it
had with only the stale-page scan for the current address applied: the
address map, the queue, the cursor and every counter are as before, no page
has become valid, no free flag has changed, and a page whose OOB was not the
current address keeps its validity and its OOB. -/
theorem write_exhaustion (cfg : Config) (fuel : Nat) (s : State)
    (remaining_size current_lba : Nat) (hr : remaining_size ≠ 0)
    (hn : needs_refill cfg s = true) (hq : s.free_block_queue.slots = []) :
    write_loop cfg (fuel + 1) s remaining_size current_lba
      = some { s with ssd := invalidate_lba cfg s.ssd current_lba } ∧
    (∀ b p, is_page_valid (invalidate_lba cfg s.ssd current_lba b) p = true →
      is_page_valid (s.ssd b) p = true) ∧
    (∀ b, (invalidate_lba cfg s.ssd current_lba b).is_free = (s.ssd b).is_free) ∧
    (∀ b p, (s.ssd b).oob p ≠ current_lba →
      is_page_valid (invalidate_lba cfg s.ssd current_lba b) p = is_page_valid (s.ssd b) p ∧
      (invalidate_lba cfg s.ssd current_lba b).oob p = (s.ssd b).oob p) := by
  have hcr : cursor_refill cfg { s with ssd := invalidate_lba cfg s.ssd current_lba } = none := by
    have hn2 : needs_refill cfg { s with ssd := invalidate_lba cfg s.ssd current_lba } = true := hn
    unfold cursor_refill fifo_dequeue
    rw [if_pos hn2]
    simp only [hq]
  have hstep : write_step cfg s current_lba
      = ({ s with ssd := invalidate_lba cfg s.ssd current_lba }, false) := by
    unfold write_step
    simp only [hcr]
  refine ⟨?_, ?_, ?_, ?_⟩
  · simp only [write_loop, if_neg hr, hstep]
    simp
  · intro b p hv
    rw [invalidate_lba_apply] at hv
    split at hv
    · exact (invalidate_in_block_valid cfg _ current_lba p hv).1
    · exact hv
  · intro b
    rw [invalidate_lba_apply]
    split
    · exact invalidate_in_block_is_free cfg _ current_lba
    · rfl
  · intro b p hne
    rw [invalidate_lba_apply]
    split
    · exact invalidate_in_block_other cfg _ current_lba p hne
    · exact ⟨rfl, rfl⟩


/-- Instance of `write_exhaustion`: the 4-block, 8-page device with an unset
cursor and an emptied queue, asked to write one page at address 5. -/
theorem write_exhaustion_witness :
    needs_refill small_config { init_state small_config with free_block_queue := fifo_init }
      = true ∧
    write_loop small_config 1 { init_state small_config with free_block_queue := fifo_init }
        4096 5
      = some { init_state small_config with
          free_block_queue := fifo_init,
          ssd := invalidate_lba small_config (init_state small_config).ssd 5 } :=
  ⟨by decide,
    (write_exhaustion small_config 0
      { init_state small_config with free_block_queue := fifo_init } 4096 5
      (by decide) (by decide) rfl).1⟩

/-! ## Trace lines, counters and reports -/

/-- The write loop touches neither the read-progress counter nor the report
state, and moves the six write counters by the same amount. -/
theorem write_loop_counters (cfg : Config) (fuel : Nat) :
    ∀ (s t : State) (remaining_size current_lba : Nat),
      write_loop cfg fuel s remaining_size current_lba = some t →
      t.total_read_bytes = s.total_read_bytes ∧ t.last_gb_checkpoint = s.last_gb_checkpoint ∧
      t.reports = s.reports ∧ t.total_erases = s.total_erases ∧
      ∃ n, t.total_writes = s.total_writes + n ∧ t.internal_writes = s.internal_writes + n ∧
        t.used_pages = s.used_pages + n ∧ t.checkpoint_writes = s.checkpoint_writes + n ∧
        t.writes_since_50gb = s.writes_since_50gb + n ∧
        t.internal_writes_since_50gb = s.internal_writes_since_50gb + n := by
  induction fuel with
  | zero => intro s t r l h; simp [write_loop] at h
  | succ fuel ih =>
    intro s t r l h
    simp only [write_loop] at h
    obtain ⟨g1, g2, g3, g4, _⟩ := write_step_telemetry cfg s l
    split at h
    · simp only [Option.some.injEq] at h
      rw [← h]
      exact ⟨rfl, rfl, rfl, rfl, 0, rfl, rfl, rfl, rfl, rfl, rfl⟩
    · split at h
      · rename_i hflag
        obtain ⟨k1, k2, k3, k4, n, c1, c2, c3, c4, c5, c6⟩ := ih _ t _ _ h
        rcases write_step_cases cfg s l with ⟨_, hw⟩ | ⟨s2, _, _, _, _, _, _, _, w1, w2, w3, w4, w5, w6⟩
        · rw [hw] at hflag; simp at hflag
        · refine ⟨k1.trans g1, k2.trans g2, k3.trans g3, k4.trans g4, n + 1, ?_, ?_, ?_, ?_, ?_, ?_⟩
          · rw [c1, w1]; omega
          · rw [c2, w2]; omega
          · rw [c3, w6]; omega
          · rw [c4, w3]; omega
          · rw [c5, w4]; omega
          · rw [c6, w5]; omega
      · rename_i hflag
        simp only [Option.some.injEq] at h
        rw [← h]
        rcases write_step_cases cfg s l with ⟨_, hw⟩ | ⟨s2, _, hf, _⟩
        · rw [hw]
          exact ⟨rfl, rfl, rfl, rfl, 0, rfl, rfl, rfl, rfl, rfl, rfl⟩
        · exact absurd hf hflag

/-- What the processing of one trace line amounts to when every block
carries the free flag: the write loop (for a WRITE), no garbage collection,
then the report step. -/
theorem process_request_split (cfg : Config) (fuel : Nat) (s t : State) (request : IORequest)
    (hs : ∀ b, (s.ssd b).is_free = true)
    (h : process_request cfg fuel s request = some t) :
    ∃ s1, (request.io_type = 1 →
        write_loop cfg fuel { s with total_read_bytes := s.total_read_bytes + 4096 }
          request.size request.lba = some s1) ∧
      (request.io_type ≠ 1 → s1 = { s with total_read_bytes := s.total_read_bytes + 4096 }) ∧
      ¬ s1.free_block_queue.size ≤ 3 ∧ t = report_step cfg s1 := by
  unfold process_request at h
  simp only at h
  split at h
  · simp at h
  · rename_i s1 hs1
    have h1 : ∀ b, (s1.ssd b).is_free = true := by
      intro b
      by_cases ht : request.io_type = 1
      · rw [if_pos ht] at hs1
        rw [write_loop_is_free cfg fuel _ s1 _ _ hs1 b]
        exact hs b
      · rw [if_neg ht] at hs1
        simp only [Option.some.injEq] at hs1
        rw [← hs1]; exact hs b
    cases hwm : watermark_loop cfg fuel s1 with
    | none => rw [hwm] at h; simp at h
    | some s2 =>
      rw [hwm] at h
      simp only [Option.some.injEq] at h
      obtain ⟨e, hq⟩ := watermark_loop_all_free cfg fuel s1 s2 h1 hwm
      subst e
      refine ⟨s2, ?_, ?_, hq, h.symm⟩
      · intro ht; rw [if_pos ht] at hs1; exact hs1
      · intro ht; rw [if_neg ht] at hs1
        simp only [Option.some.injEq] at hs1
        exact hs1.symm

theorem process_request_line (cfg : Config) (fuel : Nat) (s t : State) (request : IORequest)
    (hs : ∀ b, (s.ssd b).is_free = true)
    (h : process_request cfg fuel s request = some t) :
    ∃ s1, t = report_step cfg s1 ∧ s1.total_read_bytes = s.total_read_bytes + 4096 ∧
      s1.last_gb_checkpoint = s.last_gb_checkpoint ∧ s1.reports = s.reports ∧
      s1.total_erases = s.total_erases ∧
      ∃ n, s1.total_writes = s.total_writes + n ∧ s1.internal_writes = s.internal_writes + n ∧
        s1.used_pages = s.used_pages + n ∧ s1.checkpoint_writes = s.checkpoint_writes + n ∧
        s1.writes_since_50gb = s.writes_since_50gb + n ∧
        s1.internal_writes_since_50gb = s.internal_writes_since_50gb + n := by
  obtain ⟨s1, hw, hr, _, ht⟩ := process_request_split cfg fuel s t request hs h
  refine ⟨s1, ht, ?_⟩
  by_cases hio : request.io_type = 1
  · obtain ⟨k1, k2, k3, k4, n, c⟩ := write_loop_counters cfg fuel _ s1 _ _ (hw hio)
    exact ⟨k1, k2, k3, k4, n, c⟩
  · rw [hr hio]
    exact ⟨rfl, rfl, rfl, rfl, 0, rfl, rfl, rfl, rfl, rfl, rfl⟩

/-- The report step, case by case. -/
theorem report_step_spec (cfg : Config) (s : State) :
    (report_step cfg s).total_read_bytes = s.total_read_bytes ∧
    (report_step cfg s).used_pages = s.used_pages ∧
    (report_step cfg s).total_writes = s.total_writes ∧
    (report_step cfg s).internal_writes = s.internal_writes ∧
    (s.last_gb_checkpoint + GIB ≤ s.total_read_bytes →
      (report_step cfg s).last_gb_checkpoint = s.last_gb_checkpoint + GIB ∧
      (∃ rep, (report_step cfg s).reports = s.reports ++ [rep] ∧
        rep.progress_gib = (s.last_gb_checkpoint + GIB) / GIB ∧
        rep.internal_writes = s.internal_writes ∧ rep.total_writes = s.total_writes ∧
        rep.internal_writes_since_50gb = s.internal_writes_since_50gb ∧
        rep.writes_since_50gb = s.writes_since_50gb ∧ rep.used_pages = s.used_pages ∧
        rep.total_pages = BLOCKS_PER_SSD cfg * PAGES_PER_BLOCK cfg) ∧
      (((report_step cfg s).writes_since_50gb = 0 ∧
          (report_step cfg s).internal_writes_since_50gb = 0) ∨
        ((report_step cfg s).writes_since_50gb = s.writes_since_50gb ∧
          (report_step cfg s).internal_writes_since_50gb = s.internal_writes_since_50gb))) ∧
    (¬ s.last_gb_checkpoint + GIB ≤ s.total_read_bytes → report_step cfg s = s) := by
  obtain ⟨_, _, _, _, _, f6, f7, _, f9, f10⟩ := report_step_frame cfg s
  refine ⟨f10, f9, f6, f7, ?_, ?_⟩
  · intro hc
    unfold report_step
    simp only [if_pos hc]
    split
    · refine ⟨rfl, ⟨_, rfl, rfl, rfl, rfl, rfl, rfl, rfl, rfl⟩, Or.inl ⟨rfl, rfl⟩⟩
    · refine ⟨rfl, ⟨_, rfl, rfl, rfl, rfl, rfl, rfl, rfl, rfl⟩, Or.inr ⟨rfl, rfl⟩⟩
  · intro hc
    unfold report_step
    simp only [if_neg hc]

theorem gib_eq : GIB = 4096 * 262144 := by decide

/-- Read progress and report state after `k` lines, carried along a run. -/
theorem run_cadence (cfg : Config) (fuel : Nat) (requests : List IORequest) :
    ∀ (s t : State) (k : Nat), (∀ b, (s.ssd b).is_free = true) →
      s.total_read_bytes = 4096 * k → s.last_gb_checkpoint = GIB * (k / 262144) →
      s.reports.length = k / 262144 → run cfg fuel s requests = some t →
      t.total_read_bytes = 4096 * (k + requests.length) ∧
      t.last_gb_checkpoint = GIB * ((k + requests.length) / 262144) ∧
      t.reports.length = (k + requests.length) / 262144 := by
  induction requests with
  | nil =>
    intro s t k _ h1 h2 h3 h
    simp only [run, Option.some.injEq] at h
    subst h
    simpa using ⟨h1, h2, h3⟩
  | cons r rest ih =>
    intro s t k hs h1 h2 h3 h
    simp only [run] at h
    cases hp : process_request cfg fuel s r with
    | none => rw [hp] at h; simp at h
    | some u =>
      rw [hp] at h
      have hu := process_request_all_free cfg fuel s u r hs hp
      obtain ⟨s1, hu1, t1, t2, t3, _⟩ := process_request_line cfg fuel s u r hs hp
      obtain ⟨r1, _, _, _, r5, r6⟩ := report_step_spec cfg s1
      have hG := gib_eq
      have key : u.total_read_bytes = 4096 * (k + 1) ∧
          u.last_gb_checkpoint = GIB * ((k + 1) / 262144) ∧
          u.reports.length = (k + 1) / 262144 := by
        rw [hu1]
        by_cases hc : s1.last_gb_checkpoint + GIB ≤ s1.total_read_bytes
        · obtain ⟨q1, ⟨rep, q2, _⟩, _⟩ := r5 hc
          rw [t1, t2, h1, h2, hG] at hc
          rw [r1, q1, q2, List.length_append, t1, t2, t3, h1, h2, h3, hG]
          simp only [List.length_singleton]
          refine ⟨by ring, ?_, ?_⟩ <;> omega
        · rw [r6 hc, t1, t2, t3, h1, h2, h3]
          rw [t1, t2, h1, h2, hG] at hc
          refine ⟨rfl, ?_, ?_⟩
          · have : (k + 1) / 262144 = k / 262144 := by omega
            rw [this]
          · omega
      have := ih u t (k + 1) hu key.1 key.2.1 key.2.2 h
      simp only [List.length_cons]
      have e : k + (rest.length + 1) = k + 1 + rest.length := by omega
      rw [e]
      exact this

/-- C12 (report cadence): after `k` parsed lines processed from the initial
state, `total_read_bytes = 4096 * k` whatever the lines request,
`last_gb_checkpoint ≤ total_read_bytes < last_gb_checkpoint + 1 GiB`, exactly
`k / 262144` reports have been emitted, and processing line `k + 1` emits a
report, whose progress figure is `(k + 1) / 262144`, if and only if
`k + 1` is a multiple of 262144. -/
theorem report_cadence (cfg : Config) (fuel : Nat) (requests : List IORequest) (t : State)
    (h : run cfg fuel (init_state cfg) requests = some t) :
    t.total_read_bytes = 4096 * requests.length ∧
    t.last_gb_checkpoint ≤ t.total_read_bytes ∧
    t.total_read_bytes < t.last_gb_checkpoint + GIB ∧
    t.reports.length = requests.length / 262144 ∧
    ∀ (fuel2 : Nat) (request : IORequest) (t2 : State),
      process_request cfg fuel2 t request = some t2 →
      (262144 ∣ requests.length + 1 →
        ∃ rep, t2.reports = t.reports ++ [rep] ∧
          rep.progress_gib = (requests.length + 1) / 262144) ∧
      (¬ 262144 ∣ requests.length + 1 → t2.reports = t.reports) := by
  have hfree := run_all_free cfg fuel requests (init_state cfg) t (fun _ => rfl) h
  obtain ⟨c1, c2, c3⟩ := run_cadence cfg fuel requests (init_state cfg) t 0
    (fun _ => rfl) rfl (by simp; rfl) (by simp; rfl) h
  simp only [Nat.zero_add] at c1 c2 c3
  have hG := gib_eq
  refine ⟨c1, ?_, ?_, c3, ?_⟩
  · rw [c1, c2, hG]; omega
  · rw [c1, c2, hG]; omega
  · intro fuel2 request t2 hp
    obtain ⟨s1, hu1, t1, t2e, t3, _⟩ := process_request_line cfg fuel2 t t2 request hfree hp
    obtain ⟨_, _, _, _, r5, r6⟩ := report_step_spec cfg s1
    constructor
    · intro hd
      have hc : s1.last_gb_checkpoint + GIB ≤ s1.total_read_bytes := by
        rw [t1, t2e, c1, c2, hG]; omega
      obtain ⟨_, ⟨rep, q2, q3, _⟩, _⟩ := r5 hc
      refine ⟨rep, ?_, ?_⟩
      · rw [hu1, q2, t3]
      · rw [q3, t2e, c2, hG]
        have e : 4096 * 262144 * (requests.length / 262144) + 4096 * 262144
            = (4096 * 262144) * (requests.length / 262144 + 1) := by ring
        rw [e, Nat.mul_div_cancel_left _ (by norm_num)]
        omega
    · intro hd
      have hc : ¬ s1.last_gb_checkpoint + GIB ≤ s1.total_read_bytes := by
        rw [t1, t2e, c1, c2, hG]; omega
      rw [hu1, r6 hc, t3]

/-- Instance of `report_cadence`: three lines on the 4-block, 8-page device. -/
theorem report_cadence_witness :
    run small_config 2 (init_state small_config) (distinct_writes small_config 3)
      = some ((run small_config 2 (init_state small_config)
          (distinct_writes small_config 3)).getD (init_state small_config)) ∧
    ((run small_config 2 (init_state small_config)
      (distinct_writes small_config 3)).getD (init_state small_config)).total_read_bytes
      = 4096 * (distinct_writes small_config 3).length :=
  have h : run small_config 2 (init_state small_config) (distinct_writes small_config 3)
      = some ((run small_config 2 (init_state small_config)
          (distinct_writes small_config 3)).getD (init_state small_config)) :=
    option_eq_some_getD _ (init_state small_config) (by decide)
  ⟨h, (report_cadence small_config 2 (distinct_writes small_config 3) _ h).1⟩

/-! ## Write counters in lockstep -/

theorem run_append (cfg : Config) (fuel : Nat) (xs ys : List IORequest) :
    ∀ s, run cfg fuel s (xs ++ ys) =
      match run cfg fuel s xs with
      | none => none
      | some u => run cfg fuel u ys := by
  induction xs with
  | nil => intro s; rfl
  | cons x rest ih =>
    intro s
    simp only [List.cons_append, run]
    cases process_request cfg fuel s x with
    | none => rfl
    | some u => exact ih u

/-- A request that is not a WRITE, in a state with more than 3 queued slots. -/
theorem process_non_write (cfg : Config) (fuel : Nat) (hf : fuel ≠ 0) (s : State)
    (request : IORequest) (hq : 3 < s.free_block_queue.size) (ht : request.io_type ≠ 1) :
    process_request cfg fuel s request
      = some (report_step cfg { s with total_read_bytes := s.total_read_bytes + 4096 }) := by
  have hn : ¬ s.free_block_queue.size ≤ 3 := by omega
  obtain ⟨f, rfl⟩ := Nat.exists_eq_succ_of_ne_zero hf
  unfold process_request
  simp only [if_neg ht, watermark_loop, if_neg hn]

theorem run_reads (cfg : Config) (fuel : Nat) (hf : fuel ≠ 0) (n : Nat) :
    ∀ s, 3 < s.free_block_queue.size →
      ∃ t, run cfg fuel s (List.replicate n read_request) = some t ∧
        t.used_pages = s.used_pages ∧ t.free_block_queue = s.free_block_queue := by
  induction n with
  | zero => intro s _; exact ⟨s, rfl, rfl, rfl⟩
  | succ n ih =>
    intro s hq
    have hp := process_non_write cfg fuel hf s read_request hq (by decide)
    obtain ⟨_, f2, _, _, _, _, _, _, f9, _⟩ :=
      report_step_frame cfg { s with total_read_bytes := s.total_read_bytes + 4096 }
    obtain ⟨t, h1, h2, h3⟩ := ih (report_step cfg
      { s with total_read_bytes := s.total_read_bytes + 4096 }) (by rw [f2]; exact hq)
    refine ⟨t, ?_, h2.trans f9, h3.trans f2⟩
    simp only [List.replicate_succ, run, hp]
    exact h1

/-- The lockstep of the write counters, for the state and for every report
emitted so far, carried along a run. -/
theorem run_lockstep (cfg : Config) (fuel : Nat) (requests : List IORequest) :
    ∀ (s t : State), (∀ b, (s.ssd b).is_free = true) →
      (s.used_pages = s.total_writes ∧ s.total_writes = s.internal_writes ∧
        s.internal_writes_since_50gb = s.writes_since_50gb) →
      (∀ rep ∈ s.reports, rep.used_pages = rep.total_writes ∧
        rep.internal_writes = rep.total_writes ∧
        rep.internal_writes_since_50gb = rep.writes_since_50gb ∧
        rep.total_pages = BLOCKS_PER_SSD cfg * PAGES_PER_BLOCK cfg) →
      run cfg fuel s requests = some t →
      (t.used_pages = t.total_writes ∧ t.total_writes = t.internal_writes ∧
        t.internal_writes_since_50gb = t.writes_since_50gb) ∧
      (∀ rep ∈ t.reports, rep.used_pages = rep.total_writes ∧
        rep.internal_writes = rep.total_writes ∧
        rep.internal_writes_since_50gb = rep.writes_since_50gb ∧
        rep.total_pages = BLOCKS_PER_SSD cfg * PAGES_PER_BLOCK cfg) := by
  induction requests with
  | nil =>
    intro s t _ h1 h2 h
    simp only [run, Option.some.injEq] at h
    subst h
    exact ⟨h1, h2⟩
  | cons r rest ih =>
    intro s t hs h1 h2 h
    simp only [run] at h
    cases hp : process_request cfg fuel s r with
    | none => rw [hp] at h; simp at h
    | some u =>
      rw [hp] at h
      have hu := process_request_all_free cfg fuel s u r hs hp
      obtain ⟨s1, hu1, _, _, t3, _, n, c1, c2, c3, _, c5, c6⟩ :=
        process_request_line cfg fuel s u r hs hp
      obtain ⟨_, r2, r3, r4, r5, r6⟩ := report_step_spec cfg s1
      obtain ⟨a1, a2, a3⟩ := h1
      have l1 : s1.used_pages = s1.total_writes := by rw [c3, c1, a1]
      have l2 : s1.total_writes = s1.internal_writes := by rw [c1, c2, a2]
      have l3 : s1.internal_writes_since_50gb = s1.writes_since_50gb := by rw [c6, c5, a3]
      apply ih u t hu _ _ h
      · rw [hu1]
        refine ⟨by rw [r2, r3, l1], by rw [r3, r4, l2], ?_⟩
        by_cases hc : s1.last_gb_checkpoint + GIB ≤ s1.total_read_bytes
        · rcases (r5 hc).2.2 with ⟨z1, z2⟩ | ⟨z1, z2⟩
          · rw [z1, z2]
          · rw [z1, z2, l3]
        · rw [r6 hc]; exact l3
      · rw [hu1]
        by_cases hc : s1.last_gb_checkpoint + GIB ≤ s1.total_read_bytes
        · obtain ⟨_, ⟨rep, q1, _, q3, q4, q5, q6, q7, q8⟩, _⟩ := r5 hc
          intro x hx
          rw [q1, t3, List.mem_append, List.mem_singleton] at hx
          rcases hx with hx | hx
          · exact h2 x hx
          · rw [hx]
            exact ⟨by rw [q7, q4, l1], by rw [q3, q4, l2], by rw [q5, q6, l3], q8⟩
        · rw [r6 hc, t3]; exact h2

theorem calculate_waf_self (n : Nat) (h : n ≠ 0) : calculate_waf n n = 1 := by
  unfold calculate_waf
  exact div_self (by exact_mod_cast h)

theorem overfill_start :
    ∃ u0, run small_config 34 (init_state small_config)
      [{ io_type := 1, lba := 0, size := 32 * 4096, stream_number := 0 },
       { io_type := 1, lba := 0, size := 4096, stream_number := 0 }] = some u0 ∧
      u0.used_pages = 33 ∧ 3 < u0.free_block_queue.size :=
  ⟨_, option_eq_some_getD _ (init_state small_config) (by decide), by decide, by decide⟩

theorem overfill_prefix :
    ∃ u1, run small_config 34 (init_state small_config)
      ([{ io_type := 1, lba := 0, size := 32 * 4096, stream_number := 0 },
        { io_type := 1, lba := 0, size := 4096, stream_number := 0 }] ++
        List.replicate 262141 read_request) = some u1 ∧
      u1.used_pages = 33 ∧ 3 < u1.free_block_queue.size := by
  obtain ⟨u0, hA, hup, hq0⟩ := overfill_start
  obtain ⟨u1, hB, hup1, hq1⟩ := run_reads small_config 34 (by decide) 262141 u0 hq0
  refine ⟨u1, ?_, hup1.trans hup, by rw [hq1]; exact hq0⟩
  rw [run_append, hA]
  exact hB

/-- The trace `overfill_trace` ends and its report shows more used pages
than the device has. -/
theorem overfill_report :
    ∃ t rep, run small_config 34 (init_state small_config) overfill_trace = some t ∧
      rep ∈ t.reports ∧ 1 < rep.utilization := by
  obtain ⟨u1, hAB, hup, hq1b⟩ := overfill_prefix
  obtain ⟨c1, c2, _⟩ := run_cadence small_config 34 _ (init_state small_config) u1 0
    (fun _ => rfl) rfl (by simp; rfl) (by simp; rfl) hAB
  have hlen : ([({ io_type := 1, lba := 0, size := 32 * 4096, stream_number := 0 } : IORequest),
        { io_type := 1, lba := 0, size := 4096, stream_number := 0 }] ++
        List.replicate 262141 read_request).length = 262143 := by
    rw [List.length_append, List.length_replicate]
    rfl
  rw [hlen] at c1 c2
  have c1b : u1.total_read_bytes = 1073737728 := by rw [c1]
  have c2b : u1.last_gb_checkpoint = 0 := by
    rw [c2]
    have e : (0 + 262143) / 262144 = 0 := by norm_num
    rw [e, Nat.mul_zero]
  have hC := process_non_write small_config 34 (by decide) u1 read_request hq1b (by decide)
  obtain ⟨_, _, _, _, r5, _⟩ := report_step_spec small_config
    { u1 with total_read_bytes := u1.total_read_bytes + 4096 }
  have hc : u1.last_gb_checkpoint + GIB ≤ u1.total_read_bytes + 4096 := by
    have hG := gib_eq
    omega
  obtain ⟨_, ⟨rep, q1, _, _, _, _, _, q7, q8⟩, _⟩ := r5 hc
  refine ⟨report_step small_config
    { u1 with total_read_bytes := u1.total_read_bytes + 4096 }, rep, ?_, ?_, ?_⟩
  · unfold overfill_trace
    rw [← List.append_assoc, run_append, hAB]
    simp only [run, hC]
  · rw [q1]
    exact List.mem_append_right _ (List.mem_singleton_self rep)
  · unfold Report.utilization calculate_utilization
    rw [q7, q8]
    show (1 : ℚ) < ((u1.used_pages : Nat) : ℚ) /
      ((BLOCKS_PER_SSD small_config * PAGES_PER_BLOCK small_config : Nat) : ℚ)
    rw [hup]
    have e2 : BLOCKS_PER_SSD small_config * PAGES_PER_BLOCK small_config = 32 := by decide
    rw [e2]
    norm_num

/-- C18 (write counters move in lockstep): in every state reached from the
initial state by processing any sequence of requests,
`used_pages = total_writes = internal_writes` and
`internal_writes_since_50gb = writes_since_50gb`; every report emitted on the
way has WAF 1 when host writes are non-zero, TMP_WAF 1 when the window host
writes are non-zero, and Utilization equal to host page writes over the
number of physical pages; and a trace exists whose report shows a
Utilization above 1. -/
theorem counters_lockstep (cfg : Config) (fuel : Nat) (requests : List IORequest) (t : State)
    (h : run cfg fuel (init_state cfg) requests = some t) :
    (t.used_pages = t.total_writes ∧ t.total_writes = t.internal_writes ∧
      t.internal_writes_since_50gb = t.writes_since_50gb) ∧
    (∀ rep ∈ t.reports,
      (rep.total_writes ≠ 0 → rep.waf = 1) ∧
      (rep.writes_since_50gb ≠ 0 → rep.tmp_waf = 1) ∧
      rep.utilization = (rep.total_writes : ℚ) /
        ((BLOCKS_PER_SSD cfg * PAGES_PER_BLOCK cfg : Nat) : ℚ)) ∧
    (∃ u rep, run small_config 34 (init_state small_config) overfill_trace = some u ∧
      rep ∈ u.reports ∧ 1 < rep.utilization) := by
  obtain ⟨h1, h2⟩ := run_lockstep cfg fuel requests (init_state cfg) t (fun _ => rfl)
    ⟨rfl, rfl, rfl⟩ (by intro rep hrep; simp [init_state] at hrep) h
  refine ⟨h1, ?_, overfill_report⟩
  intro rep hrep
  obtain ⟨a1, a2, a3, a4⟩ := h2 rep hrep
  refine ⟨?_, ?_, ?_⟩
  · intro hne
    unfold Report.waf
    rw [a2]
    exact calculate_waf_self _ hne
  · intro hne
    unfold Report.tmp_waf
    rw [if_pos (Nat.pos_of_ne_zero hne), a3]
    exact calculate_waf_self _ hne
  · unfold Report.utilization calculate_utilization
    rw [a1, a4]

/-- Instance of `counters_lockstep`: three single-page writes on the 4-block,
8-page device. -/
theorem counters_lockstep_witness :
    run small_config 2 (init_state small_config) (distinct_writes small_config 3)
      = some ((run small_config 2 (init_state small_config)
          (distinct_writes small_config 3)).getD (init_state small_config)) ∧
    ((run small_config 2 (init_state small_config)
        (distinct_writes small_config 3)).getD (init_state small_config)).used_pages
      = ((run small_config 2 (init_state small_config)
        (distinct_writes small_config 3)).getD (init_state small_config)).total_writes :=
  have h : run small_config 2 (init_state small_config) (distinct_writes small_config 3)
      = some ((run small_config 2 (init_state small_config)
          (distinct_writes small_config 3)).getD (init_state small_config)) :=
    option_eq_some_getD _ (init_state small_config) (by decide)
  ⟨h, (counters_lockstep small_config 2 (distinct_writes small_config 3) _ h).1.1⟩

/-! ## Cursor refill -/

/-- C8, as the code has it: when a refill is needed and the queue's front
slot is `(b, p)`, the refill removes exactly that slot and the cursor becomes
`(b, 0)`, the page index `p` being discarded; the write path then programs
page `(b, 0)` and leaves the cursor at `(b, 1)`, and GC compaction relocates
its page to `(b, 0)`. -/
theorem cursor_refill_front (cfg : Config) (s : State) (b p : Int) (rest : List Slot)
    (hn : needs_refill cfg s = true)
    (hq : s.free_block_queue.slots = { block_index := b, page_index := p } :: rest) :
    cursor_refill cfg s = some { s with
      free_block_queue := { slots := rest, size := s.free_block_queue.size - 1 },
      active_block_index := b, active_page_index := 0 } ∧
    (∀ lba, (write_step cfg s lba).2 = true ∧
      (write_step cfg s lba).1.free_block_queue
        = { slots := rest, size := s.free_block_queue.size - 1 } ∧
      (write_step cfg s lba).1.active_block_index = b ∧
      (write_step cfg s lba).1.active_page_index = 1 ∧
      (write_step cfg s lba).1.mapping_table lba = physical_address cfg b 0) ∧
    (∀ victim n i, is_page_valid (s.ssd victim) i = true →
      compact_loop cfg victim (n + 1) i s = compact_loop cfg victim n (i + 1)
        (relocate_page cfg victim i { s with
          free_block_queue := { slots := rest, size := s.free_block_queue.size - 1 },
          active_block_index := b, active_page_index := 0 })) := by
  have key : ∀ u : State, needs_refill cfg u = true →
      u.free_block_queue.slots = { block_index := b, page_index := p } :: rest →
      cursor_refill cfg u = some { u with
        free_block_queue := { slots := rest, size := u.free_block_queue.size - 1 },
        active_block_index := b, active_page_index := 0 } := by
    intro u hu hs
    unfold cursor_refill fifo_dequeue
    rw [if_pos hu]
    simp only [hs]
  refine ⟨key s hn hq, ?_, ?_⟩
  · intro lba
    have h1 := key { s with ssd := invalidate_lba cfg s.ssd lba } hn hq
    rcases write_step_cases cfg s lba with ⟨hnone, _⟩ | ⟨s2, hs2, w1, _, w3, w4, w5, w6, _⟩
    · rw [h1] at hnone; simp at hnone
    · rw [h1] at hs2
      simp only [Option.some.injEq] at hs2
      subst hs2
      refine ⟨w1, w4, w5, ?_, ?_⟩
      · rw [w6]; rfl
      · rw [w3]; simp
  · intro victim n i hv
    simp only [compact_loop, hv, if_true, key s hn hq]

/-- Instance of `cursor_refill_front`: the state `refill_state`, whose
cursor is unset and whose front slot is `(2, 3)`; page 0 of block 1 is valid. -/
theorem cursor_refill_front_witness :
    needs_refill small_config refill_state = true ∧
    refill_state.free_block_queue.slots = [⟨2, 3⟩, ⟨2, 4⟩] ∧
    cursor_refill small_config refill_state = some { refill_state with
      free_block_queue := { slots := [⟨2, 4⟩], size := refill_state.free_block_queue.size - 1 },
      active_block_index := 2, active_page_index := 0 } :=
  ⟨by decide, rfl,
    (cursor_refill_front small_config refill_state 2 3 [⟨2, 4⟩] (by decide) rfl).1⟩

/-- C8 refuted as stated: after eight single-page writes on the 4-block,
8-page device a refill is needed and the front slot is `(0, 1)`; the refill
dequeues it and leaves the cursor at `(0, 0)`, not at `(0, 1)`. -/
theorem refill_resets_page_index :
    needs_refill small_config (after_writes 8) = true ∧
    (after_writes 8).free_block_queue.slots.head? = some ⟨0, 1⟩ ∧
    (cursor_refill small_config (after_writes 8)).map
      (fun t => (t.active_block_index, t.active_page_index, t.free_block_queue.slots.length))
      = some (0, 0, 30) := by
  refine ⟨by decide, by decide, by decide⟩

/-! ## Mapping consistency and conservation on the code as it is -/

theorem after_writes_run (n : Nat)
    (h : (run small_config 2 (init_state small_config)
      (distinct_writes small_config n)).isSome = true) :
    run small_config 2 (init_state small_config) (distinct_writes small_config n)
      = some (after_writes n) :=
  option_eq_some_getD _ (init_state small_config) h

/-- C1 on the code: nine single-page writes to the addresses `0 .. 8` on the
4-block, 8-page device all end; the ninth refills the cursor from the slot
`(0, 1)`, resets it to `(0, 0)` and programs that page with address 8, while
`mapping_table[0]` still names it, so the state between requests does not
satisfy mapping consistency. -/
theorem mapping_inconsistent_after_refill :
    run small_config 2 (init_state small_config) (distinct_writes small_config 9)
      = some (after_writes 9) ∧
    (after_writes 9).mapping_table 0 = 0 ∧ (after_writes 9).mapping_table 8 = 0 ∧
    ((after_writes 9).ssd 0).oob 0 = 8 ∧
    ¬ mapping_consistent small_config (after_writes 9) := by
  have h1 : (after_writes 9).mapping_table 0 = 0 := by decide
  have h2 : ((after_writes 9).ssd 0).oob 0 = 8 := by decide
  refine ⟨after_writes_run 9 (by decide), h1, by decide, h2, ?_⟩
  intro hc
  have h3 := (hc 0 (by decide) (by rw [h1]; decide)).2
  rw [h1] at h3
  have e1 : 0 / PAGES_PER_BLOCK small_config = 0 := by decide
  have e2 : 0 % PAGES_PER_BLOCK small_config = 0 := by decide
  rw [e1, e2, h2] at h3
  exact absurd h3 (by decide)

set_option maxRecDepth 100000 in
/-- C2 on the code: two single-page writes to the addresses 0 and 1 on the
4-block, 8-page device end without exhaustion and leave two valid pages but
31 queued slots, 33 in all on a device of 32 pages: only the first write
took a slot from the queue. -/
theorem conservation_fails_after_two_writes :
    run small_config 2 (init_state small_config) (distinct_writes small_config 2)
      = some (after_writes 2) ∧
    total_valid small_config (after_writes 2).ssd = 2 ∧
    (after_writes 2).free_block_queue.slots.length = 31 ∧
    (after_writes 2).free_block_queue.size = 31 ∧
    BLOCKS_PER_SSD small_config * PAGES_PER_BLOCK small_config = 32 ∧
    ¬ conservation small_config (after_writes 2) := by
  have h1 : total_valid small_config (after_writes 2).ssd = 2 := by decide
  have h2 : (after_writes 2).free_block_queue.slots.length = 31 := by decide
  have h3 : BLOCKS_PER_SSD small_config * PAGES_PER_BLOCK small_config = 32 := by decide
  refine ⟨after_writes_run 2 (by decide), h1, h2, by decide, h3, ?_⟩
  unfold conservation
  rw [h1, h2, h3]
  decide

/-! ## Scenario C on the tiny device -/

theorem select_victim_all_free (cfg : Config) (ssd : Nat → Block)
    (h : ∀ b, (ssd b).is_free = true) : select_victim cfg ssd = (-1, PAGES_PER_BLOCK cfg) := by
  have key : ∀ n, select_victim_upto cfg ssd n = (-1, PAGES_PER_BLOCK cfg) := by
    intro n
    induction n with
    | zero => rfl
    | succ n ih => simp [select_victim_upto, ih, h n]
  exact key _

/-- C7 on the code: on the tiny device the 16 distinct in-range addresses
leave 12 slots queued; carrying on with in-range addresses, 48 single-page
writes end with 4 slots queued, and the 49th takes the queue to 3, after
which the watermark loop calls `garbage_collection`, which finds no victim
because every block still carries the free flag and returns the state
unchanged, so that the processing of the 49th request does not end for any
amount of fuel. -/
theorem scenario_c_never_ends :
    run tiny_config 2 (init_state tiny_config) (cyclic_writes tiny_config 16)
      = some (tiny_after 16) ∧
    (tiny_after 16).free_block_queue.size = 12 ∧
    run tiny_config 2 (init_state tiny_config) (cyclic_writes tiny_config 48)
      = some (tiny_after 48) ∧
    (tiny_after 48).free_block_queue.size = 4 ∧
    (∃ w, write_loop tiny_config 2
        { tiny_after 48 with total_read_bytes := (tiny_after 48).total_read_bytes + 4096 }
        4096 (48 % LOGICAL_PAGES tiny_config) = some w ∧
      w.free_block_queue.size = 3 ∧ w.free_block_queue.slots.length = 3 ∧
      select_victim tiny_config w.ssd = (-1, PAGES_PER_BLOCK tiny_config) ∧
      garbage_collection tiny_config w = w) ∧
    (∀ fuel, process_request tiny_config fuel (tiny_after 48)
      (write_request tiny_config (48 % LOGICAL_PAGES tiny_config)) = none) := by
  have h48 : run tiny_config 2 (init_state tiny_config) (cyclic_writes tiny_config 48)
      = some (tiny_after 48) := option_eq_some_getD _ (init_state tiny_config) (by decide)
  have hfree : ∀ b, ((tiny_after 48).ssd b).is_free = true :=
    run_all_free tiny_config 2 _ (init_state tiny_config) _ (fun _ => rfl) h48
  have hps : 0 < tiny_config.PAGE_SIZE := by decide
  have hsz : (write_step tiny_config
      { tiny_after 48 with total_read_bytes := (tiny_after 48).total_read_bytes + 4096 }
      (48 % LOGICAL_PAGES tiny_config)).1.free_block_queue.size = 3 := by decide
  have hwfree : ∀ b, ((write_step tiny_config
      { tiny_after 48 with total_read_bytes := (tiny_after 48).total_read_bytes + 4096 }
      (48 % LOGICAL_PAGES tiny_config)).1.ssd b).is_free = true := by
    intro b
    rw [write_step_is_free]
    exact hfree b
  refine ⟨option_eq_some_getD _ (init_state tiny_config) (by decide), by decide, h48,
    by decide, ?_, ?_⟩
  · refine ⟨_, write_loop_single tiny_config hps 0 _ _, hsz, by decide,
      select_victim_all_free tiny_config _ hwfree,
      garbage_collection_all_free tiny_config _ hwfree⟩
  · intro fuel
    unfold process_request
    simp only [write_request, if_true]
    cases hwl : write_loop tiny_config fuel
        { tiny_after 48 with total_read_bytes := (tiny_after 48).total_read_bytes + 4096 }
        tiny_config.PAGE_SIZE (48 % LOGICAL_PAGES tiny_config) with
    | none => rfl
    | some w =>
      have e := write_loop_single_some tiny_config hps fuel _ w _ hwl
      simp only
      rw [watermark_loop_spins tiny_config fuel w (by rw [e]; exact hwfree)
        (by rw [e, hsz])]

/-! ## Remaining-bytes arithmetic -/

theorem to_ulong_lt (x : Int) : to_ulong x < 2 ^ 64 := by
  unfold to_ulong
  have h1 : (0 : Int) ≤ x % (2 ^ 64 : Int) := Int.emod_nonneg _ (by norm_num)
  have h2 : x % (2 ^ 64 : Int) < (2 ^ 64 : Int) := Int.emod_lt_of_pos _ (by norm_num)
  omega

theorem to_ulong_sub_mod (ps r : Nat) (hdiv : ps ∣ 2 ^ 64) :
    to_ulong ((r : Int) - (ps : Int)) % ps = r % ps := by
  have h1 : ((to_ulong ((r : Int) - (ps : Int)) : Nat) : Int)
      = ((r : Int) - (ps : Int)) % (2 ^ 64 : Int) := by
    unfold to_ulong
    exact Int.toNat_of_nonneg (Int.emod_nonneg _ (by norm_num))
  have hd : (ps : Int) ∣ (2 ^ 64 : Int) := by exact_mod_cast Int.natCast_dvd_natCast.mpr hdiv
  have h2 : (((to_ulong ((r : Int) - (ps : Int)) % ps : Nat)) : Int) = ((r % ps : Nat) : Int) := by
    push_cast
    rw [h1, Int.emod_emod_of_dvd _ hd]
    have e : (r : Int) - (ps : Int) = (r : Int) + (ps : Int) * (-1) := by ring
    rw [e, Int.add_mul_emod_self_left]
  exact_mod_cast h2

theorem to_ulong_sub_page (n ps : Nat) (h : n * ps < 2 ^ 64) :
    to_ulong ((((n + 1) * ps : Nat) : Int) - (ps : Int)) = n * ps := by
  have e : (((n + 1) * ps : Nat) : Int) - (ps : Int) = ((n * ps : Nat) : Int) := by
    push_cast; ring
  rw [e]
  exact to_ulong_natCast _ h

theorem cursor_refill_none (cfg : Config) (s : State) (h : cursor_refill cfg s = none) :
    needs_refill cfg s = true ∧ s.free_block_queue.slots = [] := by
  unfold cursor_refill fifo_dequeue at h
  split at h
  · rename_i hn
    refine ⟨hn, ?_⟩
    cases hs : s.free_block_queue.slots with
    | nil => rfl
    | cons x rest => rw [hs] at h; simp at h
  · simp at h

theorem cursor_refill_length (cfg : Config) (s s2 : State) (h : cursor_refill cfg s = some s2) :
    s.free_block_queue.slots.length ≤ s2.free_block_queue.slots.length + 1 := by
  unfold cursor_refill fifo_dequeue at h
  split at h
  · cases hs : s.free_block_queue.slots with
    | nil => rw [hs] at h; simp at h
    | cons x rest =>
      rw [hs] at h
      simp only [Option.some.injEq] at h
      rw [← h]
      simp
  · simp only [Option.some.injEq] at h
    rw [← h]; omega

theorem write_step_queue_length (cfg : Config) (s : State) (lba : Nat) :
    s.free_block_queue.slots.length ≤ (write_step cfg s lba).1.free_block_queue.slots.length + 1 := by
  rcases write_step_cases cfg s lba with ⟨_, h⟩ | ⟨s2, hcr, _, _, _, hq, _⟩
  · rw [h]; show s.free_block_queue.slots.length ≤ s.free_block_queue.slots.length + 1; omega
  · rw [hq]
    exact cursor_refill_length cfg { s with ssd := invalidate_lba cfg s.ssd lba } s2 hcr

/-- With at least `n` slots queued, a request of `n` pages runs the loop body
`n` times, each time programming a page. -/
theorem write_loop_pages (cfg : Config) (n : Nat) :
    ∀ (fuel : Nat) (s : State) (lba : Nat), 0 < cfg.PAGE_SIZE → n * cfg.PAGE_SIZE < 2 ^ 64 →
      n ≤ s.free_block_queue.slots.length → n < fuel →
      ∃ t, write_loop cfg fuel s (n * cfg.PAGE_SIZE) lba = some t ∧
        t.total_writes = s.total_writes + n ∧ t.internal_writes = s.internal_writes + n ∧
        t.used_pages = s.used_pages + n := by
  induction n with
  | zero =>
    intro fuel s lba _ _ _ hf
    obtain ⟨f, rfl⟩ := Nat.exists_eq_succ_of_ne_zero (by omega : fuel ≠ 0)
    exact ⟨s, by simp [write_loop], rfl, rfl, rfl⟩
  | succ n ih =>
    intro fuel s lba hps hlt hq hf
    obtain ⟨f, rfl⟩ := Nat.exists_eq_succ_of_ne_zero (by omega : fuel ≠ 0)
    have hne : (n + 1) * cfg.PAGE_SIZE ≠ 0 := Nat.mul_ne_zero (by omega) (by omega)
    have hslots : s.free_block_queue.slots ≠ [] := by
      intro he; rw [he] at hq; simp at hq
    have hflag := write_step_programs cfg s lba hslots
    have hlt2 : n * cfg.PAGE_SIZE < 2 ^ 64 := by
      have : n * cfg.PAGE_SIZE ≤ (n + 1) * cfg.PAGE_SIZE := Nat.mul_le_mul_right _ (by omega)
      omega
    have hlen := write_step_queue_length cfg s lba
    obtain ⟨t, ht, c1, c2, c3⟩ := ih f (write_step cfg s lba).1 ((lba + 1) % 2 ^ 64) hps hlt2
      (by omega) (by omega)
    rcases write_step_cases cfg s lba with ⟨_, hw⟩ | ⟨_, _, _, _, _, _, _, _, w1, w2, _, _, _, w6⟩
    · rw [hw] at hflag; simp at hflag
    · refine ⟨t, ?_, ?_, ?_, ?_⟩
      · simp only [write_loop, if_neg hne, hflag, if_true]
        rw [to_ulong_sub_page n cfg.PAGE_SIZE hlt2]
        exact ht
      · rw [c1, w1]; omega
      · rw [c2, w2]; omega
      · rw [c3, w6]; omega

/-- With a size that is not a multiple of the page size the loop can only
end in the break of the empty queue. -/
theorem write_loop_unaligned (cfg : Config) (hdiv : cfg.PAGE_SIZE ∣ 2 ^ 64) (fuel : Nat) :
    ∀ (s t : State) (remaining_size lba : Nat), remaining_size % cfg.PAGE_SIZE ≠ 0 →
      write_loop cfg fuel s remaining_size lba = some t →
      needs_refill cfg t = true ∧ t.free_block_queue.slots = [] := by
  induction fuel with
  | zero => intro s t r l _ h; simp [write_loop] at h
  | succ fuel ih =>
    intro s t r l hr h
    have hne : r ≠ 0 := by
      intro h0; rw [h0] at hr; simp at hr
    simp only [write_loop, if_neg hne] at h
    split at h
    · apply ih _ t _ _ _ h
      rw [to_ulong_sub_mod cfg.PAGE_SIZE r hdiv]
      exact hr
    · rename_i hflag
      simp only [Option.some.injEq] at h
      rcases write_step_cases cfg s l with ⟨hcr, hw⟩ | ⟨_, _, hf, _⟩
      · rw [← h, hw]
        exact cursor_refill_none cfg _ hcr
      · exact absurd hf hflag

/-- C20 (remaining-bytes arithmetic): with a page size that divides 2^64, as
4096 does, `remaining_size` stays congruent to the request size modulo
`PAGE_SIZE` through every decrement modulo 2^64; a request of `n ≥ 1` whole
pages, with at least `n` slots queued, makes the loop program exactly `n`
pages and stop; and when the size is not a multiple of `PAGE_SIZE` no
decrement yields 0 and the loop, if it ends, ends in a state that needs a
refill with the queue empty. -/
theorem remaining_bytes_arithmetic (cfg : Config) (hps : 0 < cfg.PAGE_SIZE)
    (hdiv : cfg.PAGE_SIZE ∣ 2 ^ 64) (size : Nat) :
    (∀ k, remaining_after cfg size k % cfg.PAGE_SIZE = size % cfg.PAGE_SIZE) ∧
    (∀ (n fuel : Nat) (s : State) (lba : Nat), 1 ≤ n → size = n * cfg.PAGE_SIZE →
      size < 2 ^ 64 → n ≤ s.free_block_queue.slots.length → n < fuel →
      ∃ t, write_loop cfg fuel s size lba = some t ∧
        t.total_writes = s.total_writes + size / cfg.PAGE_SIZE ∧
        t.internal_writes = s.internal_writes + size / cfg.PAGE_SIZE ∧
        t.used_pages = s.used_pages + size / cfg.PAGE_SIZE) ∧
    (size % cfg.PAGE_SIZE ≠ 0 →
      (∀ k, remaining_after cfg size k ≠ 0) ∧
      (∀ (fuel : Nat) (s t : State) (lba : Nat), write_loop cfg fuel s size lba = some t →
        needs_refill cfg t = true ∧ t.free_block_queue.slots = [])) := by
  have hcong : ∀ k, remaining_after cfg size k % cfg.PAGE_SIZE = size % cfg.PAGE_SIZE := by
    intro k
    induction k with
    | zero => rfl
    | succ k ih =>
      simp only [remaining_after]
      rw [to_ulong_sub_mod cfg.PAGE_SIZE _ hdiv, ih]
  refine ⟨hcong, ?_, ?_⟩
  · intro n fuel s lba _ hsz hlt hq hf
    have hd : size / cfg.PAGE_SIZE = n := by
      rw [hsz]; exact Nat.mul_div_cancel _ hps
    rw [hd, hsz]
    exact write_loop_pages cfg n fuel s lba hps (hsz ▸ hlt) hq hf
  · intro hr
    refine ⟨?_, ?_⟩
    · intro k h0
      have := hcong k
      rw [h0] at this
      simp at this
      exact hr this.symm
    · intro fuel s t lba h
      exact write_loop_unaligned cfg hdiv fuel s t size lba hr h

/-- Instance of `remaining_bytes_arithmetic`: page size 4096 and a request of
6000 bytes. -/
theorem remaining_bytes_arithmetic_witness :
    0 < small_config.PAGE_SIZE ∧ small_config.PAGE_SIZE ∣ 2 ^ 64 ∧
    ∀ k, remaining_after small_config 6000 k % small_config.PAGE_SIZE
      = 6000 % small_config.PAGE_SIZE :=
  ⟨by decide, ⟨2 ^ 52, by decide⟩,
    (remaining_bytes_arithmetic small_config (by decide) ⟨2 ^ 52, by decide⟩ 6000).1⟩

/-! ## Effects of an erasing garbage collection -/

theorem cursor_refill_frame (cfg : Config) (s s1 : State) (h : cursor_refill cfg s = some s1) :
    s1.total_erases = s.total_erases ∧ s1.checkpoint_erases = s.checkpoint_erases ∧
    s1.gc_count = s.gc_count ∧ s1.total_valid_data_ratio = s.total_valid_data_ratio := by
  have hsh := cursor_refill_shape cfg s s1 h
  refine ⟨?_, ?_, ?_, ?_⟩ <;> rw [hsh]

/-- Compaction leaves the erase and GC statistics alone. -/
theorem compact_loop_frame (cfg : Config) (victim : Nat) (n : Nat) :
    ∀ (i : Nat) (s : State),
      (compact_loop cfg victim n i s).total_erases = s.total_erases ∧
      (compact_loop cfg victim n i s).checkpoint_erases = s.checkpoint_erases ∧
      (compact_loop cfg victim n i s).gc_count = s.gc_count ∧
      (compact_loop cfg victim n i s).total_valid_data_ratio = s.total_valid_data_ratio := by
  induction n with
  | zero => intro i s; exact ⟨rfl, rfl, rfl, rfl⟩
  | succ n ih =>
    intro i s
    simp only [compact_loop]
    split
    · cases hcr : cursor_refill cfg s with
      | none => exact ⟨rfl, rfl, rfl, rfl⟩
      | some s1 =>
        simp only
        obtain ⟨a1, a2, a3, a4⟩ := ih (i + 1) (relocate_page cfg victim i s1)
        obtain ⟨b1, b2, b3, b4⟩ := cursor_refill_frame cfg s s1 hcr
        exact ⟨a1.trans b1, a2.trans b2, a3.trans b3, a4.trans b4⟩
    · exact ih (i + 1) s

theorem enqueue_pages_slots_eq (q : FreeQueue) (b n : Nat) :
    (enqueue_pages q b n).slots
      = q.slots ++ (List.range n).map (fun i : Nat => ({ block_index := (b : Int), page_index := (i : Int) } : Slot)) := by
  induction n with
  | zero => simp [enqueue_pages]
  | succ n ih =>
    simp only [enqueue_pages, fifo_enqueue, ih, List.range_succ, List.map_append,
      List.map_cons, List.map_nil, List.append_assoc]

/-- C14 (GC erase effects): when `garbage_collection` selects the victim `v`
with `c` valid pages counted during selection, then on return block `v`
carries the free flag, the queue ends with the slots
`(v, 0), (v, 1), .., (v, PAGES_PER_BLOCK - 1)` in that order, the lifetime
erase counter, the window erase counter and the GC-invocation counter have
each grown by 1, the valid-ratio accumulator has grown by
`c / PAGES_PER_BLOCK`, and `used_blocks` is `BLOCKS_PER_SSD` minus the
quotient of the final queue size by `PAGES_PER_BLOCK`. -/
theorem gc_erase_effects (cfg : Config) (s : State) (v c : Nat)
    (hsel : select_victim cfg s.ssd = ((v : Int), c)) :
    ((garbage_collection cfg s).ssd v).is_free = true ∧
    (∃ front, (garbage_collection cfg s).free_block_queue.slots = front ++
      (List.range (PAGES_PER_BLOCK cfg)).map
        (fun i : Nat => ({ block_index := (v : Int), page_index := (i : Int) } : Slot))) ∧
    (garbage_collection cfg s).total_erases = s.total_erases + 1 ∧
    (garbage_collection cfg s).checkpoint_erases = s.checkpoint_erases + 1 ∧
    (garbage_collection cfg s).gc_count = s.gc_count + 1 ∧
    (garbage_collection cfg s).total_valid_data_ratio
      = s.total_valid_data_ratio + (c : ℚ) / (PAGES_PER_BLOCK cfg : ℚ) ∧
    (garbage_collection cfg s).used_blocks = (BLOCKS_PER_SSD cfg : Int) -
      Int.tdiv (garbage_collection cfg s).free_block_queue.size (PAGES_PER_BLOCK cfg : Int) ∧
    ((garbage_collection cfg s).free_block_queue.size
        = ((garbage_collection cfg s).free_block_queue.slots.length : Int) →
      (garbage_collection cfg s).used_blocks = (BLOCKS_PER_SSD cfg : Int) -
        (((garbage_collection cfg s).free_block_queue.slots.length / PAGES_PER_BLOCK cfg : Nat)
          : Int)) := by
  have hne : ¬ ((v : Int) = -1) := by
    have := Int.natCast_nonneg v
    omega
  obtain ⟨f1, f2, f3, f4⟩ := compact_loop_frame cfg v (PAGES_PER_BLOCK cfg) 0 s
  have hub : (garbage_collection cfg s).used_blocks = (BLOCKS_PER_SSD cfg : Int) -
      Int.tdiv (garbage_collection cfg s).free_block_queue.size (PAGES_PER_BLOCK cfg : Int) := by
    unfold garbage_collection
    simp only [hsel, if_neg hne, Int.toNat_natCast]
  refine ⟨?_, ?_, ?_, ?_, ?_, ?_, hub, ?_⟩
  · unfold garbage_collection
    simp only [hsel, if_neg hne, Int.toNat_natCast, Function.update_same]
  · unfold garbage_collection
    simp only [hsel, if_neg hne, Int.toNat_natCast]
    exact ⟨_, enqueue_pages_slots_eq _ v _⟩
  · unfold garbage_collection
    simp only [hsel, if_neg hne, Int.toNat_natCast, f1]
  · unfold garbage_collection
    simp only [hsel, if_neg hne, Int.toNat_natCast, f2]
  · unfold garbage_collection
    simp only [hsel, if_neg hne, Int.toNat_natCast, f3]
  · unfold garbage_collection
    simp only [hsel, if_neg hne, Int.toNat_natCast, f4]
  · intro hsz
    rw [hub, hsz, Int.ofNat_tdiv]

/-- Instance of `gc_erase_effects`: the flash array `tie_ssd` on the 4-block,
8-page device, where block 1 is selected with one valid page. -/
theorem gc_erase_effects_witness :
    select_victim small_config (state_with_ssd small_config tie_ssd).ssd = (((1 : Nat) : Int), 1) ∧
    (garbage_collection small_config (state_with_ssd small_config tie_ssd)).total_erases
      = (state_with_ssd small_config tie_ssd).total_erases + 1 :=
  ⟨by decide,
    (gc_erase_effects small_config (state_with_ssd small_config tie_ssd) 1 1 (by decide)).2.2.1⟩

/-! ## One erasing garbage collection lifts the queue above the watermark -/

theorem relocate_page_cursor (cfg : Config) (victim i : Nat) (s : State) :
    (relocate_page cfg victim i s).free_block_queue = s.free_block_queue ∧
    (relocate_page cfg victim i s).active_block_index = s.active_block_index ∧
    (relocate_page cfg victim i s).active_page_index = s.active_page_index + 1 :=
  ⟨rfl, rfl, rfl⟩

/-- Once the cursor sits in a block with room for all remaining iterations,
compaction takes nothing from the queue. -/
theorem compact_loop_no_refill (cfg : Config) (victim : Nat) (n : Nat) :
    ∀ (i : Nat) (s : State), s.active_block_index ≠ -1 →
      s.active_page_index + (n : Int) ≤ (PAGES_PER_BLOCK cfg : Int) →
      (compact_loop cfg victim n i s).free_block_queue = s.free_block_queue := by
  induction n with
  | zero => intro i s _ _; rfl
  | succ n ih =>
    intro i s hb hp
    simp only [compact_loop]
    split
    · have hnr : needs_refill cfg s = false := by
        unfold needs_refill
        simp only [Bool.or_eq_false_iff, beq_eq_false_iff_ne, ne_eq, decide_eq_false_iff_not,
          not_le]
        refine ⟨hb, ?_⟩
        push_cast at hp
        omega
      have hcr : cursor_refill cfg s = some s := by
        unfold cursor_refill
        simp [hnr]
      rw [hcr]
      simp only
      obtain ⟨r1, r2, r3⟩ := relocate_page_cursor cfg victim i s
      rw [ih (i + 1) (relocate_page cfg victim i s) (by rw [r2]; exact hb)
        (by rw [r3]; push_cast at hp; omega), r1]
    · exact ih (i + 1) s hb (by push_cast at hp; omega)

/-- Compaction performs at most one successful refill. -/
theorem compact_loop_one_refill (cfg : Config) (victim : Nat) (n : Nat) :
    ∀ (i : Nat) (s : State), n ≤ PAGES_PER_BLOCK cfg →
      (∀ x ∈ s.free_block_queue.slots, x.block_index ≠ -1) →
      ∃ k, k ≤ 1 ∧
        (compact_loop cfg victim n i s).free_block_queue.slots
          = s.free_block_queue.slots.drop k ∧
        (compact_loop cfg victim n i s).free_block_queue.size
          = s.free_block_queue.size - (k : Int) ∧
        k ≤ s.free_block_queue.slots.length := by
  induction n with
  | zero => intro i s _ _; exact ⟨0, by omega, rfl, by simp [compact_loop], by omega⟩
  | succ n ih =>
    intro i s hn hq
    simp only [compact_loop]
    split
    · cases hcr : cursor_refill cfg s with
      | none => exact ⟨0, by omega, rfl, by simp, by omega⟩
      | some s1 =>
        simp only
        obtain ⟨r1, r2, r3⟩ := relocate_page_cursor cfg victim i s1
        by_cases hnr : needs_refill cfg s = true
        · unfold cursor_refill fifo_dequeue at hcr
          rw [if_pos hnr] at hcr
          cases hs : s.free_block_queue.slots with
          | nil => rw [hs] at hcr; simp at hcr
          | cons x rest =>
            rw [hs] at hcr
            simp only [Option.some.injEq] at hcr
            have hx : x.block_index ≠ -1 := hq x (by rw [hs]; exact List.mem_cons_self _ _)
            have e1 : s1.active_block_index = x.block_index := by rw [← hcr]
            have e2 : s1.active_page_index = 0 := by rw [← hcr]
            have e3 : s1.free_block_queue
                = { slots := rest, size := s.free_block_queue.size - 1 } := by rw [← hcr]
            rw [compact_loop_no_refill cfg victim n (i + 1) (relocate_page cfg victim i s1)
              (by rw [r2, e1]; exact hx) (by rw [r3, e2]; push_cast; omega), r1, e3]
            exact ⟨1, by omega, by simp, by simp, by simp⟩
        · unfold cursor_refill at hcr
          rw [if_neg hnr] at hcr
          simp only [Option.some.injEq] at hcr
          subst hcr
          obtain ⟨k, hk, h1, h2, h3⟩ := ih (i + 1) (relocate_page cfg victim i s)
            (by omega) (by rw [r1]; exact hq)
          rw [r1] at h1 h2 h3
          exact ⟨k, hk, h1, h2, h3⟩
    · exact ih (i + 1) s (by omega) hq

/-- C15 (one victim-erasing GC lifts the queue above the watermark): with at
least four pages per block, in a state whose queue size equals its length
and whose slots name blocks, whenever `garbage_collection` selects a victim
its compaction takes at most one slot from the queue, the queue on return
holds at least `PAGES_PER_BLOCK` slots, its size exceeds 3, and the
watermark loop ends at its next test: started in a state at or below the
watermark it makes exactly this one invocation. -/
theorem one_gc_lifts_watermark (cfg : Config) (s : State) (v c : Nat)
    (hppb : 3 < PAGES_PER_BLOCK cfg)
    (hsel : select_victim cfg s.ssd = ((v : Int), c))
    (hsize : s.free_block_queue.size = (s.free_block_queue.slots.length : Int))
    (hq : ∀ x ∈ s.free_block_queue.slots, x.block_index ≠ -1) :
    (∃ k, k ≤ 1 ∧ (compact_loop cfg v (PAGES_PER_BLOCK cfg) 0 s).free_block_queue.slots
      = s.free_block_queue.slots.drop k) ∧
    PAGES_PER_BLOCK cfg ≤ (garbage_collection cfg s).free_block_queue.slots.length ∧
    3 < (garbage_collection cfg s).free_block_queue.size ∧
    (∀ fuel, watermark_loop cfg (fuel + 1) (garbage_collection cfg s)
      = some (garbage_collection cfg s)) ∧
    (s.free_block_queue.size ≤ 3 →
      ∀ fuel, watermark_loop cfg (fuel + 2) s = some (garbage_collection cfg s)) := by
  have hne : ¬ ((v : Int) = -1) := by
    have := Int.natCast_nonneg v
    omega
  obtain ⟨k, hk, h1, h2, h3⟩ := compact_loop_one_refill cfg v (PAGES_PER_BLOCK cfg) 0 s
    (le_refl _) hq
  have hgq : (garbage_collection cfg s).free_block_queue
      = enqueue_pages (compact_loop cfg v (PAGES_PER_BLOCK cfg) 0 s).free_block_queue v
          (PAGES_PER_BLOCK cfg) := by
    unfold garbage_collection
    simp only [hsel, if_neg hne, Int.toNat_natCast]
  obtain ⟨e1, e2⟩ := enqueue_pages_size
    (compact_loop cfg v (PAGES_PER_BLOCK cfg) 0 s).free_block_queue v (PAGES_PER_BLOCK cfg)
  have hlen : PAGES_PER_BLOCK cfg ≤ (garbage_collection cfg s).free_block_queue.slots.length := by
    rw [hgq, e1]; omega
  have hsz : 3 < (garbage_collection cfg s).free_block_queue.size := by
    rw [hgq, e2, h2, hsize]
    have : (k : Int) ≤ (s.free_block_queue.slots.length : Int) := by exact_mod_cast h3
    have : (3 : Int) < (PAGES_PER_BLOCK cfg : Int) := by exact_mod_cast hppb
    omega
  have hexit : ∀ fuel, watermark_loop cfg (fuel + 1) (garbage_collection cfg s)
      = some (garbage_collection cfg s) := by
    intro fuel
    simp only [watermark_loop]
    rw [if_neg (by omega)]
  refine ⟨⟨k, hk, h1⟩, hlen, hsz, hexit, ?_⟩
  intro hle fuel
  have e : fuel + 2 = (fuel + 1) + 1 := rfl
  rw [e, watermark_loop, if_pos hle]
  exact hexit fuel

/-- A state of the 4-block, 8-page device at the watermark: flash array
`tie_ssd`, queue `[(0,0), (0,1), (0,2)]`. -/
theorem one_gc_lifts_watermark_witness :
    3 < PAGES_PER_BLOCK small_config ∧
    select_victim small_config tie_ssd = (((1 : Nat) : Int), 1) ∧
    watermark_loop small_config 2
        { state_with_ssd small_config tie_ssd with
          free_block_queue := { slots := [⟨0, 0⟩, ⟨0, 1⟩, ⟨0, 2⟩], size := 3 } }
      = some (garbage_collection small_config
        { state_with_ssd small_config tie_ssd with
          free_block_queue := { slots := [⟨0, 0⟩, ⟨0, 1⟩, ⟨0, 2⟩], size := 3 } }) :=
  ⟨by decide, by decide,
    (one_gc_lifts_watermark small_config
      { state_with_ssd small_config tie_ssd with
        free_block_queue := { slots := [⟨0, 0⟩, ⟨0, 1⟩, ⟨0, 2⟩], size := 3 } } 1 1
      (by decide) (by decide) (by decide) (by decide)).2.2.2.2 (by decide) 0⟩

/-! ## The linked-list queue implements the FIFO -/

theorem chain_nil (mem : NodeStore) (p : Nat) (xs : List Slot) :
    Chain mem p [] xs ↔ p = NULL ∧ xs = [] := by
  cases xs with
  | nil => simp [Chain]
  | cons x rest => simp [Chain]

theorem chain_cons (mem : NodeStore) (p a : Nat) (addrs : List Nat) (xs : List Slot) :
    Chain mem p (a :: addrs) xs ↔
      ∃ x rest, xs = x :: rest ∧ p = a ∧ a ≠ NULL ∧
        ∃ n, mem a = some n ∧ n.block_index = x.block_index ∧
          n.page_index = x.page_index ∧ Chain mem n.next addrs rest := by
  cases xs with
  | nil => simp [Chain]
  | cons x rest =>
    simp only [Chain, List.cons.injEq, exists_and_left]
    constructor
    · rintro ⟨h1, h2, n, h3, h4, h5, h6⟩
      exact ⟨x, rest, ⟨rfl, rfl⟩, h1, h2, n, h3, h4, h5, h6⟩
    · rintro ⟨y, r, ⟨rfl, rfl⟩, h1, h2, n, h3, h4, h5, h6⟩
      exact ⟨h1, h2, n, h3, h4, h5, h6⟩

theorem chain_allocated (mem : NodeStore) (addrs : List Nat) :
    ∀ (p : Nat) (xs : List Slot), Chain mem p addrs xs →
      ∀ a ∈ addrs, a ≠ NULL ∧ mem a ≠ none := by
  induction addrs with
  | nil => intro p xs _ a ha; simp at ha
  | cons b rest ih =>
    intro p xs h a ha
    obtain ⟨x, r, _, _, hb, n, hn, _, _, hc⟩ := (chain_cons mem p b rest xs).mp h
    rcases List.mem_cons.mp ha with e | e
    · subst e; exact ⟨hb, by rw [hn]; simp⟩
    · exact ih n.next r hc a e

theorem chain_congr (mem mem2 : NodeStore) (addrs : List Nat) :
    ∀ (p : Nat) (xs : List Slot), (∀ a ∈ addrs, mem2 a = mem a) →
      Chain mem p addrs xs → Chain mem2 p addrs xs := by
  induction addrs with
  | nil => intro p xs _ h; rw [chain_nil] at h ⊢; exact h
  | cons b rest ih =>
    intro p xs hag h
    obtain ⟨x, r, hx, hp, hb, n, hn, h1, h2, hc⟩ := (chain_cons mem p b rest xs).mp h
    refine (chain_cons mem2 p b rest xs).mpr ⟨x, r, hx, hp, hb, n, ?_, h1, h2, ?_⟩
    · rw [hag b (List.mem_cons_self _ _)]; exact hn
    · exact ih n.next r (fun a ha => hag a (List.mem_cons_of_mem _ ha)) hc

/-- Linking a fresh node behind the last node of a non-empty list. -/
theorem chain_snoc (mem : NodeStore) (temp : Nat) (node : QueueNode) (x : Slot)
    (htemp : temp ≠ NULL) (hnode : node.next = NULL)
    (hb : node.block_index = x.block_index) (hp : node.page_index = x.page_index)
    (addrs : List Nat) :
    ∀ (p : Nat) (xs : List Slot), addrs ≠ [] → addrs.Nodup → temp ∉ addrs →
      Chain mem p addrs xs →
      ∃ r, Function.update mem temp (some node) (addrs.getLastD NULL) = some r ∧
        Chain (Function.update (Function.update mem temp (some node)) (addrs.getLastD NULL)
          (some { r with next := temp })) p (addrs ++ [temp]) (xs ++ [x]) := by
  induction addrs with
  | nil => intro p xs h; exact absurd rfl h
  | cons a rest ih =>
    intro p xs _ hnd hfresh h
    obtain ⟨y, r, hx, hpa, ha, n, hn, h1, h2, hc⟩ := (chain_cons mem p a rest xs).mp h
    have hta : temp ≠ a := fun e => hfresh (e ▸ List.mem_cons_self _ _)
    have hat : a ≠ temp := fun e => hta e.symm
    cases rest with
    | nil =>
      obtain ⟨hnull, hr⟩ := (chain_nil mem n.next r).mp hc
      refine ⟨n, ?_, ?_⟩
      · show Function.update mem temp (some node) a = some n
        rw [Function.update_noteq hat]; exact hn
      · show Chain (Function.update (Function.update mem temp (some node)) a
          (some { n with next := temp })) p ([a] ++ [temp]) (xs ++ [x])
        rw [hx, hr]
        show Chain _ p ([a] ++ [temp]) ([y] ++ [x])
        simp only [List.singleton_append]
        refine (chain_cons _ p a [temp] [y, x]).mpr
          ⟨y, [x], rfl, hpa, ha, { n with next := temp }, ?_, h1, h2, ?_⟩
        · rw [Function.update_same]
        · refine (chain_cons _ temp temp [] [x]).mpr
            ⟨x, [], rfl, rfl, htemp, node, ?_, hb, hp, ?_⟩
          · rw [Function.update_noteq hta, Function.update_same]
          · rw [chain_nil]; exact ⟨hnode, rfl⟩
    | cons b rest2 =>
      have hnd2 : (b :: rest2).Nodup := (List.nodup_cons.mp hnd).2
      have hnotin : a ∉ b :: rest2 := (List.nodup_cons.mp hnd).1
      have hfresh2 : temp ∉ b :: rest2 := fun e => hfresh (List.mem_cons_of_mem _ e)
      obtain ⟨r2, hr2, hc2⟩ := ih n.next r (by simp) hnd2 hfresh2 hc
      have hlast : (a :: b :: rest2).getLastD NULL = (b :: rest2).getLastD NULL := by
        simp [List.getLastD_cons]
      have hlast_mem : (b :: rest2).getLastD NULL ∈ b :: rest2 := by
        rw [List.getLastD_eq_getLast?, List.getLast?_eq_getLast _ (by simp)]
        exact List.getLast_mem _
      have hla : (b :: rest2).getLastD NULL ≠ a := fun e => hnotin (e ▸ hlast_mem)
      refine ⟨r2, by rw [hlast]; exact hr2, ?_⟩
      rw [hlast, hx]
      show Chain _ p (a :: ((b :: rest2) ++ [temp])) (y :: (r ++ [x]))
      refine (chain_cons _ p a _ _).mpr ⟨y, r ++ [x], rfl, hpa, ha, n, ?_, h1, h2, hc2⟩
      rw [Function.update_noteq (fun e => hla e.symm), Function.update_noteq hat]
      exact hn

theorem represents_init (mem : NodeStore) : Represents mem initQueue fifo_init :=
  ⟨[], by simp [Chain, initQueue, fifo_init], List.nodup_nil, rfl, rfl⟩

theorem represents_enqueue (mem : NodeStore) (q : Queue) (fq : FreeQueue) (temp : Nat)
    (b p : Int) (h : Represents mem q fq) (htemp : temp ≠ NULL) (hfresh : mem temp = none) :
    Represents (enqueue mem q temp b p).1 (enqueue mem q temp b p).2 (fifo_enqueue fq b p) := by
  obtain ⟨addrs, hc, hnd, hrear, hsize⟩ := h
  have halloc := chain_allocated mem addrs q.front fq.slots hc
  have hnotin : temp ∉ addrs := fun e => (halloc temp e).2 hfresh
  cases addrs with
  | nil =>
    obtain ⟨hf, hs⟩ := (chain_nil mem q.front fq.slots).mp hc
    have hr : q.rear = NULL := hrear
    unfold enqueue
    simp only [hr, if_true]
    refine ⟨[temp], ?_, by simp, rfl, by simp [fifo_enqueue, hsize]⟩
    simp only [fifo_enqueue, hs, List.nil_append]
    refine (chain_cons _ temp temp [] _).mpr
      ⟨{ block_index := b, page_index := p }, [], rfl, rfl, htemp,
        { block_index := b, page_index := p, next := NULL }, ?_, rfl, rfl, ?_⟩
    · rw [Function.update_same]
    · rw [chain_nil]; exact ⟨rfl, rfl⟩
  | cons a rest =>
    have hlast_mem : (a :: rest).getLastD NULL ∈ a :: rest := by
      rw [List.getLastD_eq_getLast?, List.getLast?_eq_getLast _ (by simp)]
      exact List.getLast_mem _
    have hrne : q.rear ≠ NULL := by
      rw [hrear]; exact (halloc _ hlast_mem).1
    obtain ⟨r, hr, hc2⟩ := chain_snoc mem temp
      { block_index := b, page_index := p, next := NULL }
      { block_index := b, page_index := p } htemp rfl rfl rfl (a :: rest) q.front fq.slots
      (by simp) hnd hnotin hc
    unfold enqueue
    simp only [if_neg hrne]
    rw [hrear, hr]
    simp only
    refine ⟨(a :: rest) ++ [temp], hc2, ?_, ?_, by simp [fifo_enqueue, hsize]⟩
    · rw [List.nodup_append]
      refine ⟨hnd, by simp, ?_⟩
      intro x hx hy
      simp only [List.mem_singleton] at hy
      subst hy
      exact hnotin hx
    · exact (List.getLastD_concat NULL temp (a :: rest)).symm

theorem represents_dequeue (mem : NodeStore) (q : Queue) (fq : FreeQueue) (x : Slot)
    (rest : List Slot) (h : Represents mem q fq) (hs : fq.slots = x :: rest) :
    (dequeue mem q).1 ≠ NULL ∧
    (∃ n, mem (dequeue mem q).1 = some n ∧ n.block_index = x.block_index ∧
      n.page_index = x.page_index) ∧
    Represents (Function.update mem (dequeue mem q).1 none) (dequeue mem q).2
      { slots := rest, size := fq.size - 1 } := by
  obtain ⟨addrs, hc, hnd, hrear, hsize⟩ := h
  rw [hs] at hc
  cases addrs with
  | nil => simp [Chain] at hc
  | cons a addrs2 =>
    obtain ⟨y, r, hx, hpa, ha, n, hn, h1, h2, hc2⟩ := (chain_cons mem q.front a addrs2 _).mp hc
    simp only [List.cons.injEq] at hx
    obtain ⟨rfl, rfl⟩ := hx
    have hfne : q.front ≠ NULL := by rw [hpa]; exact ha
    have hd1 : (dequeue mem q).1 = a := by
      unfold dequeue; simp only [if_neg hfne]; exact hpa
    have hd2 : (dequeue mem q).2 =
        ({ front := n.next, rear := (if n.next = NULL then NULL else q.rear),
           size := q.size - 1 } : Queue) := by
      unfold dequeue; simp only [hpa, if_neg ha, hn]
    rw [hd1, hd2]
    refine ⟨ha, ⟨n, hn, h1, h2⟩, addrs2, ?_, (List.nodup_cons.mp hnd).2, ?_, by simp [hsize]⟩
    · apply chain_congr mem _ addrs2 n.next rest _ hc2
      intro b hb
      rw [Function.update_noteq]
      rintro rfl
      exact (List.nodup_cons.mp hnd).1 hb
    · cases addrs2 with
      | nil =>
        obtain ⟨hnull, _⟩ := (chain_nil mem n.next rest).mp hc2
        simp [hnull]
      | cons b rest2 =>
        obtain ⟨_, _, _, hnb, hb, _⟩ := (chain_cons mem n.next b rest2 rest).mp hc2
        have : n.next ≠ NULL := by rw [hnb]; exact hb
        simp only [if_neg this, hrear]
        simp [List.getLastD_cons]

theorem represents_dequeue_empty (mem : NodeStore) (q : Queue) (fq : FreeQueue)
    (h : Represents mem q fq) (hs : fq.slots = []) : dequeue mem q = (NULL, q) := by
  obtain ⟨addrs, hc, _, _, _⟩ := h
  rw [hs] at hc
  cases addrs with
  | nil =>
    obtain ⟨hf, _⟩ := (chain_nil mem q.front []).mp hc
    unfold dequeue
    simp [hf]
  | cons a rest => simp [Chain] at hc

theorem enqueue_mem_other (mem : NodeStore) (q : Queue) (temp : Nat) (b p : Int) (a : Nat)
    (ha : a ≠ temp) (hnone : mem a = none) : (enqueue mem q temp b p).1 a = none := by
  unfold enqueue
  split
  · simp only
    rw [Function.update_noteq ha]; exact hnone
  · simp only
    split
    · rename_i r hr
      by_cases e : a = q.rear
      · rw [Function.update_noteq (e ▸ ha)] at hr
        rw [← e, hnone] at hr
        simp at hr
      · rw [Function.update_noteq e, Function.update_noteq ha]; exact hnone
    · rw [Function.update_noteq ha]; exact hnone

/-- Enqueueing a list of slots at fresh addresses appends them to the FIFO. -/
theorem represents_enqueue_all (addrs : List Nat) :
    ∀ (xs : List Slot) (mem : NodeStore) (q : Queue) (fq : FreeQueue),
      addrs.length = xs.length → addrs.Nodup → (∀ a ∈ addrs, a ≠ NULL ∧ mem a = none) →
      Represents mem q fq →
      Represents (enqueue_all mem q addrs xs).1 (enqueue_all mem q addrs xs).2
        { slots := fq.slots ++ xs, size := fq.size + (xs.length : Int) } := by
  induction addrs with
  | nil =>
    intro xs mem q fq hlen _ _ h
    cases xs with
    | nil => simpa [enqueue_all] using h
    | cons x rest => simp at hlen
  | cons a rest ih =>
    intro xs mem q fq hlen hnd hfresh h
    cases xs with
    | nil => simp at hlen
    | cons x xs2 =>
      simp only [enqueue_all]
      have ha := hfresh a (List.mem_cons_self _ _)
      have h1 := represents_enqueue mem q fq a x.block_index x.page_index h ha.1 ha.2
      have h2 := ih xs2 _ _ _ (by simpa using hlen) (List.nodup_cons.mp hnd).2
        (fun c hc => ⟨(hfresh c (List.mem_cons_of_mem _ hc)).1,
          enqueue_mem_other mem q a x.block_index x.page_index c
            (fun e => (List.nodup_cons.mp hnd).1 (e ▸ hc))
            (hfresh c (List.mem_cons_of_mem _ hc)).2⟩) h1
      have e : (fifo_enqueue fq x.block_index x.page_index).slots ++ xs2
          = fq.slots ++ x :: xs2 := by
        simp [fifo_enqueue]
      have e2 : (fifo_enqueue fq x.block_index x.page_index).size + (xs2.length : Int)
          = fq.size + ((x :: xs2).length : Int) := by
        simp [fifo_enqueue]; ring
      rw [e, e2] at h2
      exact h2

/-- Draining a represented queue yields its slots from the front. -/
theorem drain_represents (n : Nat) :
    ∀ (mem : NodeStore) (q : Queue) (fq : FreeQueue), Represents mem q fq →
      drain n mem q = fq.slots.take n := by
  induction n with
  | zero => intro mem q fq _; rfl
  | succ n ih =>
    intro mem q fq h
    cases hs : fq.slots with
    | nil =>
      have hd := represents_dequeue_empty mem q fq h hs
      simp [drain, hd]
    | cons x rest =>
      obtain ⟨h1, ⟨node, hn, hb, hp⟩, h3⟩ := represents_dequeue mem q fq x rest h hs
      have hrec := ih _ _ _ h3
      simp only [drain, if_neg h1, hn, List.take_succ_cons]
      rw [hrec]
      cases x
      simp only at hb hp
      rw [hb, hp]

/-- C10 (the free queue is a FIFO): with the queue read as the list of its
slots from front to rear, `initQueue` is the empty list with size 0;
`enqueue` at a fresh non-NULL node appends the slot at the rear and adds 1
to the size; `dequeue` on a non-empty queue returns the node of the front
slot, removes it and subtracts 1 from the size, also once the node has been
freed; `dequeue` on an empty queue returns NULL and leaves the header
unchanged; the size equals the list length after any of them if it did
before; and slots enqueued one after the other from the empty queue are
dequeued in the same order. -/
theorem queue_is_fifo :
    (∀ mem, Represents mem initQueue fifo_init) ∧
    (fifo_init.slots = [] ∧ fifo_init.size = 0) ∧
    (∀ mem q fq temp b p, Represents mem q fq → temp ≠ NULL → mem temp = none →
      Represents (enqueue mem q temp b p).1 (enqueue mem q temp b p).2
        { slots := fq.slots ++ [{ block_index := b, page_index := p }], size := fq.size + 1 }) ∧
    (∀ mem q fq x rest, Represents mem q fq → fq.slots = x :: rest →
      (dequeue mem q).1 ≠ NULL ∧
      (∃ n, mem (dequeue mem q).1 = some n ∧ n.block_index = x.block_index ∧
        n.page_index = x.page_index) ∧
      Represents (Function.update mem (dequeue mem q).1 none) (dequeue mem q).2
        { slots := rest, size := fq.size - 1 }) ∧
    (∀ mem q fq, Represents mem q fq → fq.slots = [] → dequeue mem q = (NULL, q)) ∧
    (∀ (fq : FreeQueue) b p, fq.size = (fq.slots.length : Int) →
      (fifo_enqueue fq b p).size = ((fifo_enqueue fq b p).slots.length : Int) ∧
      (fifo_dequeue fq).2.size = ((fifo_dequeue fq).2.slots.length : Int)) ∧
    (∀ mem addrs xs, addrs.length = xs.length → addrs.Nodup →
      (∀ a ∈ addrs, a ≠ NULL ∧ mem a = none) →
      drain xs.length (enqueue_all mem initQueue addrs xs).1
        (enqueue_all mem initQueue addrs xs).2 = xs) := by
  refine ⟨represents_init, ⟨rfl, rfl⟩, ?_, ?_, ?_, ?_, ?_⟩
  · intro mem q fq temp b p h h1 h2
    exact represents_enqueue mem q fq temp b p h h1 h2
  · intro mem q fq x rest h hs
    exact represents_dequeue mem q fq x rest h hs
  · intro mem q fq h hs
    exact represents_dequeue_empty mem q fq h hs
  · intro fq b p h
    constructor
    · simp [fifo_enqueue, h]
    · unfold fifo_dequeue
      cases hs : fq.slots with
      | nil => simp only; rw [h, hs]
      | cons x rest =>
        simp only
        rw [h, hs]
        simp
  · intro mem addrs xs hlen hnd hfresh
    have h := represents_enqueue_all addrs xs mem initQueue fifo_init hlen hnd hfresh
      (represents_init mem)
    rw [drain_represents xs.length _ _ _ h]
    simp [fifo_init]

/-- Instance of `queue_is_fifo`: three slots enqueued at the addresses 1, 2, 3
of an empty heap come out in the order they went in. -/
theorem queue_is_fifo_witness :
    drain 3 (enqueue_all (fun _ => none) initQueue [1, 2, 3] [⟨0, 0⟩, ⟨0, 1⟩, ⟨2, 5⟩]).1
      (enqueue_all (fun _ => none) initQueue [1, 2, 3] [⟨0, 0⟩, ⟨0, 1⟩, ⟨2, 5⟩]).2
      = [⟨0, 0⟩, ⟨0, 1⟩, ⟨2, 5⟩] :=
  queue_is_fifo.2.2.2.2.2.2 (fun _ => none) [1, 2, 3] [⟨0, 0⟩, ⟨0, 1⟩, ⟨2, 5⟩] rfl
    (by decide) (by intro a ha; exact ⟨by rintro rfl; simp [NULL] at ha, rfl⟩)

/-! ## Index safety -/

theorem write_step_in_bounds_of_inv (cfg : Config) (hw : well_sized cfg) (s : State)
    (lba : Nat) (hl : lba < LOGICAL_PAGES cfg) (hi : Inv cfg s) :
    write_step_in_bounds cfg s lba := by
  have hpos : 0 < PAGES_PER_BLOCK cfg := by have := hw.1; omega
  refine ⟨hl, ?_⟩
  cases hcr : cursor_refill cfg { s with ssd := invalidate_lba cfg s.ssd lba } with
  | none => trivial
  | some s2 =>
    obtain ⟨b, p, hb, hp, hs2, _⟩ := cursor_refill_some cfg _ s2 hpos (scan_inv cfg s lba hi) hcr
    have e1 : s2.active_block_index = (b : Int) := by rw [hs2]
    have e2 : s2.active_page_index = (p : Int) := by rw [hs2]
    simp only
    rw [e1, e2]
    exact ⟨Int.natCast_nonneg b, by exact_mod_cast hb, Int.natCast_nonneg p, by exact_mod_cast hp⟩

theorem write_loop_in_bounds_of_inv (cfg : Config) (hw : well_sized cfg) (fuel : Nat) :
    ∀ (s : State) (remaining_size current_lba : Nat), Inv cfg s →
      (∀ l ∈ write_lbas cfg fuel s remaining_size current_lba, l < LOGICAL_PAGES cfg) →
      write_loop_in_bounds cfg fuel s remaining_size current_lba := by
  induction fuel with
  | zero => intro s r l _ _; trivial
  | succ fuel ih =>
    intro s r l hi hl
    simp only [write_loop_in_bounds]
    simp only [write_lbas] at hl
    by_cases hr : r = 0
    · simp [hr]
    · simp only [hr, if_false] at hl ⊢
      have hlin : l < LOGICAL_PAGES cfg := by
        apply hl
        split <;> simp
      refine ⟨write_step_in_bounds_of_inv cfg hw s l hlin hi, ?_⟩
      by_cases hf : (write_step cfg s l).2 = true
      · simp only [hf, if_true] at hl ⊢
        exact ih _ _ _ (write_step_inv cfg s l hw hlin hi)
          (fun x hx => hl x (List.mem_cons_of_mem _ hx))
      · simp [hf]

theorem watermark_in_bounds_all_free (cfg : Config) (fuel : Nat) (s : State)
    (h : ∀ b, (s.ssd b).is_free = true) : watermark_in_bounds cfg fuel s := by
  induction fuel with
  | zero => trivial
  | succ fuel ih =>
    simp only [watermark_in_bounds]
    split
    · refine ⟨Or.inl ?_, ?_⟩
      · rw [select_victim_all_free cfg s.ssd h]
      · rw [garbage_collection_all_free cfg s h]; exact ih
    · trivial

/-- C19 (index safety): on a device whose sizes fit the C types, in every
state reached by processing lines whose writes touch only logical addresses
below the number of logical pages, processing one more such line indexes
only within bounds: every address-map index is below `LOGICAL_PAGES`, the
block and page at which the write path programs are below `BLOCKS_PER_SSD`
and `PAGES_PER_BLOCK`, and every call of `garbage_collection` made by the
watermark loop stays in bounds. -/
theorem index_safety (cfg : Config) (hw : well_sized cfg) (fuel : Nat) (s : State)
    (request : IORequest) (hs : Reachable cfg s)
    (hin : request_in_range cfg fuel s request) : request_in_bounds cfg fuel s request := by
  have hi := reachable_inv cfg hw s hs
  have hi0 : Inv cfg { s with total_read_bytes := s.total_read_bytes + 4096 } :=
    inv_of_frame cfg s _ hi rfl rfl rfl rfl
  refine ⟨?_, ?_⟩
  · intro ht
    exact write_loop_in_bounds_of_inv cfg hw fuel _ _ _ hi0 (hin ht)
  · intro s1 hs1
    apply watermark_in_bounds_all_free
    intro b
    by_cases ht : request.io_type = 1
    · rw [if_pos ht] at hs1
      rw [write_loop_is_free cfg fuel _ s1 _ _ hs1 b]
      exact hi.all_free b
    · rw [if_neg ht] at hs1
      simp only [Option.some.injEq] at hs1
      rw [← hs1]; exact hi.all_free b

/-- Instance of `index_safety`: a three-page write at address 4 on the
4-block, 8-page device after address 5 has been written twice. -/
theorem index_safety_witness :
    well_sized small_config ∧
    request_in_range small_config 4 (written_twice small_config 5)
      { io_type := 1, lba := 4, size := 3 * 4096, stream_number := 0 } ∧
    request_in_bounds small_config 4 (written_twice small_config 5)
      { io_type := 1, lba := 4, size := 3 * 4096, stream_number := 0 } :=
  have hw : well_sized small_config := by unfold well_sized; decide
  have h5 : 5 < LOGICAL_PAGES small_config := by decide
  have hr1 : Reachable small_config (written_once small_config 5) :=
    Reachable.step 2 _ _ _ Reachable.init (write_request_in_range _ _ _ _ h5)
      (option_eq_some_getD _ (init_state small_config) (by decide))
  have hr2 : Reachable small_config (written_twice small_config 5) :=
    Reachable.step 2 _ _ _ hr1 (write_request_in_range _ _ _ _ h5)
      (option_eq_some_getD _ (init_state small_config) (by decide))
  have hin : request_in_range small_config 4 (written_twice small_config 5)
      { io_type := 1, lba := 4, size := 3 * 4096, stream_number := 0 } := by
    unfold request_in_range
    decide
  ⟨hw, hin, index_safety small_config hw 4 _ _ hr2 hin⟩

/-! ## Postcondition of a WRITE request -/

theorem cursor_refill_ssd (cfg : Config) (s s2 : State) (f : Nat → Block)
    (h : cursor_refill cfg s = some s2) :
    cursor_refill cfg { s with ssd := f } = some { s2 with ssd := f } := by
  have hn : needs_refill cfg { s with ssd := f } = needs_refill cfg s := rfl
  unfold cursor_refill at h ⊢
  rw [hn]
  split at h
  · rename_i hnr
    rw [if_pos hnr]
    unfold fifo_dequeue at h ⊢
    cases hs : s.free_block_queue.slots with
    | nil => rw [hs] at h; simp at h
    | cons x rest =>
      rw [hs] at h
      simp only [Option.some.injEq] at h
      simp only [hs]
      rw [← h]
  · rename_i hnr
    rw [if_neg hnr]
    simp only [Option.some.injEq] at h
    rw [← h]

/-- One iteration of the write loop whose page is placed at `(b, p)`. -/
theorem write_step_at (cfg : Config) (s s2 : State) (lba b p : Nat)
    (hcr : cursor_refill cfg s = some s2) (hb : s2.active_block_index = (b : Int))
    (hp : s2.active_page_index = (p : Int)) (hphys : b * PAGES_PER_BLOCK cfg + p < 2 ^ 64) :
    (write_step cfg s lba).2 = true ∧
    (write_step cfg s lba).1.active_block_index = (b : Int) ∧
    (write_step cfg s lba).1.active_page_index = (p : Int) + 1 ∧
    (write_step cfg s lba).1.free_block_queue = s2.free_block_queue ∧
    (write_step cfg s lba).1.mapping_table
      = Function.update s.mapping_table lba (b * PAGES_PER_BLOCK cfg + p) ∧
    is_page_valid ((write_step cfg s lba).1.ssd b) p = true ∧
    ((write_step cfg s lba).1.ssd b).oob p = lba ∧
    (∀ b1 q, ¬ (b1 = b ∧ q = p) → (s.ssd b1).oob q ≠ lba →
      is_page_valid ((write_step cfg s lba).1.ssd b1) q = is_page_valid (s.ssd b1) q ∧
      ((write_step cfg s lba).1.ssd b1).oob q = (s.ssd b1).oob q) ∧
    (write_step cfg s lba).1.total_writes = s.total_writes + 1 ∧
    (write_step cfg s lba).1.internal_writes = s.internal_writes + 1 ∧
    (write_step cfg s lba).1.used_pages = s.used_pages + 1 ∧
    (write_step cfg s lba).1.checkpoint_writes = s.checkpoint_writes + 1 ∧
    (write_step cfg s lba).1.writes_since_50gb = s.writes_since_50gb + 1 ∧
    (write_step cfg s lba).1.internal_writes_since_50gb = s.internal_writes_since_50gb + 1 := by
  have hcr2 := cursor_refill_ssd cfg s s2 (invalidate_lba cfg s.ssd lba) hcr
  have hscan : ∀ b1 q, (s.ssd b1).oob q ≠ lba →
      is_page_valid (invalidate_lba cfg s.ssd lba b1) q = is_page_valid (s.ssd b1) q ∧
      (invalidate_lba cfg s.ssd lba b1).oob q = (s.ssd b1).oob q := by
    intro b1 q hne
    rw [invalidate_lba_apply]
    split
    · exact invalidate_in_block_other cfg _ lba q hne
    · exact ⟨rfl, rfl⟩
  rcases write_step_cases cfg s lba with ⟨hnone, _⟩ |
    ⟨s3, hs3, w0, wssd, wmap, wq, wab, wap, w1, w2, w3, w4, w5, w6⟩
  · rw [hcr2] at hnone; simp at hnone
  · rw [hcr2] at hs3
    simp only [Option.some.injEq] at hs3
    subst hs3
    simp only [hb, hp, Int.toNat_natCast] at wssd wmap wq wab wap
    have e := physical_address_natCast cfg b p hphys
    refine ⟨w0, wab, wap, wq, ?_, ?_, ?_, ?_, w1, w2, w6, w3, w4, w5⟩
    · rw [wmap, e]
    · rw [wssd, Function.update_same]
      have ev : ∀ (blk : Block) (f : Nat → Nat),
          is_page_valid { blk with oob := f } p = is_page_valid blk p := fun _ _ => rfl
      rw [ev, is_page_valid_set_page_valid]
      simp
    · rw [wssd, Function.update_same]
      simp
    · intro b1 q hne hoob
      obtain ⟨h1, h2⟩ := hscan b1 q hoob
      rw [wssd, Function.update_apply]
      by_cases e1 : b1 = b
      · subst e1
        have e2 : q ≠ p := fun e => hne ⟨rfl, e⟩
        simp only [if_true]
        have ev : ∀ (blk : Block) (f : Nat → Nat),
            is_page_valid { blk with oob := f } q = is_page_valid blk q := fun _ _ => rfl
        rw [ev, is_page_valid_set_page_valid]
        refine ⟨by simp [e2, h1], ?_⟩
        simp only [Function.update_apply, if_neg e2]
        exact h2
      · simp only [if_neg e1]
        exact ⟨h1, h2⟩

theorem cursor_refill_in_block (cfg : Config) (s : State) (b p : Nat)
    (hb : s.active_block_index = (b : Int)) (hp : s.active_page_index = (p : Int))
    (hlt : p < PAGES_PER_BLOCK cfg) : cursor_refill cfg s = some s := by
  have hnr : needs_refill cfg s = false := by
    unfold needs_refill
    simp only [Bool.or_eq_false_iff, beq_eq_false_iff_ne, ne_eq, decide_eq_false_iff_not,
      not_le, hb, hp]
    refine ⟨?_, by exact_mod_cast hlt⟩
    have := Int.natCast_nonneg b
    omega
  unfold cursor_refill
  simp [hnr]

/-- The statement of `write_step_at` with the resulting state named. -/
theorem write_step_at_state (cfg : Config) (s s2 : State) (lba b p : Nat)
    (hcr : cursor_refill cfg s = some s2) (hb : s2.active_block_index = (b : Int))
    (hp : s2.active_page_index = (p : Int)) (hphys : b * PAGES_PER_BLOCK cfg + p < 2 ^ 64) :
    ∃ t, write_step cfg s lba = (t, true) ∧
      t.active_block_index = (b : Int) ∧ t.active_page_index = (p : Int) + 1 ∧
      t.free_block_queue = s2.free_block_queue ∧
      t.mapping_table = Function.update s.mapping_table lba (b * PAGES_PER_BLOCK cfg + p) ∧
      is_page_valid (t.ssd b) p = true ∧ (t.ssd b).oob p = lba ∧
      (∀ b1 q, ¬ (b1 = b ∧ q = p) → (s.ssd b1).oob q ≠ lba →
        is_page_valid (t.ssd b1) q = is_page_valid (s.ssd b1) q ∧
        (t.ssd b1).oob q = (s.ssd b1).oob q) ∧
      t.total_writes = s.total_writes + 1 ∧ t.internal_writes = s.internal_writes + 1 ∧
      t.used_pages = s.used_pages + 1 ∧ t.checkpoint_writes = s.checkpoint_writes + 1 ∧
      t.writes_since_50gb = s.writes_since_50gb + 1 ∧
      t.internal_writes_since_50gb = s.internal_writes_since_50gb + 1 := by
  obtain ⟨w0, h⟩ := write_step_at cfg s s2 lba b p hcr hb hp hphys
  exact ⟨(write_step cfg s lba).1, Prod.ext rfl w0, h⟩

theorem outside_ne (x L n : Nat) (h : x < L ∨ L + (n + 1) ≤ x) : x ≠ L := by omega

theorem outside_next (x L n : Nat) (h : x < L ∨ L + (n + 1) ≤ x) :
    x < L + 1 ∨ L + 1 + n ≤ x := by omega

theorem before_next (b1 b q p : Nat) (h : b1 ≠ b ∨ q < p) : b1 ≠ b ∨ q < p + 1 := by omega

theorem not_at (b1 b q p : Nat) (h : b1 ≠ b ∨ q < p) : ¬ (b1 = b ∧ q = p) := by omega

theorem add_succ_shift (a k : Nat) : a + (k + 1) = a + 1 + k := by omega

/-- The write loop for `n` pages starting with the cursor at `(b, p)` and
`p + n ≤ PAGES_PER_BLOCK`. -/
theorem write_loop_run (cfg : Config) (b : Nat) (hps : 0 < cfg.PAGE_SIZE)
    (hphys : b * PAGES_PER_BLOCK cfg + PAGES_PER_BLOCK cfg ≤ 2 ^ 64) (n : Nat) :
    ∀ (fuel : Nat) (s : State) (L p : Nat),
      s.active_block_index = (b : Int) → s.active_page_index = (p : Int) →
      p + n ≤ PAGES_PER_BLOCK cfg → n * cfg.PAGE_SIZE < 2 ^ 64 → L + n < 2 ^ 64 → n < fuel →
      ∃ t, write_loop cfg fuel s (n * cfg.PAGE_SIZE) L = some t ∧
        t.active_block_index = (b : Int) ∧ t.active_page_index = ((p + n : Nat) : Int) ∧
        (∀ k, k < n → is_page_valid (t.ssd b) (p + k) = true ∧ (t.ssd b).oob (p + k) = L + k ∧
          t.mapping_table (L + k) = b * PAGES_PER_BLOCK cfg + (p + k)) ∧
        (∀ b1 q, (b1 ≠ b ∨ q < p) → ((s.ssd b1).oob q < L ∨ L + n ≤ (s.ssd b1).oob q) →
          is_page_valid (t.ssd b1) q = is_page_valid (s.ssd b1) q ∧
          (t.ssd b1).oob q = (s.ssd b1).oob q) ∧
        (∀ l, (l < L ∨ L + n ≤ l) → t.mapping_table l = s.mapping_table l) ∧
        t.total_writes = s.total_writes + n ∧ t.internal_writes = s.internal_writes + n ∧
        t.used_pages = s.used_pages + n ∧ t.checkpoint_writes = s.checkpoint_writes + n ∧
        t.writes_since_50gb = s.writes_since_50gb + n ∧
        t.internal_writes_since_50gb = s.internal_writes_since_50gb + n := by
  induction n with
  | zero =>
    intro fuel s L p hb hp _ _ _ hf
    obtain ⟨f, rfl⟩ := Nat.exists_eq_succ_of_ne_zero (by omega : fuel ≠ 0)
    refine ⟨s, by simp [write_loop], hb, by simpa using hp, ?_, ?_, ?_, rfl, rfl, rfl, rfl,
      rfl, rfl⟩
    · intro k hk; omega
    · intro b1 q _ _; exact ⟨rfl, rfl⟩
    · intro l _; rfl
  | succ n ih =>
    intro fuel s L p hb hp hpn hsz hL hf
    obtain ⟨f, rfl⟩ := Nat.exists_eq_succ_of_ne_zero (by omega : fuel ≠ 0)
    have hne : (n + 1) * cfg.PAGE_SIZE ≠ 0 := Nat.mul_ne_zero (by omega) (by omega)
    have hsz2 : n * cfg.PAGE_SIZE < 2 ^ 64 := by
      have : n * cfg.PAGE_SIZE ≤ (n + 1) * cfg.PAGE_SIZE := Nat.mul_le_mul_right _ (by omega)
      omega
    have hcr := cursor_refill_in_block cfg s b p hb hp (by omega)
    obtain ⟨s1, w0, wab, wap, _, wmap, wv, wo, wfr, c1, c2, c3, c4, c5, c6⟩ :=
      write_step_at_state cfg s s L b p hcr hb hp (by omega)
    have hL1 : (L + 1) % 2 ^ 64 = L + 1 := Nat.mod_eq_of_lt (by omega)
    obtain ⟨t, ht, tab, tap, tpages, tfr, tmap, d1, d2, d3, d4, d5, d6⟩ :=
      ih f s1 (L + 1) (p + 1) wab (by rw [wap]; push_cast; ring)
        (by omega) hsz2 (by omega) (by omega)
    refine ⟨t, ?_, tab, ?_, ?_, ?_, ?_, ?_, ?_, ?_, ?_, ?_, ?_⟩
    · simp only [write_loop, if_neg hne, w0, if_true]
      rw [to_ulong_sub_page n cfg.PAGE_SIZE hsz2, hL1]
      exact ht
    · rw [tap]; push_cast; ring
    · intro k hk
      cases k with
      | zero =>
        obtain ⟨f1, f2⟩ := tfr b p (Or.inr (Nat.lt_succ_self p))
          (Or.inl (by rw [wo]; exact Nat.lt_succ_self L))
        refine ⟨by rw [Nat.add_zero, f1]; exact wv, by rw [Nat.add_zero, f2]; exact wo, ?_⟩
        rw [Nat.add_zero, Nat.add_zero, tmap L (Or.inl (Nat.lt_succ_self L)), wmap]
        simp
      | succ k =>
        obtain ⟨g1, g2, g3⟩ := tpages k (Nat.lt_of_succ_lt_succ hk)
        rw [add_succ_shift p k, add_succ_shift L k]
        exact ⟨g1, g2, g3⟩
    · intro b1 q hbq hoob
      obtain ⟨f1, f2⟩ := wfr b1 q (not_at b1 b q p hbq) (outside_ne _ L n hoob)
      obtain ⟨g1, g2⟩ := tfr b1 q (before_next b1 b q p hbq)
        (by rw [f2]; exact outside_next _ L n hoob)
      exact ⟨g1.trans f1, g2.trans f2⟩
    · intro l hl
      rw [tmap l (outside_next l L n hl), wmap]
      simp [outside_ne l L n hl]
    · rw [d1, c1]; omega
    · rw [d2, c2]; omega
    · rw [d3, c3]; omega
    · rw [d4, c4]; omega
    · rw [d5, c5]; omega
    · rw [d6, c6]; omega

theorem cursor_refill_cursor (cfg : Config) (s u s2 : State)
    (hq : u.free_block_queue = s.free_block_queue)
    (ha : u.active_block_index = s.active_block_index)
    (hp : u.active_page_index = s.active_page_index)
    (h : cursor_refill cfg s = some s2) :
    ∃ u2, cursor_refill cfg u = some u2 ∧ u2.active_block_index = s2.active_block_index ∧
      u2.active_page_index = s2.active_page_index ∧ u2.free_block_queue = s2.free_block_queue := by
  have hn : needs_refill cfg u = needs_refill cfg s := by
    unfold needs_refill; rw [ha, hp]
  unfold cursor_refill at h ⊢
  rw [hn, hq]
  split at h
  · rename_i hnr
    rw [if_pos hnr]
    unfold fifo_dequeue at h ⊢
    cases hs : s.free_block_queue.slots with
    | nil => rw [hs] at h; simp at h
    | cons x rest =>
      rw [hs] at h
      simp only [Option.some.injEq] at h
      simp only
      rw [← h]
      exact ⟨_, rfl, rfl, rfl, rfl⟩
  · rename_i hnr
    rw [if_neg hnr]
    simp only [Option.some.injEq] at h
    rw [← h]
    exact ⟨u, rfl, ha, hp, hq⟩

/-- One processed single-page WRITE whose page is placed at `(b, p)`, in a
state whose blocks all carry the free flag. -/
theorem process_single_write_at (cfg : Config) (fuel : Nat) (s t s2 : State) (lba b p : Nat)
    (hps : 0 < cfg.PAGE_SIZE) (hfree : ∀ b, (s.ssd b).is_free = true)
    (h : process_request cfg fuel s (write_request cfg lba) = some t)
    (hcr : cursor_refill cfg s = some s2) (hb : s2.active_block_index = (b : Int))
    (hp : s2.active_page_index = (p : Int)) (hphys : b * PAGES_PER_BLOCK cfg + p < 2 ^ 64) :
    t.active_block_index = (b : Int) ∧ t.active_page_index = (p : Int) + 1 ∧
    is_page_valid (t.ssd b) p = true ∧ (t.ssd b).oob p = lba ∧
    t.mapping_table lba = b * PAGES_PER_BLOCK cfg + p ∧
    (∀ b1 q, ¬ (b1 = b ∧ q = p) → (s.ssd b1).oob q ≠ lba →
      is_page_valid (t.ssd b1) q = is_page_valid (s.ssd b1) q ∧
      (t.ssd b1).oob q = (s.ssd b1).oob q) ∧
    t.total_writes = s.total_writes + 1 ∧ t.internal_writes = s.internal_writes + 1 := by
  obtain ⟨s1, hw, _, _, ht⟩ := process_request_split cfg fuel s t (write_request cfg lba) hfree h
  have e1 := write_loop_single_some cfg hps fuel _ s1 lba (hw rfl)
  obtain ⟨u2, hu2, ua, up, _⟩ := cursor_refill_cursor cfg s
    { s with total_read_bytes := s.total_read_bytes + 4096 } s2 rfl rfl rfl hcr
  obtain ⟨v, hv, wab, wap, _, wmap, wv, wo, wfr, c1, c2, _⟩ :=
    write_step_at_state cfg { s with total_read_bytes := s.total_read_bytes + 4096 } u2 lba b p
      hu2 (ua.trans hb) (up.trans hp) hphys
  rw [hv] at e1
  simp only at e1
  subst e1
  obtain ⟨f1, _, f3, f4, f5, f6, f7, _⟩ := report_step_frame cfg s1
  rw [ht, f1, f3, f4, f5, f6, f7]
  refine ⟨wab, wap, wv, wo, ?_, wfr, c1, c2⟩
  rw [wmap]; simp

theorem first_pages_valid_init (cfg : Config) : first_pages_valid 0 (init_state cfg).ssd := by
  intro b q
  constructor
  · simp [init_state, is_page_valid, init_block]
  · simp [init_state, init_block]

/-- Writing address `k` at page `(0, k)` extends the valid prefix of block 0. -/
theorem first_pages_valid_step (cfg : Config) (fuel : Nat) (s t s2 : State) (k : Nat)
    (hps : 0 < cfg.PAGE_SIZE) (hk : k < SENTINEL) (hF : first_pages_valid k s.ssd)
    (hfree : ∀ b, (s.ssd b).is_free = true)
    (h : process_request cfg fuel s (write_request cfg k) = some t)
    (hcr : cursor_refill cfg s = some s2) (hb : s2.active_block_index = ((0 : Nat) : Int))
    (hp : s2.active_page_index = (k : Int)) (hphys : 0 * PAGES_PER_BLOCK cfg + k < 2 ^ 64) :
    first_pages_valid (k + 1) t.ssd := by
  obtain ⟨_, _, wv, wo, _, wfr, _, _⟩ :=
    process_single_write_at cfg fuel s t s2 k 0 k hps hfree h hcr hb hp hphys
  intro b q
  by_cases hat : b = 0 ∧ q = k
  · obtain ⟨rfl, rfl⟩ := hat
    rw [wv, wo]
    simp
  · have hoob : (s.ssd b).oob q ≠ k := by
      rw [(hF b q).2]
      split
      · rename_i hc; exact Nat.ne_of_lt hc.2
      · exact fun e => Nat.ne_of_lt hk e.symm
    obtain ⟨g1, g2⟩ := wfr b q hat hoob
    rw [g1, g2, (hF b q).1, (hF b q).2]
    by_cases hb0 : b = 0
    · subst hb0
      have hqk : q ≠ k := fun e => hat ⟨rfl, e⟩
      have e : (q < k + 1) = (q < k) := by
        apply propext
        constructor
        · intro h1; exact Nat.lt_of_le_of_ne (Nat.lt_succ_iff.mp h1) hqk
        · intro h1; exact Nat.lt_succ_of_lt h1
      simp only [true_and, e]
    · simp [hb0]

theorem count_valid_upto_first (k : Nat) (blk : Block)
    (h : ∀ q, is_page_valid blk q = decide (q < k)) (n : Nat) :
    count_valid_upto blk n = min n k := by
  induction n with
  | zero => simp [count_valid_upto]
  | succ n ih =>
    simp only [count_valid_upto, ih, h n]
    by_cases c : n < k
    · simp only [c, decide_True, if_true]
      omega
    · simp only [c, decide_False]
      simp only [Bool.false_eq_true, if_false]
      omega

theorem count_valid_upto_none (blk : Block) (h : ∀ q, is_page_valid blk q = false) (n : Nat) :
    count_valid_upto blk n = 0 := by
  induction n with
  | zero => rfl
  | succ n ih => simp [count_valid_upto, ih, h n]

theorem total_valid_upto_first (cfg : Config) (k : Nat) (ssd : Nat → Block)
    (h : first_pages_valid k ssd) (n : Nat) :
    total_valid_upto cfg ssd (n + 1) = min (PAGES_PER_BLOCK cfg) k := by
  induction n with
  | zero =>
    simp only [total_valid_upto, Nat.zero_add, count_valid]
    apply count_valid_upto_first
    intro q
    rw [(h 0 q).1]
    simp
  | succ n ih =>
    have hz : count_valid_upto (ssd (n + 1)) (PAGES_PER_BLOCK cfg) = 0 := by
      apply count_valid_upto_none
      intro q
      rw [(h (n + 1) q).1]
      simp
    rw [total_valid_upto, ih, count_valid, hz, Nat.add_zero]

theorem after_writes_succ (k : Nat)
    (h1 : (run small_config 2 (init_state small_config)
      (distinct_writes small_config k)).isSome = true)
    (h2 : (run small_config 2 (init_state small_config)
      (distinct_writes small_config (k + 1))).isSome = true) :
    process_request small_config 2 (after_writes k) (write_request small_config k)
      = some (after_writes (k + 1)) := by
  have e : distinct_writes small_config (k + 1)
      = distinct_writes small_config k ++ [write_request small_config k] := by
    unfold distinct_writes
    rw [List.range_succ, List.map_append]
    rfl
  have hA := after_writes_run k h1
  have hB := after_writes_run (k + 1) h2
  rw [e, run_append, hA] at hB
  simp only [run] at hB
  cases hp : process_request small_config 2 (after_writes k) (write_request small_config k) with
  | none => rw [hp] at hB; simp at hB
  | some u => rw [hp] at hB; exact hB

theorem after_writes_cursor (k : Nat)
    (hd : (cursor_refill small_config (after_writes k)).map
      (fun u => (u.active_block_index, u.active_page_index)) = some (0, (k : Int))) :
    ∃ s2, cursor_refill small_config (after_writes k) = some s2 ∧
      s2.active_block_index = ((0 : Nat) : Int) ∧ s2.active_page_index = (k : Int) := by
  cases hc : cursor_refill small_config (after_writes k) with
  | none => rw [hc] at hd; simp at hd
  | some s2 =>
    rw [hc] at hd
    simp only [Option.map_some', Option.some.injEq, Prod.mk.injEq] at hd
    exact ⟨s2, rfl, by rw [hd.1]; rfl, hd.2⟩

theorem after_writes_free (k : Nat)
    (h : (run small_config 2 (init_state small_config)
      (distinct_writes small_config k)).isSome = true) :
    ∀ b, ((after_writes k).ssd b).is_free = true :=
  run_all_free small_config 2 _ (init_state small_config) _ (fun _ => rfl) (after_writes_run k h)

theorem after_writes_step (k : Nat) (hk : k < SENTINEL) (hk2 : 0 * PAGES_PER_BLOCK small_config + k < 2 ^ 64)
    (h1 : (run small_config 2 (init_state small_config)
      (distinct_writes small_config k)).isSome = true)
    (h2 : (run small_config 2 (init_state small_config)
      (distinct_writes small_config (k + 1))).isSome = true)
    (hd : (cursor_refill small_config (after_writes k)).map
      (fun u => (u.active_block_index, u.active_page_index)) = some (0, (k : Int)))
    (hF : first_pages_valid k (after_writes k).ssd) :
    first_pages_valid (k + 1) (after_writes (k + 1)).ssd := by
  obtain ⟨s2, hcr, hb, hp⟩ := after_writes_cursor k hd
  exact first_pages_valid_step small_config 2 (after_writes k) (after_writes (k + 1)) s2 k
    (by decide) hk hF (after_writes_free k h1) (after_writes_succ k h1 h2) hcr hb hp hk2

/-- Four single-page writes to the addresses 0, 1, 2, 3 from the initial
state of the 4-block, 8-page device leave exactly four valid pages. -/
theorem four_writes_four_pages :
    first_pages_valid 4 (after_writes 4).ssd ∧ total_valid small_config (after_writes 4).ssd = 4 := by
  have f0 : first_pages_valid 0 (after_writes 0).ssd := first_pages_valid_init small_config
  have f1 := after_writes_step 0 (by decide) (by decide) (by decide) (by decide) (by decide) f0
  have f2 := after_writes_step 1 (by decide) (by decide) (by decide) (by decide) (by decide) f1
  have f3 := after_writes_step 2 (by decide) (by decide) (by decide) (by decide) (by decide) f2
  have f4 := after_writes_step 3 (by decide) (by decide) (by decide) (by decide) (by decide) f3
  refine ⟨f4, ?_⟩
  have e : total_valid small_config (after_writes 4).ssd
      = total_valid_upto small_config (after_writes 4).ssd (3 + 1) := rfl
  rw [e, total_valid_upto_first small_config 4 _ f4 3]
  decide

/-- C13 (write-request postcondition): for a WRITE of `n ≥ 1` pages at
address `L` whose first page the cursor places at `(b, p)`, be it the current
position or the one adopted by a refill, with `p + n ≤ PAGES_PER_BLOCK`, the
write loop ends and afterwards, for each `k < n`, page `(b, p + k)` is valid
with OOB `L + k` and `mapping_table[L + k] = b * PAGES_PER_BLOCK + p + k`;
the host-write, internal-write, used-page and both window write counters
have grown by exactly `n`; and the cursor page index is `p + n`.  Four
single-page writes to distinct addresses from the initial state of the
4-block, 8-page device leave exactly four valid pages, with internal writes
and host writes both 4. -/
theorem write_request_postcondition (cfg : Config) (s s2 : State) (fuel L n b p : Nat)
    (hps : 0 < cfg.PAGE_SIZE) (hn : 1 ≤ n) (hcr : cursor_refill cfg s = some s2)
    (hb : s2.active_block_index = (b : Int)) (hp : s2.active_page_index = (p : Int))
    (hpn : p + n ≤ PAGES_PER_BLOCK cfg)
    (hphys : b * PAGES_PER_BLOCK cfg + PAGES_PER_BLOCK cfg ≤ 2 ^ 64)
    (hsize : n * cfg.PAGE_SIZE < 2 ^ 64) (hL : L + n < 2 ^ 64) (hfuel : n < fuel) :
    (∃ t, write_loop cfg fuel s (n * cfg.PAGE_SIZE) L = some t ∧
      (∀ k, k < n → is_page_valid (t.ssd b) (p + k) = true ∧ (t.ssd b).oob (p + k) = L + k ∧
        t.mapping_table (L + k) = b * PAGES_PER_BLOCK cfg + (p + k)) ∧
      t.total_writes = s.total_writes + n ∧ t.internal_writes = s.internal_writes + n ∧
      t.used_pages = s.used_pages + n ∧ t.writes_since_50gb = s.writes_since_50gb + n ∧
      t.internal_writes_since_50gb = s.internal_writes_since_50gb + n ∧
      t.active_block_index = (b : Int) ∧ t.active_page_index = ((p + n : Nat) : Int)) ∧
    (run small_config 2 (init_state small_config) (distinct_writes small_config 4)
        = some (after_writes 4) ∧
      total_valid small_config (after_writes 4).ssd = 4 ∧
      (after_writes 4).internal_writes = 4 ∧ (after_writes 4).total_writes = 4) := by
  refine ⟨?_, after_writes_run 4 (by decide), four_writes_four_pages.2, by decide, by decide⟩
  obtain ⟨m, rfl⟩ := Nat.exists_eq_succ_of_ne_zero (by omega : n ≠ 0)
  obtain ⟨f, rfl⟩ := Nat.exists_eq_succ_of_ne_zero (by omega : fuel ≠ 0)
  have hne : (m + 1) * cfg.PAGE_SIZE ≠ 0 := Nat.mul_ne_zero (by omega) (by omega)
  have hsz2 : m * cfg.PAGE_SIZE < 2 ^ 64 :=
    Nat.lt_of_le_of_lt (Nat.mul_le_mul_right _ (Nat.le_succ m)) hsize
  have hph1 : b * PAGES_PER_BLOCK cfg + p < 2 ^ 64 := by omega
  have hL1 : (L + 1) % 2 ^ 64 = L + 1 := Nat.mod_eq_of_lt (by omega)
  have hpm : p + 1 + m ≤ PAGES_PER_BLOCK cfg := by omega
  have hLm : L + 1 + m < 2 ^ 64 := by omega
  have hfm : m < f := by omega
  clear hn hpn hsize hL hfuel
  obtain ⟨s1, w0, wab, wap, _, wmap, wv, wo, _, c1, c2, c3, _, c5, c6⟩ :=
    write_step_at_state cfg s s2 L b p hcr hb hp hph1
  obtain ⟨t, ht, tab, tap, tpages, tfr, tmap, d1, d2, d3, _, d5, d6⟩ :=
    write_loop_run cfg b hps hphys m f s1 (L + 1) (p + 1) wab (by rw [wap]; push_cast; ring)
      hpm hsz2 hLm hfm
  refine ⟨t, ?_, ?_, ?_, ?_, ?_, ?_, ?_, tab, ?_⟩
  · simp only [write_loop, if_neg hne, w0, if_true]
    rw [to_ulong_sub_page m cfg.PAGE_SIZE hsz2, hL1]
    exact ht
  · intro k hk
    cases k with
    | zero =>
      obtain ⟨f1, f2⟩ := tfr b p (Or.inr (Nat.lt_succ_self p))
        (Or.inl (by rw [wo]; exact Nat.lt_succ_self L))
      refine ⟨by rw [Nat.add_zero, f1]; exact wv, by rw [Nat.add_zero, f2]; exact wo, ?_⟩
      rw [Nat.add_zero, Nat.add_zero, tmap L (Or.inl (Nat.lt_succ_self L)), wmap]
      simp
    | succ k =>
      obtain ⟨g1, g2, g3⟩ := tpages k (Nat.lt_of_succ_lt_succ hk)
      rw [add_succ_shift p k, add_succ_shift L k]
      exact ⟨g1, g2, g3⟩
  · rw [d1, c1, Nat.add_assoc, Nat.add_comm 1 m]
  · rw [d2, c2, Nat.add_assoc, Nat.add_comm 1 m]
  · rw [d3, c3, Nat.add_assoc, Nat.add_comm 1 m]
  · rw [d5, c5, Nat.add_assoc, Nat.add_comm 1 m]
  · rw [d6, c6, Nat.add_assoc, Nat.add_comm 1 m]
  · rw [tap, add_succ_shift p m]

/-- Instance of `write_request_postcondition`: a three-page write at address 4
in the initial state of the 4-block, 8-page device, whose refill places the
first page at `(0, 0)`. -/
theorem write_request_postcondition_witness :
    cursor_refill small_config (init_state small_config)
      = some ((cursor_refill small_config (init_state small_config)).getD
          (init_state small_config)) ∧
    ∃ t, write_loop small_config 4 (init_state small_config) (3 * small_config.PAGE_SIZE) 4
        = some t ∧
      (∀ k, k < 3 → is_page_valid (t.ssd 0) (0 + k) = true ∧ (t.ssd 0).oob (0 + k) = 4 + k ∧
        t.mapping_table (4 + k) = 0 * PAGES_PER_BLOCK small_config + (0 + k)) ∧
      t.total_writes = (init_state small_config).total_writes + 3 ∧
      t.internal_writes = (init_state small_config).internal_writes + 3 ∧
      t.used_pages = (init_state small_config).used_pages + 3 ∧
      t.writes_since_50gb = (init_state small_config).writes_since_50gb + 3 ∧
      t.internal_writes_since_50gb = (init_state small_config).internal_writes_since_50gb + 3 ∧
      t.active_block_index = ((0 : Nat) : Int) ∧ t.active_page_index = ((0 + 3 : Nat) : Int) :=
  have hcr : cursor_refill small_config (init_state small_config)
      = some ((cursor_refill small_config (init_state small_config)).getD
          (init_state small_config)) :=
    option_eq_some_getD _ (init_state small_config) (by decide)
  ⟨hcr,
    (write_request_postcondition small_config (init_state small_config) _ 4 4 3 0 0
      (by decide) (by decide) hcr (by decide) (by decide) (by decide) (by decide) (by decide)
      (by decide) (by decide)).1⟩

/-! ## Garbage collection: relocation page by page -/

theorem relocate_page_ssd (cfg : Config) (v i : Nat) (u : State) (a p : Nat)
    (ha : u.active_block_index = (a : Int)) (hp : u.active_page_index = (p : Int))
    (hav : a ≠ v) :
    (relocate_page cfg v i u).ssd =
      Function.update
        (Function.update u.ssd a
          { set_page_valid (u.ssd a) p with
            oob := Function.update (set_page_valid (u.ssd a) p).oob p ((u.ssd v).oob i) })
        v (clear_page (u.ssd v) i) := by
  have hva : v ≠ a := fun e => hav e.symm
  have hat : u.active_block_index.toNat = a := by rw [ha]; rfl
  have hpt : u.active_page_index.toNat = p := by rw [hp]; rfl
  unfold relocate_page
  simp only []
  generalize u.active_block_index.toNat = a1 at hat ⊢
  generalize u.active_page_index.toNat = p1 at hpt ⊢
  subst hat hpt
  simp only [Function.update_idem, Function.update_same, Function.update_noteq hva]

/-- The state after one relocation whose destination `(a, p)` lies outside
the victim, described page by page. -/
theorem relocate_page_spec (cfg : Config) (v i : Nat) (u : State) (a p : Nat)
    (ha : u.active_block_index = (a : Int)) (hp : u.active_page_index = (p : Int))
    (hav : a ≠ v) (hphys : a * PAGES_PER_BLOCK cfg + p < 2 ^ 64) :
    (∀ b q, is_page_valid ((relocate_page cfg v i u).ssd b) q =
      if b = v then (if q = i then false else is_page_valid (u.ssd b) q)
      else if b = a ∧ q = p then true else is_page_valid (u.ssd b) q) ∧
    (∀ b q, ((relocate_page cfg v i u).ssd b).oob q =
      if b = v then (if q = i then SENTINEL else (u.ssd b).oob q)
      else if b = a ∧ q = p then (u.ssd v).oob i else (u.ssd b).oob q) ∧
    (∀ b, ((relocate_page cfg v i u).ssd b).is_free = (u.ssd b).is_free) ∧
    (relocate_page cfg v i u).mapping_table
      = Function.update u.mapping_table ((u.ssd v).oob i) (a * PAGES_PER_BLOCK cfg + p) ∧
    (relocate_page cfg v i u).active_block_index = (a : Int) ∧
    (relocate_page cfg v i u).active_page_index = (p : Int) + 1 ∧
    (relocate_page cfg v i u).free_block_queue = u.free_block_queue := by
  have hva : v ≠ a := fun e => hav e.symm
  have e := physical_address_natCast cfg a p hphys
  have hssd := relocate_page_ssd cfg v i u a p ha hp hav
  have ev : ∀ (blk : Block) (f : Nat → Nat) (q : Nat),
      is_page_valid { blk with oob := f } q = is_page_valid blk q := fun _ _ _ => rfl
  refine ⟨?_, ?_, ?_, ?_, ?_, ?_, rfl⟩
  · intro b q
    rw [hssd]
    by_cases hbv : b = v
    · rw [if_pos hbv, hbv, Function.update_same, is_page_valid_clear_page]
      by_cases hq : q = i
      · simp [hq]
      · simp [hq]
    · rw [if_neg hbv, Function.update_noteq hbv]
      by_cases hba : b = a
      · rw [hba, Function.update_same, ev, is_page_valid_set_page_valid]
        by_cases hq : q = p
        · simp [hq]
        · simp [hq]
      · rw [Function.update_noteq hba]
        simp [hba]
  · intro b q
    rw [hssd]
    by_cases hbv : b = v
    · rw [if_pos hbv, hbv, Function.update_same, clear_page_oob]
    · rw [if_neg hbv, Function.update_noteq hbv]
      by_cases hba : b = a
      · rw [hba, Function.update_same]
        simp only [true_and, Function.update_apply]
        by_cases hq : q = p
        · simp [hq]
        · simp only [if_neg hq]
          rfl
      · rw [Function.update_noteq hba]
        simp [hba]
  · intro b
    rw [hssd]
    by_cases hbv : b = v
    · rw [hbv, Function.update_same]; rfl
    · rw [Function.update_noteq hbv]
      by_cases hba : b = a
      · rw [hba, Function.update_same]; rfl
      · rw [Function.update_noteq hba]
  · have hat : u.active_block_index.toNat = a := by rw [ha]; rfl
    have hpt : u.active_page_index.toNat = p := by rw [hp]; rfl
    rw [← e, ← ha, ← hp]
    unfold relocate_page
    simp only []
    generalize u.active_block_index.toNat = a1 at hat ⊢
    generalize u.active_page_index.toNat = p1 at hpt ⊢
    subst hat hpt
    simp only [Function.update_idem, Function.update_same, Function.update_noteq hva]
  · simp only [relocate_page, ha]
  · simp only [relocate_page, hp]

/-- A write that needs no refill leaves the queue as it was. -/
theorem write_step_queue_keep (cfg : Config) (s : State) (lba : Nat)
    (h : needs_refill cfg s = false) :
    (write_step cfg s lba).1.free_block_queue = s.free_block_queue := by
  have e : needs_refill cfg { s with ssd := invalidate_lba cfg s.ssd lba } = false := h
  have hcr : cursor_refill cfg { s with ssd := invalidate_lba cfg s.ssd lba }
      = some { s with ssd := invalidate_lba cfg s.ssd lba } := by
    unfold cursor_refill
    rw [e]
    rfl
  rcases write_step_cases cfg s lba with ⟨hn, _⟩ | ⟨s2, h2, _, _, _, hq, _⟩
  · rw [hcr] at hn
    exact absurd hn (by simp)
  · rw [hcr] at h2
    simp only [Option.some.injEq] at h2
    rw [hq, ← h2]

/-- The test `needs_refill` fails exactly when the cursor is set and stands
before the end of its block. -/
theorem needs_refill_eq_false (cfg : Config) (s : State) :
    needs_refill cfg s = false ↔
      (s.active_block_index ≠ -1 ∧ s.active_page_index < (PAGES_PER_BLOCK cfg : Int)) := by
  unfold needs_refill
  simp

/-- A write that needs a refill takes the front slot: the queue size drops
by one. -/
theorem write_step_queue_take (cfg : Config) (s : State) (lba : Nat)
    (h : needs_refill cfg s = true) (hq : s.free_block_queue.slots ≠ []) :
    (write_step cfg s lba).1.free_block_queue.size = s.free_block_queue.size - 1 := by
  have e : needs_refill cfg { s with ssd := invalidate_lba cfg s.ssd lba } = true := h
  rcases write_step_cases cfg s lba with ⟨hn, _⟩ | ⟨s2, h2, _, _, _, hq2, _⟩
  · exact absurd hn (cursor_refill_ne_none cfg _ hq)
  · rw [hq2]
    unfold cursor_refill fifo_dequeue at h2
    rw [if_pos e] at h2
    cases hs : s.free_block_queue.slots with
    | nil => exact absurd hs hq
    | cons x rest =>
      simp only [hs, Option.some.injEq] at h2
      rw [← h2]

/-- While every block carries the free flag, a single-page WRITE request whose
write step leaves three slots or fewer queued is never processed to the end:
the watermark loop runs on whatever the fuel. -/
theorem process_write_spins (cfg : Config) (hps : 0 < cfg.PAGE_SIZE) (fuel : Nat) (s : State)
    (lba : Nat) (hfree : ∀ b, (s.ssd b).is_free = true)
    (hsz : (write_step cfg { s with total_read_bytes := s.total_read_bytes + 4096 }
      lba).1.free_block_queue.size ≤ 3) :
    process_request cfg fuel s (write_request cfg lba) = none := by
  have hwfree : ∀ b, ((write_step cfg
      { s with total_read_bytes := s.total_read_bytes + 4096 } lba).1.ssd b).is_free = true := by
    intro b
    rw [write_step_is_free]
    exact hfree b
  unfold process_request
  simp only [write_request, if_true]
  cases hwl : write_loop cfg fuel { s with total_read_bytes := s.total_read_bytes + 4096 }
      cfg.PAGE_SIZE lba with
  | none => rfl
  | some w =>
    have e := write_loop_single_some cfg hps fuel _ w _ hwl
    simp only
    rw [watermark_loop_spins cfg fuel w (by rw [e]; exact hwfree) (by rw [e]; exact hsz)]

/-- The free-space condition of `rewrite_single_mapping` is exact: from a
reachable state that does not meet it (at most four slots are queued, and the
cursor is unset or has fewer than two unwritten pages left in its block), the
two consecutive single-page WRITE requests are never both processed to the
end: should the first one end, the second one does not, whatever the fuel. -/
theorem rewrite_needs_space (cfg : Config) (hw : well_sized cfg) (s : State) (L : Nat)
    (hL : L < LOGICAL_PAGES cfg) (hs : Reachable cfg s)
    (hfree : ¬ (4 < s.free_block_queue.size ∨
      (s.active_block_index ≠ -1 ∧
        s.active_page_index + 2 ≤ (PAGES_PER_BLOCK cfg : Int))))
    (fuel1 fuel2 : Nat) (t1 : State)
    (h1 : process_request cfg fuel1 s (write_request cfg L) = some t1) :
    process_request cfg fuel2 t1 (write_request cfg L) = none := by
  have hi := reachable_inv cfg hw s hs
  have hq := reachable_queue_nonempty cfg hw s hs
  have hps := page_size_pos cfg hw
  have hsz4 : s.free_block_queue.size ≤ 4 := by
    by_contra hc
    exact hfree (Or.inl (by omega))
  cases hns : needs_refill cfg s with
  | true =>
    have hn0 : needs_refill cfg { s with total_read_bytes := s.total_read_bytes + 4096 }
        = true := hns
    have htake := write_step_queue_take cfg _ L hn0 hq
    have hnone := process_write_spins cfg hps fuel1 s L hi.all_free (by
      rw [htake]
      simp only
      omega)
    rw [hnone] at h1
    exact absurd h1 (by simp)
  | false =>
    have hn0 : needs_refill cfg { s with total_read_bytes := s.total_read_bytes + 4096 }
        = false := hns
    obtain ⟨ha, hp⟩ := (needs_refill_eq_false cfg s).mp hns
    have hlast : (PAGES_PER_BLOCK cfg : Int) < s.active_page_index + 2 := by
      by_contra hc
      exact hfree (Or.inr ⟨ha, by omega⟩)
    have hr1 := Reachable.step fuel1 s t1 _ hs (write_request_in_range cfg _ s L hL) h1
    have hi1 := reachable_inv cfg hw t1 hr1
    have hq1 := reachable_queue_nonempty cfg hw t1 hr1
    obtain ⟨b, p, _, _, hab, hap, _, _, _, _, hnf, _⟩ :=
      process_write_request cfg hw fuel1 s t1 L hL hi hq h1
    have hpe := (hnf hns).2
    obtain ⟨s1, hwl, _, _, et⟩ := process_request_split cfg fuel1 s t1 _ hi.all_free h1
    have e1 := write_loop_single_some cfg hps fuel1 _ s1 L (hwl rfl)
    have hsize : t1.free_block_queue.size = s.free_block_queue.size := by
      rw [et, (report_step_frame cfg s1).2.1, e1, write_step_queue_keep cfg _ L hn0]
    have hn1 : needs_refill cfg t1 = true := by
      cases hx : needs_refill cfg t1 with
      | true => rfl
      | false =>
        have := ((needs_refill_eq_false cfg t1).mp hx).2
        rw [hap] at this
        omega
    have hn1b : needs_refill cfg { t1 with total_read_bytes := t1.total_read_bytes + 4096 }
        = true := hn1
    have htake := write_step_queue_take cfg _ L hn1b hq1
    exact process_write_spins cfg hps fuel2 t1 L hi1.all_free (by
      rw [htake]
      simp only
      omega)

/-! ## Counting the valid pages still to be visited -/

theorem count_valid_from_le (blk : Block) (n : Nat) : ∀ i, count_valid_from blk i n ≤ n := by
  induction n with
  | zero => intro i; exact le_refl _
  | succ n ih =>
    intro i
    have := ih (i + 1)
    simp only [count_valid_from]
    split <;> omega

theorem count_valid_from_congr (b1 b2 : Block) (n : Nat) :
    ∀ i, (∀ j, i ≤ j → j < i + n → is_page_valid b1 j = is_page_valid b2 j) →
      count_valid_from b1 i n = count_valid_from b2 i n := by
  induction n with
  | zero => intro i _; rfl
  | succ n ih =>
    intro i h
    simp only [count_valid_from]
    rw [h i (le_refl _) (by omega), ih (i + 1) (fun j h1 h2 => h j (by omega) (by omega))]

theorem count_valid_upto_add (blk : Block) (n : Nat) :
    ∀ i, count_valid_upto blk (i + n) = count_valid_upto blk i + count_valid_from blk i n := by
  induction n with
  | zero => intro i; rfl
  | succ n ih =>
    intro i
    have e : i + (n + 1) = (i + 1) + n := by omega
    rw [e, ih (i + 1)]
    simp only [count_valid_upto, count_valid_from]
    omega

theorem count_valid_eq_from (cfg : Config) (blk : Block) :
    count_valid cfg blk = count_valid_from blk 0 (PAGES_PER_BLOCK cfg) := by
  have h := count_valid_upto_add blk (PAGES_PER_BLOCK cfg) 0
  rw [Nat.zero_add] at h
  unfold count_valid
  rw [h]
  simp only [count_valid_upto, Nat.zero_add]

/-! ## Compaction with the destinations outside the victim -/

theorem compact_ok_skip (cfg : Config) (v n i : Nat) (u : State)
    (h : CompactOK cfg v (n + 1) i u) : CompactOK cfg v n (i + 1) u := by
  refine ⟨h.cursor, Nat.le_of_succ_le h.bound, ?_⟩
  rcases h.supply with hs | ⟨h1, h2⟩
  · exact Or.inl hs
  · right
    refine ⟨h1, ?_⟩
    have hmono : count_valid_from (u.ssd v) (i + 1) n ≤ count_valid_from (u.ssd v) i (n + 1) := by
      simp only [count_valid_from]
      omega
    omega

/-- One relocation under `CompactOK`: the refill succeeds, the destination
`(a, p)` is an in-range page outside the victim, and the condition holds
again for the remaining iterations. -/
theorem compact_ok_step (cfg : Config) (hw : well_sized cfg) (v n i : Nat) (u : State)
    (hv : is_page_valid (u.ssd v) i = true) (h : CompactOK cfg v (n + 1) i u) :
    ∃ (u1 : State) (a p : Nat), cursor_refill cfg u = some u1 ∧
      u1.active_block_index = (a : Int) ∧ u1.active_page_index = (p : Int) ∧
      a < BLOCKS_PER_SSD cfg ∧ a ≠ v ∧ p < PAGES_PER_BLOCK cfg ∧
      u1.ssd = u.ssd ∧ u1.mapping_table = u.mapping_table ∧
      ((needs_refill cfg u = false ∧ u1 = u) ∨ (needs_refill cfg u = true ∧ p = 0)) ∧
      CompactOK cfg v n (i + 1) (relocate_page cfg v i u1) := by
  have hpos : 0 < PAGES_PER_BLOCK cfg := Nat.lt_of_lt_of_le (Nat.succ_pos n) h.bound
  have hbound := h.bound
  have hcount : count_valid_from (u.ssd v) i (n + 1)
      = 1 + count_valid_from (u.ssd v) (i + 1) n := by
    simp only [count_valid_from, hv, if_true]
  by_cases hnr : needs_refill cfg u = true
  · have hfront : front_outside cfg v u.free_block_queue := by
      rcases h.supply with hs | ⟨h1, h2⟩
      · exact hs
      · exfalso
        unfold needs_refill at hnr
        simp only [Bool.or_eq_true, beq_iff_eq, decide_eq_true_eq] at hnr
        rcases hnr with e | e
        · exact h1 e
        · omega
    obtain ⟨x, hx0, hx1, hx2, hx3⟩ := hfront
    cases hs : u.free_block_queue.slots with
    | nil => rw [hs] at hx0; simp at hx0
    | cons y rest =>
      rw [hs] at hx0
      simp only [List.head?_cons, Option.some.injEq] at hx0
      subst hx0
      obtain ⟨a, ha⟩ := Int.eq_ofNat_of_zero_le hx1
      have hcr : cursor_refill cfg u = some { u with
          free_block_queue := { slots := rest, size := u.free_block_queue.size - 1 },
          active_block_index := y.block_index, active_page_index := 0 } := by
        unfold cursor_refill fifo_dequeue
        rw [if_pos hnr]
        simp only [hs]
      have hab : a < BLOCKS_PER_SSD cfg := by
        rw [ha] at hx2; exact_mod_cast hx2
      have hav : a ≠ v := by
        intro e; apply hx3; rw [ha, e]
      obtain ⟨_, _, _, _, s5, s6, _⟩ := relocate_page_spec cfg v i { u with
          free_block_queue := { slots := rest, size := u.free_block_queue.size - 1 },
          active_block_index := y.block_index, active_page_index := 0 } a 0 ha rfl hav
        (page_number_lt cfg hw a 0 hab hpos)
      have hle := count_valid_from_le ((relocate_page cfg v i { u with
          free_block_queue := { slots := rest, size := u.free_block_queue.size - 1 },
          active_block_index := y.block_index, active_page_index := 0 }).ssd v) n (i + 1)
      have ha0 := Int.natCast_nonneg a
      refine ⟨_, a, 0, hcr, ha, rfl, hab, hav, hpos, rfl, rfl, Or.inr ⟨hnr, rfl⟩, ?_⟩
      refine ⟨Or.inr ⟨?_, ?_, ?_, Or.inl ?_⟩, Nat.le_of_succ_le h.bound, Or.inr ⟨?_, ?_⟩⟩
      · rw [s5]; exact ha0
      · rw [s5]; exact_mod_cast hab
      · rw [s6]; omega
      · rw [s5]; exact_mod_cast hav
      · rw [s5]; omega
      · rw [s6]; omega
  · have hnr2 : needs_refill cfg u = false := by
      cases hc : needs_refill cfg u with
      | true => exact absurd hc hnr
      | false => rfl
    have hcr : cursor_refill cfg u = some u := by
      unfold cursor_refill
      simp [hnr2]
    have hnr3 := hnr2
    unfold needs_refill at hnr3
    simp only [Bool.or_eq_false_iff, beq_eq_false_iff_ne, ne_eq, decide_eq_false_iff_not,
      not_le] at hnr3
    obtain ⟨hne, hlt⟩ := hnr3
    rcases h.cursor with hc | ⟨hc1, hc2, hc3, hc4⟩
    · exact absurd hc hne
    · obtain ⟨a, ha⟩ := Int.eq_ofNat_of_zero_le hc1
      obtain ⟨p, hp⟩ := Int.eq_ofNat_of_zero_le hc3
      have hab : a < BLOCKS_PER_SSD cfg := by rw [ha] at hc2; exact_mod_cast hc2
      have hav : a ≠ v := by
        intro e
        rcases hc4 with e4 | e4
        · apply e4; rw [ha, e]
        · omega
      have hpp : p < PAGES_PER_BLOCK cfg := by rw [hp] at hlt; exact_mod_cast hlt
      obtain ⟨s1, _, _, _, s5, s6, s7⟩ := relocate_page_spec cfg v i u a p ha hp hav
        (page_number_lt cfg hw a p hab hpp)
      have hsame : count_valid_from ((relocate_page cfg v i u).ssd v) (i + 1) n
          = count_valid_from (u.ssd v) (i + 1) n := by
        apply count_valid_from_congr
        intro j hj1 hj2
        rw [s1 v j, if_pos rfl, if_neg (by omega)]
      have ha0 := Int.natCast_nonneg a
      refine ⟨u, a, p, hcr, ha, hp, hab, hav, hpp, rfl, rfl, Or.inl ⟨hnr2, rfl⟩, ?_⟩
      refine ⟨Or.inr ⟨?_, ?_, ?_, Or.inl ?_⟩, Nat.le_of_succ_le h.bound, ?_⟩
      · rw [s5]; exact ha0
      · rw [s5]; exact_mod_cast hab
      · rw [s6]; omega
      · rw [s5]; exact_mod_cast hav
      · rcases h.supply with hs | ⟨h1, h2⟩
        · left; rw [s7]; exact hs
        · right
          refine ⟨by rw [s5]; omega, ?_⟩
          rw [s6, hsame]
          omega

/-- Pages of the victim never become valid during compaction, and the
iterated pages end invalid. -/
theorem compact_loop_victim (cfg : Config) (hw : well_sized cfg) (v : Nat) (n : Nat) :
    ∀ (i : Nat) (u : State), CompactOK cfg v n i u →
      ∀ q, is_page_valid ((compact_loop cfg v n i u).ssd v) q = true →
        is_page_valid (u.ssd v) q = true ∧ (q < i ∨ i + n ≤ q) := by
  induction n with
  | zero =>
    intro i u _ q hq
    exact ⟨hq, by omega⟩
  | succ n ih =>
    intro i u hok q hq
    simp only [compact_loop] at hq
    by_cases hv : is_page_valid (u.ssd v) i = true
    · obtain ⟨u1, a, p, hcr, ha, hp, hab, hav, hpp, hssd, _, _, hok2⟩ :=
        compact_ok_step cfg hw v n i u hv hok
      rw [if_pos hv, hcr] at hq
      simp only at hq
      obtain ⟨g1, g2⟩ := ih (i + 1) _ hok2 q hq
      obtain ⟨s1, _⟩ := relocate_page_spec cfg v i u1 a p ha hp hav
        (page_number_lt cfg hw a p hab hpp)
      rw [s1 v q, if_pos rfl] at g1
      by_cases hqi : q = i
      · rw [if_pos hqi] at g1; simp at g1
      · rw [if_neg hqi, hssd] at g1
        exact ⟨g1, by omega⟩
    · rw [if_neg hv] at hq
      obtain ⟨g1, g2⟩ := ih (i + 1) u (compact_ok_skip cfg v n i u hok) q hq
      refine ⟨g1, ?_⟩
      rcases g2 with g | g
      · by_cases hqi : q = i
        · rw [hqi] at g1; exact absurd g1 hv
        · left; omega
      · right; omega

/-- A page `(ad, pd)` outside the victim that the cursor has passed keeps
its validity, its OOB and the map entry of its address through the rest of
the compaction. -/
theorem compact_loop_keeps (cfg : Config) (hw : well_sized cfg) (v ad pd L0 M : Nat)
    (hadv : ad ≠ v) (n : Nat) :
    ∀ (i : Nat) (u : State), CompactOK cfg v n i u →
      ((u.active_block_index = (ad : Int) ∧ (pd : Int) < u.active_page_index ∧
          (n : Int) + u.active_page_index ≤ (PAGES_PER_BLOCK cfg : Int) + (pd : Int)) ∨
        (u.active_block_index ≠ -1 ∧
          u.active_page_index + (n : Int) ≤ (PAGES_PER_BLOCK cfg : Int) ∧
          (u.active_block_index = (ad : Int) → u.active_page_index + (n : Int) ≤ (pd : Int)))) →
      (∀ j, i ≤ j → j < i + n → is_page_valid (u.ssd v) j = true → (u.ssd v).oob j ≠ L0) →
      is_page_valid (u.ssd ad) pd = true → (u.ssd ad).oob pd = L0 → u.mapping_table L0 = M →
      is_page_valid ((compact_loop cfg v n i u).ssd ad) pd = true ∧
      ((compact_loop cfg v n i u).ssd ad).oob pd = L0 ∧
      (compact_loop cfg v n i u).mapping_table L0 = M := by
  induction n with
  | zero => intro i u _ _ _ h1 h2 h3; exact ⟨h1, h2, h3⟩
  | succ n ih =>
    intro i u hok hQ hH h1 h2 h3
    simp only [compact_loop]
    by_cases hv : is_page_valid (u.ssd v) i = true
    · obtain ⟨u1, a, p, hcr, ha, hp, hab, hav, hpp, hssd, hmap, hcase, hok2⟩ :=
        compact_ok_step cfg hw v n i u hv hok
      rw [if_pos hv, hcr]
      simp only
      obtain ⟨s1, s2, _, s4, s5, s6, _⟩ := relocate_page_spec cfg v i u1 a p ha hp hav
        (page_number_lt cfg hw a p hab hpp)
      have hbound : ((n + 1 : Nat) : Int) ≤ (PAGES_PER_BLOCK cfg : Int) := by
        exact_mod_cast hok.bound
      push_cast at hbound hQ
      have hpdp : ¬ (ad = a ∧ pd = p) := by
        rintro ⟨rfl, rfl⟩
        rcases hcase with ⟨hnr, hu⟩ | ⟨hnr, hp0⟩
        · subst hu
          rcases hQ with ⟨_, q2, _⟩ | ⟨_, _, q3⟩
          · rw [hp] at q2; omega
          · have := q3 ha
            rw [hp] at this; omega
        · unfold needs_refill at hnr
          simp only [Bool.or_eq_true, beq_iff_eq, decide_eq_true_eq] at hnr
          rcases hQ with ⟨q1, _, q3⟩ | ⟨q1, q2, _⟩
          · rcases hnr with e | e
            · rw [q1] at e
              have := Int.natCast_nonneg ad
              omega
            · omega
          · rcases hnr with e | e
            · exact q1 e
            · omega
      apply ih (i + 1) _ hok2
      · rw [s5, s6]
        rcases hcase with ⟨hnr, hu⟩ | ⟨hnr, hp0⟩
        · subst hu
          rcases hQ with ⟨q1, q2, q3⟩ | ⟨q1, q2, q3⟩
          · left
            refine ⟨by rw [← ha]; exact q1, ?_, ?_⟩
            · rw [hp] at q2; omega
            · rw [hp] at q3; omega
          · right
            refine ⟨by have := Int.natCast_nonneg a; omega, ?_, ?_⟩
            · rw [hp] at q2; omega
            · intro e
              have := q3 (ha.trans e)
              rw [hp] at this; omega
        · right
          subst hp0
          refine ⟨by have := Int.natCast_nonneg a; omega, by push_cast; omega, ?_⟩
          intro e
          unfold needs_refill at hnr
          simp only [Bool.or_eq_true, beq_iff_eq, decide_eq_true_eq] at hnr
          rcases hQ with ⟨q1, _, q3⟩ | ⟨q1, q2, _⟩
          · rcases hnr with e2 | e2
            · rw [q1] at e2
              have := Int.natCast_nonneg ad
              omega
            · push_cast; omega
          · rcases hnr with e2 | e2
            · exact absurd e2 q1
            · omega
      · intro j hj hjn hvj
        rw [s1 v j, if_pos rfl] at hvj
        rw [s2 v j, if_pos rfl]
        have hji : j ≠ i := by omega
        rw [if_neg hji] at hvj ⊢
        rw [hssd] at hvj ⊢
        exact hH j (by omega) (by omega) hvj
      · rw [s1 ad pd, if_neg hadv, if_neg hpdp, hssd]; exact h1
      · rw [s2 ad pd, if_neg hadv, if_neg hpdp, hssd]; exact h2
      · rw [s4, hmap]
        have hne : L0 ≠ (u1.ssd v).oob i := by
          rw [hssd]; exact fun e => hH i (le_refl _) (by omega) hv e.symm
        rw [Function.update_noteq hne]; exact h3
    · rw [if_neg hv]
      apply ih (i + 1) u (compact_ok_skip cfg v n i u hok) _ _ h1 h2 h3
      · push_cast at hQ
        rcases hQ with ⟨q1, q2, q3⟩ | ⟨q1, q2, q3⟩
        · exact Or.inl ⟨q1, q2, by omega⟩
        · exact Or.inr ⟨q1, by omega, fun e => by have := q3 e; omega⟩
      · intro j hj hjn hvj
        exact hH j (by omega) (by omega) hvj

/-- Every valid page of the victim among the iterated ones is relocated: at
the end its address is mapped to a valid in-range page outside the victim
whose OOB is that address. -/
theorem compact_loop_relocates (cfg : Config) (hw : well_sized cfg) (v : Nat) (n : Nat) :
    ∀ (i : Nat) (u : State), CompactOK cfg v n i u →
      (∀ j1 j2, i ≤ j1 → j1 < i + n → i ≤ j2 → j2 < i + n →
        is_page_valid (u.ssd v) j1 = true → is_page_valid (u.ssd v) j2 = true →
        (u.ssd v).oob j1 = (u.ssd v).oob j2 → j1 = j2) →
      ∀ j, i ≤ j → j < i + n → is_page_valid (u.ssd v) j = true →
        ∃ b p, b < BLOCKS_PER_SSD cfg ∧ p < PAGES_PER_BLOCK cfg ∧ b ≠ v ∧
          (compact_loop cfg v n i u).mapping_table ((u.ssd v).oob j)
            = b * PAGES_PER_BLOCK cfg + p ∧
          is_page_valid ((compact_loop cfg v n i u).ssd b) p = true ∧
          ((compact_loop cfg v n i u).ssd b).oob p = (u.ssd v).oob j := by
  induction n with
  | zero => intro i u _ _ j h1 h2 _; omega
  | succ n ih =>
    intro i u hok huniq j hj1 hj2 hvj
    simp only [compact_loop]
    by_cases hv : is_page_valid (u.ssd v) i = true
    · obtain ⟨u1, a, p, hcr, ha, hp, hab, hav, hpp, hssd, hmap, hcase, hok2⟩ :=
        compact_ok_step cfg hw v n i u hv hok
      rw [if_pos hv, hcr]
      simp only
      obtain ⟨s1, s2, _, s4, s5, s6, _⟩ := relocate_page_spec cfg v i u1 a p ha hp hav
        (page_number_lt cfg hw a p hab hpp)
      have hva : v ≠ a := fun e => hav e.symm
      by_cases hji : j = i
      · subst hji
        have hbound : ((n + 1 : Nat) : Int) ≤ (PAGES_PER_BLOCK cfg : Int) := by
          exact_mod_cast hok.bound
        push_cast at hbound
        obtain ⟨k1, k2, k3⟩ := compact_loop_keeps cfg hw v a p ((u.ssd v).oob j)
          (a * PAGES_PER_BLOCK cfg + p) hav n (j + 1) (relocate_page cfg v j u1) hok2
          (Or.inl ⟨s5, by rw [s6]; omega, by rw [s6]; omega⟩)
          (by
            intro j2 h1 h2 hv2
            rw [s1 v j2, if_pos rfl] at hv2
            rw [s2 v j2, if_pos rfl]
            have hne : j2 ≠ j := by omega
            rw [if_neg hne] at hv2 ⊢
            rw [hssd] at hv2 ⊢
            intro e
            exact hne (huniq j2 j (by omega) (by omega) (le_refl _) (by omega) hv2 hv e))
          (by rw [s1 a p, if_neg hav, if_pos ⟨rfl, rfl⟩])
          (by rw [s2 a p, if_neg hav, if_pos ⟨rfl, rfl⟩, hssd])
          (by rw [s4, hssd, Function.update_same])
        exact ⟨a, p, hab, hpp, hav, k3, k1, k2⟩
      · have hvj2 : is_page_valid ((relocate_page cfg v i u1).ssd v) j = true := by
          rw [s1 v j, if_pos rfl, if_neg hji, hssd]; exact hvj
        have hoj : ((relocate_page cfg v i u1).ssd v).oob j = (u.ssd v).oob j := by
          rw [s2 v j, if_pos rfl, if_neg hji, hssd]
        have := ih (i + 1) (relocate_page cfg v i u1) hok2
          (by
            intro j1 j2 a1 a2 b1 b2 c1 c2 e
            have n1 : j1 ≠ i := by omega
            have n2 : j2 ≠ i := by omega
            rw [s1 v j1, if_pos rfl, if_neg n1, hssd] at c1
            rw [s1 v j2, if_pos rfl, if_neg n2, hssd] at c2
            rw [s2 v j1, if_pos rfl, if_neg n1, s2 v j2, if_pos rfl, if_neg n2, hssd] at e
            exact huniq j1 j2 (by omega) (by omega) (by omega) (by omega) c1 c2 e)
          j (by omega) (by omega) hvj2
        rw [hoj] at this
        exact this
    · rw [if_neg hv]
      have hji : j ≠ i := by
        rintro rfl; exact hv hvj
      exact ih (i + 1) u (compact_ok_skip cfg v n i u hok)
        (fun j1 j2 a1 a2 b1 b2 c1 c2 e =>
          huniq j1 j2 (by omega) (by omega) (by omega) (by omega) c1 c2 e)
        j (by omega) (by omega) hvj

/-! ## Compaction with the cursor inside the victim -/

/-- The state after one relocation whose destination `(v, p)` is another
page of the victim itself, described page by page for the victim. -/
theorem relocate_page_inside (cfg : Config) (v i : Nat) (u : State) (p : Nat)
    (ha : u.active_block_index = (v : Int)) (hp : u.active_page_index = (p : Int)) :
    (∀ q, is_page_valid ((relocate_page cfg v i u).ssd v) q =
      if q = i then false else if q = p then true else is_page_valid (u.ssd v) q) ∧
    (∀ q, ((relocate_page cfg v i u).ssd v).oob q =
      if q = i then SENTINEL else if q = p then (u.ssd v).oob i else (u.ssd v).oob q) ∧
    (relocate_page cfg v i u).active_block_index = (v : Int) ∧
    (relocate_page cfg v i u).active_page_index = (p : Int) + 1 ∧
    (relocate_page cfg v i u).free_block_queue = u.free_block_queue := by
  have hat : u.active_block_index.toNat = v := by rw [ha]; rfl
  have hpt : u.active_page_index.toNat = p := by rw [hp]; rfl
  have hssd : (relocate_page cfg v i u).ssd v =
      clear_page { set_page_valid (u.ssd v) p with
        oob := Function.update (set_page_valid (u.ssd v) p).oob p
          ((set_page_valid (u.ssd v) p).oob i) } i := by
    unfold relocate_page
    simp only []
    generalize u.active_block_index.toNat = a1 at hat ⊢
    generalize u.active_page_index.toNat = p1 at hpt ⊢
    subst hat hpt
    simp only [Function.update_idem, Function.update_same]
  have ev : ∀ (blk : Block) (f : Nat → Nat) (q : Nat),
      is_page_valid { blk with oob := f } q = is_page_valid blk q := fun _ _ _ => rfl
  have eo : ∀ q, (set_page_valid (u.ssd v) p).oob q = (u.ssd v).oob q := fun _ => rfl
  refine ⟨?_, ?_, ?_, ?_, rfl⟩
  · intro q
    rw [hssd, is_page_valid_clear_page, ev, is_page_valid_set_page_valid]
    by_cases hq : q = i
    · simp [hq]
    · by_cases hq2 : q = p
      · simp [hq, hq2]
      · simp [hq, hq2]
  · intro q
    rw [hssd, clear_page_oob]
    by_cases hq : q = i
    · rw [if_pos hq, if_pos hq]
    · rw [if_neg hq, if_neg hq]
      show Function.update (set_page_valid (u.ssd v) p).oob p
        ((set_page_valid (u.ssd v) p).oob i) q = _
      rw [Function.update_apply, eo, eo]
  · simp only [relocate_page, ha]
  · simp only [relocate_page, hp]

/-- Compaction over pages that are all invalid changes nothing. -/
theorem compact_loop_idle (cfg : Config) (v : Nat) (n : Nat) :
    ∀ (i : Nat) (u : State), (∀ j, i ≤ j → j < i + n → is_page_valid (u.ssd v) j = false) →
      compact_loop cfg v n i u = u := by
  induction n with
  | zero => intro i u _; rfl
  | succ n ih =>
    intro i u h
    simp only [compact_loop]
    have hi : ¬ is_page_valid (u.ssd v) i = true := by
      rw [h i (le_refl _) (by omega)]; simp
    rw [if_neg hi]
    exact ih (i + 1) u (fun j h1 h2 => h j (by omega) (by omega))

theorem chain_unique_step (i p j1 j2 : Nat) (valid valid2 : Nat → Bool) (oob oob2 : Nat → Nat)
    (s1 : ∀ q, valid2 q = if q = i then false else if q = p then true else valid q)
    (s2 : ∀ q, oob2 q = if q = i then SENTINEL else if q = p then oob i else oob q)
    (P : Nat) (hv : valid i = true)
    (huniq : ∀ j1 j2, i ≤ j1 → j1 < P → i ≤ j2 → j2 < P →
      valid j1 = true → valid j2 = true → oob j1 = oob j2 → j1 = j2)
    (a1 : i + 1 ≤ j1) (a2 : j1 < P) (b1 : i + 1 ≤ j2) (b2 : j2 < P)
    (c1 : valid2 j1 = true) (c2 : valid2 j2 = true) (e : oob2 j1 = oob2 j2) : j1 = j2 := by
  have n1 : j1 ≠ i := by omega
  have n2 : j2 ≠ i := by omega
  have hiP : i < P := by omega
  rw [s1 j1, if_neg n1] at c1
  rw [s1 j2, if_neg n2] at c2
  rw [s2 j1, if_neg n1, s2 j2, if_neg n2] at e
  by_cases e1 : j1 = p
  · by_cases e2 : j2 = p
    · rw [e1, e2]
    · exfalso
      rw [if_pos e1, if_neg e2] at e
      rw [if_neg e2] at c2
      have := huniq i j2 (le_refl _) hiP (by omega) b2 hv c2 e
      omega
  · by_cases e2 : j2 = p
    · exfalso
      rw [if_neg e1, if_pos e2] at e
      rw [if_neg e1] at c1
      have := huniq j1 i (by omega) a2 (le_refl _) hiP c1 hv e
      omega
    · rw [if_neg e1] at c1
      rw [if_neg e2] at c2
      rw [if_neg e1, if_neg e2] at e
      exact huniq j1 j2 (by omega) a2 (by omega) b2 c1 c2 e

/-- Compaction with the cursor at `(v, p)` inside the victim, ahead of the
page `i` being visited, while no page of the victim from `p` on is valid:
each valid page is copied forward inside the victim, visited again later, and
leaves the victim once the cursor has reached the end of the block and the
refill has taken a block other than the victim.  At the end every address of
a valid page is mapped to a valid page outside the victim that carries it,
and no visited page of the victim is valid. -/
theorem compact_loop_chain (cfg : Config) (hw : well_sized cfg) (v : Nat)
    (hvb : v < BLOCKS_PER_SSD cfg) (n : Nat) :
    ∀ (i p : Nat) (u : State), i + n = PAGES_PER_BLOCK cfg →
      u.active_block_index = (v : Int) → u.active_page_index = (p : Int) →
      i < p → p ≤ PAGES_PER_BLOCK cfg →
      (∀ q, p ≤ q → q < PAGES_PER_BLOCK cfg → is_page_valid (u.ssd v) q = false) →
      front_outside cfg v u.free_block_queue →
      (∀ j1 j2, i ≤ j1 → j1 < PAGES_PER_BLOCK cfg → i ≤ j2 → j2 < PAGES_PER_BLOCK cfg →
        is_page_valid (u.ssd v) j1 = true → is_page_valid (u.ssd v) j2 = true →
        (u.ssd v).oob j1 = (u.ssd v).oob j2 → j1 = j2) →
      (∀ j, i ≤ j → j < PAGES_PER_BLOCK cfg → is_page_valid (u.ssd v) j = true →
        ∃ b q, b < BLOCKS_PER_SSD cfg ∧ q < PAGES_PER_BLOCK cfg ∧ b ≠ v ∧
          (compact_loop cfg v n i u).mapping_table ((u.ssd v).oob j)
            = b * PAGES_PER_BLOCK cfg + q ∧
          is_page_valid ((compact_loop cfg v n i u).ssd b) q = true ∧
          ((compact_loop cfg v n i u).ssd b).oob q = (u.ssd v).oob j) ∧
      (∀ q, is_page_valid ((compact_loop cfg v n i u).ssd v) q = true →
        is_page_valid (u.ssd v) q = true ∧ (q < i ∨ PAGES_PER_BLOCK cfg ≤ q)) := by
  induction n with
  | zero => intro i p u h1 _ _ h2 h3; omega
  | succ n ih =>
    intro i p u hin ha hp hip hpP hbeyond hfront huniq
    by_cases hfull : p = PAGES_PER_BLOCK cfg
    · have hok : CompactOK cfg v (n + 1) i u := by
        refine ⟨Or.inr ⟨?_, ?_, ?_, Or.inr ?_⟩, by omega, Or.inl hfront⟩
        · rw [ha]; exact Int.natCast_nonneg v
        · rw [ha]; exact_mod_cast hvb
        · rw [hp]; exact Int.natCast_nonneg p
        · rw [hp, hfull]
      refine ⟨?_, ?_⟩
      · intro j hj1 hj2 hvj
        exact compact_loop_relocates cfg hw v (n + 1) i u hok
          (fun j1 j2 a1 a2 b1 b2 c1 c2 e =>
            huniq j1 j2 a1 (by omega) b1 (by omega) c1 c2 e)
          j hj1 (by omega) hvj
      · intro q hq
        obtain ⟨g1, g2⟩ := compact_loop_victim cfg hw v (n + 1) i u hok q hq
        exact ⟨g1, by omega⟩
    · have hlt : p < PAGES_PER_BLOCK cfg := by omega
      by_cases hv : is_page_valid (u.ssd v) i = true
      · have hnr : needs_refill cfg u = false :=
          (needs_refill_eq_false cfg u).mpr
            ⟨by rw [ha]; have := Int.natCast_nonneg v; omega, by rw [hp]; exact_mod_cast hlt⟩
        have hcr : cursor_refill cfg u = some u := by
          unfold cursor_refill
          simp [hnr]
        obtain ⟨s1, s2, s3, s4, s5⟩ := relocate_page_inside cfg v i u p ha hp
        have hpinv : is_page_valid (u.ssd v) p = false := hbeyond p (le_refl _) hlt
        have hni : p ≠ i := by omega
        obtain ⟨r1, r2⟩ := ih (i + 1) (p + 1) (relocate_page cfg v i u) (by omega) s3
          (by rw [s4]; push_cast; rfl) (by omega) (by omega)
          (by
            intro q h1 h2
            rw [s1 q, if_neg (by omega), if_neg (by omega)]
            exact hbeyond q (by omega) h2)
          (by rw [s5]; exact hfront)
          (fun j1 j2 a1 a2 b1 b2 c1 c2 e =>
            chain_unique_step i p j1 j2 _ _ _ _ s1 s2 _ hv huniq a1 a2 b1 b2 c1 c2 e)
        simp only [compact_loop]
        rw [if_pos hv, hcr]
        simp only
        refine ⟨?_, ?_⟩
        · intro j hj1 hj2 hvj
          by_cases hji : j = i
          · subst hji
            have := r1 p (by omega) hlt (by rw [s1 p, if_neg hni, if_pos rfl])
            rw [s2 p, if_neg hni, if_pos rfl] at this
            exact this
          · have hjp : j ≠ p := by
              rintro rfl
              rw [hpinv] at hvj
              exact absurd hvj (by simp)
            have := r1 j (by omega) hj2 (by rw [s1 j, if_neg hji, if_neg hjp]; exact hvj)
            rw [s2 j, if_neg hji, if_neg hjp] at this
            exact this
        · intro q hq
          obtain ⟨g1, g2⟩ := r2 q hq
          rw [s1 q] at g1
          by_cases hqi : q = i
          · rw [if_pos hqi] at g1; simp at g1
          · rw [if_neg hqi] at g1
            by_cases hqp : q = p
            · exfalso; omega
            · rw [if_neg hqp] at g1
              exact ⟨g1, by omega⟩
      · simp only [compact_loop]
        rw [if_neg hv]
        by_cases hnext : i + 1 < p
        · obtain ⟨r1, r2⟩ := ih (i + 1) p u (by omega) ha hp hnext hpP hbeyond hfront
            (fun j1 j2 a1 a2 b1 b2 c1 c2 e =>
              huniq j1 j2 (by omega) a2 (by omega) b2 c1 c2 e)
          refine ⟨?_, ?_⟩
          · intro j hj1 hj2 hvj
            have hji : j ≠ i := by
              rintro rfl; exact hv hvj
            exact r1 j (by omega) hj2 hvj
          · intro q hq
            obtain ⟨g1, g2⟩ := r2 q hq
            refine ⟨g1, ?_⟩
            by_cases hqi : q = i
            · rw [hqi] at g1; exact absurd g1 hv
            · omega
        · have hidle := compact_loop_idle cfg v n (i + 1) u
            (fun j h1 h2 => hbeyond j (by omega) (by omega))
          rw [hidle]
          refine ⟨?_, ?_⟩
          · intro j hj1 hj2 hvj
            exfalso
            by_cases hji : j = i
            · rw [hji] at hvj; exact hv hvj
            · rw [hbeyond j (by omega) hj2] at hvj
              simp at hvj
          · intro q hq
            refine ⟨hq, ?_⟩
            by_contra hc
            by_cases hqi : q = i
            · rw [hqi] at hq; exact hv hq
            · rw [hbeyond q (by omega) (by omega)] at hq
              simp at hq

/-! ## Correctness of garbage collection -/

theorem select_victim_selected (cfg : Config) (ssd : Nat → Block) (v c : Nat)
    (h : select_victim cfg ssd = ((v : Int), c)) :
    v < BLOCKS_PER_SSD cfg ∧ (ssd v).is_free = false ∧ count_valid cfg (ssd v) = c := by
  obtain ⟨_, _, h3⟩ := select_victim_upto_spec cfg ssd (BLOCKS_PER_SSD cfg)
  have e1 : (select_victim_upto cfg ssd (BLOCKS_PER_SSD cfg)).1 = (v : Int) :=
    congrArg Prod.fst h
  have e2 : (select_victim_upto cfg ssd (BLOCKS_PER_SSD cfg)).2 = c :=
    congrArg Prod.snd h
  have hne : (select_victim_upto cfg ssd (BLOCKS_PER_SSD cfg)).1 ≠ -1 := by
    rw [e1]
    have := Int.natCast_nonneg v
    omega
  obtain ⟨w, hw1, hw2, hw3, hw4, _⟩ := h3 hne
  have e : (w : Int) = (v : Int) := by
    rw [← hw2]; exact e1
  have e3 : w = v := by exact_mod_cast e
  rw [← e3]
  exact ⟨hw1, hw3, hw4.trans e2⟩

/-- The compaction of a victim relocates every valid page when the cursor is
unset or stands in a block of the device, no valid page of the victim lies at
or after the cursor should the cursor stand in the victim, and either the
front slot of the queue is outside the victim or the cursor stands outside
the victim with room for all valid pages. -/
theorem compact_loop_correct (cfg : Config) (hw : well_sized cfg) (s : State) (v c : Nat)
    (hvb : v < BLOCKS_PER_SSD cfg) (hc : count_valid cfg (s.ssd v) = c)
    (huniq : ∀ j1 j2, j1 < PAGES_PER_BLOCK cfg → j2 < PAGES_PER_BLOCK cfg →
      is_page_valid (s.ssd v) j1 = true → is_page_valid (s.ssd v) j2 = true →
      (s.ssd v).oob j1 = (s.ssd v).oob j2 → j1 = j2)
    (hcur : s.active_block_index = -1 ∨
      (0 ≤ s.active_block_index ∧ s.active_block_index < (BLOCKS_PER_SSD cfg : Int) ∧
        0 ≤ s.active_page_index))
    (hbehind : s.active_block_index = (v : Int) →
      ∀ q, q < PAGES_PER_BLOCK cfg → is_page_valid (s.ssd v) q = true →
        (q : Int) < s.active_page_index)
    (hsupply : front_outside cfg v s.free_block_queue ∨
      (s.active_block_index ≠ -1 ∧ s.active_block_index ≠ (v : Int) ∧
        s.active_page_index + (c : Int) ≤ (PAGES_PER_BLOCK cfg : Int))) :
    (∀ j, j < PAGES_PER_BLOCK cfg → is_page_valid (s.ssd v) j = true →
      ∃ b p, b < BLOCKS_PER_SSD cfg ∧ p < PAGES_PER_BLOCK cfg ∧ b ≠ v ∧
        (compact_loop cfg v (PAGES_PER_BLOCK cfg) 0 s).mapping_table ((s.ssd v).oob j)
          = b * PAGES_PER_BLOCK cfg + p ∧
        is_page_valid ((compact_loop cfg v (PAGES_PER_BLOCK cfg) 0 s).ssd b) p = true ∧
        ((compact_loop cfg v (PAGES_PER_BLOCK cfg) 0 s).ssd b).oob p = (s.ssd v).oob j) ∧
    (∀ q, q < PAGES_PER_BLOCK cfg →
      is_page_valid ((compact_loop cfg v (PAGES_PER_BLOCK cfg) 0 s).ssd v) q = false) := by
  have hv0 := Int.natCast_nonneg v
  by_cases hin : s.active_block_index = (v : Int) ∧
      s.active_page_index < (PAGES_PER_BLOCK cfg : Int)
  · obtain ⟨hav, hlt⟩ := hin
    have hp0 : 0 ≤ s.active_page_index := by
      rcases hcur with h | ⟨_, _, h⟩
      · omega
      · exact h
    obtain ⟨p, hp⟩ := Int.eq_ofNat_of_zero_le hp0
    have hpP : p < PAGES_PER_BLOCK cfg := by rw [hp] at hlt; exact_mod_cast hlt
    have hbeyond : ∀ q, p ≤ q → q < PAGES_PER_BLOCK cfg →
        is_page_valid (s.ssd v) q = false := by
      intro q h1 h2
      cases hq : is_page_valid (s.ssd v) q with
      | false => rfl
      | true =>
        have := hbehind hav q h2 hq
        rw [hp] at this
        omega
    have hfront : front_outside cfg v s.free_block_queue := by
      rcases hsupply with h | ⟨_, h, _⟩
      · exact h
      · exact absurd hav h
    by_cases hpz : p = 0
    · have hidle := compact_loop_idle cfg v (PAGES_PER_BLOCK cfg) 0 s
        (fun j h1 h2 => hbeyond j (by omega) (by omega))
      rw [hidle]
      refine ⟨?_, ?_⟩
      · intro j hj hvj
        rw [hbeyond j (by omega) hj] at hvj
        simp at hvj
      · intro q hq
        exact hbeyond q (by omega) hq
    · obtain ⟨r1, r2⟩ := compact_loop_chain cfg hw v hvb (PAGES_PER_BLOCK cfg) 0 p s
        (Nat.zero_add _) hav hp (by omega) (by omega) hbeyond hfront
        (fun j1 j2 _ a2 _ b2 c1 c2 e => huniq j1 j2 a2 b2 c1 c2 e)
      refine ⟨fun j hj hvj => r1 j (Nat.zero_le _) hj hvj, ?_⟩
      intro q hq
      cases hc2 : is_page_valid ((compact_loop cfg v (PAGES_PER_BLOCK cfg) 0 s).ssd v) q with
      | false => rfl
      | true =>
        obtain ⟨_, g⟩ := r2 q hc2
        omega
  · have hok : CompactOK cfg v (PAGES_PER_BLOCK cfg) 0 s := by
      refine ⟨?_, le_refl _, ?_⟩
      · rcases hcur with h | ⟨h1, h2, h3⟩
        · exact Or.inl h
        · refine Or.inr ⟨h1, h2, h3, ?_⟩
          by_cases e : s.active_block_index = (v : Int)
          · right
            by_contra hc2
            exact hin ⟨e, by omega⟩
          · exact Or.inl e
      · rcases hsupply with h | ⟨h1, _, h3⟩
        · exact Or.inl h
        · right
          refine ⟨h1, ?_⟩
          rw [← count_valid_eq_from, hc]
          exact h3
    refine ⟨?_, ?_⟩
    · intro j hj hvj
      exact compact_loop_relocates cfg hw v (PAGES_PER_BLOCK cfg) 0 s hok
        (fun j1 j2 _ a2 _ b2 c1 c2 e => huniq j1 j2 (by omega) (by omega) c1 c2 e)
        j (Nat.zero_le _) (by omega) hvj
    · intro q hq
      cases hc2 : is_page_valid ((compact_loop cfg v (PAGES_PER_BLOCK cfg) 0 s).ssd v) q with
      | false => rfl
      | true =>
        obtain ⟨_, g⟩ := compact_loop_victim cfg hw v (PAGES_PER_BLOCK cfg) 0 s hok q hc2
        omega

/-- C5, with the conditions on the cursor and the queue that the code needs:
in a state that satisfies the data-model invariants, when `garbage_collection`
selects a victim `v` with `c` valid pages, the cursor is unset or stands at a
non-negative page index in a block of the device, no valid page of the victim
lies at or after the cursor should the cursor stand in the victim, and either
the queue is not empty and its front slot names a block of the device other
than the victim, or the cursor stands outside the victim with room for the
`c` valid pages, then after `garbage_collection` returns every logical
address that was the OOB of a valid page of the victim is mapped to an
in-range page that is valid and has that address as OOB, and the victim
carries the free flag and has no valid page. -/
theorem gc_relocates_valid_pages (cfg : Config) (hw : well_sized cfg) (s : State) (v c : Nat)
    (hinv : DataModelInv cfg s) (hsel : select_victim cfg s.ssd = ((v : Int), c))
    (hcur : s.active_block_index = -1 ∨
      (0 ≤ s.active_block_index ∧ s.active_block_index < (BLOCKS_PER_SSD cfg : Int) ∧
        0 ≤ s.active_page_index))
    (hbehind : s.active_block_index = (v : Int) →
      ∀ q, q < PAGES_PER_BLOCK cfg → is_page_valid (s.ssd v) q = true →
        (q : Int) < s.active_page_index)
    (hsupply : front_outside cfg v s.free_block_queue ∨
      (s.active_block_index ≠ -1 ∧ s.active_block_index ≠ (v : Int) ∧
        s.active_page_index + (c : Int) ≤ (PAGES_PER_BLOCK cfg : Int))) :
    (∀ j, j < PAGES_PER_BLOCK cfg → is_page_valid (s.ssd v) j = true →
      ∃ b p, b < BLOCKS_PER_SSD cfg ∧ p < PAGES_PER_BLOCK cfg ∧
        (garbage_collection cfg s).mapping_table ((s.ssd v).oob j)
          = b * PAGES_PER_BLOCK cfg + p ∧
        is_page_valid ((garbage_collection cfg s).ssd b) p = true ∧
        ((garbage_collection cfg s).ssd b).oob p = (s.ssd v).oob j) ∧
    ((garbage_collection cfg s).ssd v).is_free = true ∧
    (∀ q, q < PAGES_PER_BLOCK cfg → is_page_valid ((garbage_collection cfg s).ssd v) q = false) := by
  obtain ⟨hvb, _, hcount⟩ := select_victim_selected cfg s.ssd v c hsel
  have hne : ¬ ((v : Int) = -1) := by
    have := Int.natCast_nonneg v
    omega
  have hgm : (garbage_collection cfg s).mapping_table
      = (compact_loop cfg v (PAGES_PER_BLOCK cfg) 0 s).mapping_table := by
    unfold garbage_collection
    simp only [hsel, if_neg hne, Int.toNat_natCast]
  have hgs : (garbage_collection cfg s).ssd
      = Function.update (compact_loop cfg v (PAGES_PER_BLOCK cfg) 0 s).ssd v
          { (compact_loop cfg v (PAGES_PER_BLOCK cfg) 0 s).ssd v with is_free := true } := by
    unfold garbage_collection
    simp only [hsel, if_neg hne, Int.toNat_natCast]
  have hvalid : ∀ (blk : Block) (q : Nat),
      is_page_valid { blk with is_free := true } q = is_page_valid blk q := fun _ _ => rfl
  obtain ⟨r1, r2⟩ := compact_loop_correct cfg hw s v c hvb hcount
    (fun j1 j2 a1 a2 c1 c2 e => (hinv.unique v hvb j1 a1 v hvb j2 a2 c1 c2 e).2)
    hcur hbehind hsupply
  refine ⟨?_, ?_, ?_⟩
  · intro j hj hvj
    obtain ⟨b, p, hb, hp, hbv, k1, k2, k3⟩ := r1 j hj hvj
    refine ⟨b, p, hb, hp, ?_, ?_, ?_⟩
    · rw [hgm]; exact k1
    · rw [hgs, Function.update_noteq hbv]; exact k2
    · rw [hgs, Function.update_noteq hbv]; exact k3
  · rw [hgs, Function.update_same]
  · intro q hq2
    rw [hgs, Function.update_same, hvalid]
    exact r2 q hq2

theorem gc_cursor_state_valid (b p : Nat) (hp : p < PAGES_PER_BLOCK small_config)
    (hv : is_page_valid (gc_cursor_state.ssd b) p = true) : b = 0 ∧ p = 0 := by
  have h8 : PAGES_PER_BLOCK small_config = 8 := by decide
  rw [h8] at hp
  by_cases hb : b = 0
  · subst hb
    refine ⟨rfl, ?_⟩
    interval_cases p
    · rfl
    all_goals (exfalso; revert hv; decide)
  · exfalso
    have e : gc_cursor_state.ssd b = init_block := by simp [gc_cursor_state, hb]
    rw [e] at hv
    simp [is_page_valid, init_block] at hv

set_option maxRecDepth 100000 in
theorem gc_cursor_state_inv : DataModelInv small_config gc_cursor_state := by
  constructor
  · unfold mapping_consistent; decide
  · intro b1 _ p1 hp1 b2 _ p2 hp2 hv1 hv2 _
    obtain ⟨e1, e2⟩ := gc_cursor_state_valid b1 p1 hp1 hv1
    obtain ⟨e3, e4⟩ := gc_cursor_state_valid b2 p2 hp2 hv2
    exact ⟨e1.trans e3.symm, e2.trans e4.symm⟩
  · decide
  · decide
  · decide
  · decide

theorem gc_behind_state_inv : DataModelInv small_config gc_behind_state := by
  have h := gc_cursor_state_inv
  exact ⟨h.mapping, h.unique, h.queued_invalid, h.conserved, h.free_iff, h.queued_once⟩

set_option maxRecDepth 100000 in
theorem gc_front_state_inv : DataModelInv small_config gc_front_state := by
  have h := gc_cursor_state_inv
  refine ⟨h.mapping, h.unique, ?_, ?_, h.free_iff, ?_⟩
  · decide
  · decide
  · decide

/-- Instance of `gc_relocates_valid_pages` with the cursor inside the victim:
in the state `gc_behind_state` block 0 is selected with its one valid page
`(0, 0)`, the cursor stands at `(0, 1)`, so that the valid page lies before
it, and the front slot of the queue is `(1, 0)`. -/
theorem gc_relocates_valid_pages_witness :
    DataModelInv small_config gc_behind_state ∧
    select_victim small_config gc_behind_state.ssd = (((0 : Nat) : Int), 1) ∧
    gc_behind_state.active_block_index = ((0 : Nat) : Int) ∧
    gc_behind_state.active_page_index = 1 ∧
    is_page_valid (gc_behind_state.ssd 0) 0 = true ∧
    front_outside small_config 0 gc_behind_state.free_block_queue ∧
    ((garbage_collection small_config gc_behind_state).ssd 0).is_free = true ∧
    (∀ q, q < PAGES_PER_BLOCK small_config →
      is_page_valid ((garbage_collection small_config gc_behind_state).ssd 0) q = false) ∧
    ∃ b p, b < BLOCKS_PER_SSD small_config ∧ p < PAGES_PER_BLOCK small_config ∧
      (garbage_collection small_config gc_behind_state).mapping_table
          ((gc_behind_state.ssd 0).oob 0) = b * PAGES_PER_BLOCK small_config + p ∧
      is_page_valid ((garbage_collection small_config gc_behind_state).ssd b) p = true ∧
      ((garbage_collection small_config gc_behind_state).ssd b).oob p
        = (gc_behind_state.ssd 0).oob 0 :=
  have hw : well_sized small_config := by unfold well_sized; decide
  have hfront : front_outside small_config 0 gc_behind_state.free_block_queue :=
    ⟨{ block_index := 1, page_index := 0 }, by decide, by decide, by decide, by decide⟩
  have h := gc_relocates_valid_pages small_config hw gc_behind_state 0 1 gc_behind_state_inv
    (by decide) (Or.inr ⟨by decide, by decide, by decide⟩)
    (fun _ q hq hv => by
      rw [(gc_cursor_state_valid 0 q hq hv).2]
      decide)
    (Or.inl hfront)
  ⟨gc_behind_state_inv, by decide, by decide, by decide, by decide, hfront, h.2.1, h.2.2,
    h.1 0 (by decide) (by decide)⟩

/-- C5 refuted as stated: the state `gc_cursor_state` satisfies the data-model
invariants, `garbage_collection` selects block 0, whose page 0 is valid for
address 5, and 24 slots are queued, so that no exhaustion occurs; but the
cursor stands at that very page, the relocation copies the page onto itself
and then retires it, and on return `mapping_table[5]` names page `(0, 0)`,
which is invalid and carries the sentinel. -/
theorem gc_cursor_in_victim :
    DataModelInv small_config gc_cursor_state ∧
    select_victim small_config gc_cursor_state.ssd = (((0 : Nat) : Int), 1) ∧
    gc_cursor_state.free_block_queue.slots.length = 24 ∧
    is_page_valid (gc_cursor_state.ssd 0) 0 = true ∧ (gc_cursor_state.ssd 0).oob 0 = 5 ∧
    (garbage_collection small_config gc_cursor_state).free_block_queue.slots.length = 32 ∧
    (garbage_collection small_config gc_cursor_state).mapping_table 5 = 0 ∧
    is_page_valid ((garbage_collection small_config gc_cursor_state).ssd 0) 0 = false ∧
    ((garbage_collection small_config gc_cursor_state).ssd 0).oob 0 = SENTINEL := by
  refine ⟨gc_cursor_state_inv, by decide, by decide, by decide, by decide, by decide,
    by decide, by decide, by decide⟩

/-- The condition on the front slot cannot be dropped: the state
`gc_front_state` satisfies the data-model invariants, its cursor is unset and
25 slots are queued, the front one being `(0, 5)`, an invalid page of block
0; `garbage_collection` selects block 0, the refill takes that slot and puts
the cursor at `(0, 0)`, the one valid page is copied onto itself and retired,
and on return `mapping_table[5]` names page `(0, 0)`, which is invalid and
carries the sentinel. -/
theorem gc_front_in_victim :
    DataModelInv small_config gc_front_state ∧
    select_victim small_config gc_front_state.ssd = (((0 : Nat) : Int), 1) ∧
    gc_front_state.active_block_index = -1 ∧
    gc_front_state.free_block_queue.slots.length = 25 ∧
    gc_front_state.free_block_queue.slots.head? = some { block_index := 0, page_index := 5 } ∧
    is_page_valid (gc_front_state.ssd 0) 0 = true ∧ (gc_front_state.ssd 0).oob 0 = 5 ∧
    (garbage_collection small_config gc_front_state).mapping_table 5 = 0 ∧
    is_page_valid ((garbage_collection small_config gc_front_state).ssd 0) 0 = false ∧
    ((garbage_collection small_config gc_front_state).ssd 0).oob 0 = SENTINEL := by
  refine ⟨gc_front_state_inv, by decide, by decide, by decide, by decide, by decide,
    by decide, by decide, by decide, by decide⟩

/-- The run of `garbage_collection` on `gc_behind_state`, evaluated: the one
valid page is copied forward from `(0, 0)` to `(0, 1)`, then page by page to
`(0, 7)`, and, the cursor having reached the end of block 0, the refill takes
the front slot `(1, 0)` and the page arrives at `(1, 0)`: eight internal
writes, after which `mapping_table[5]` is 8, the number of page `(1, 0)`,
which is valid and carries address 5. -/
theorem gc_behind_state_result :
    (garbage_collection small_config gc_behind_state).mapping_table 5 = 8 ∧
    is_page_valid ((garbage_collection small_config gc_behind_state).ssd 1) 0 = true ∧
    ((garbage_collection small_config gc_behind_state).ssd 1).oob 0 = 5 ∧
    (garbage_collection small_config gc_behind_state).active_block_index = 1 ∧
    (garbage_collection small_config gc_behind_state).active_page_index = 1 ∧
    (garbage_collection small_config gc_behind_state).internal_writes = 8 := by
  refine ⟨by decide, by decide, by decide, by decide, by decide, by decide⟩

end FTL
